import Mathlib

/-!
# go-dnscollector: the DNS wire-format decoder (`dnsutils/dns.go`)

A shallow embedding of the decoder and the properties proved about it.

Conventions of the embedding.

* A Go `byte` is a `Fin 256`; a Go `[]byte` is the list of its `len` visible
  bytes; a Go `string` is a list of bytes as well (labels may hold any byte).
* A Go `int` is an `Int` (no computation of the decoder comes near `2^63`),
  values read from bytes (`uint16`, `uint32`, a length byte) are `Nat`.
* A Go function returning `(v, err)` returns the tuple, with `Option DnsErr`
  for the error (`none` is `nil`).
* A run-time panic (index or slice bound out of range) is the `none` of an
  outer `Option`: every index and slice expression of the source goes through
  `index` or `slice`, which check the bounds Go checks.
-/

namespace Dnsutils

/-! ## Bytes, strings, slices -/

abbrev Byte := Fin 256

abbrev GoString := List Byte

/-- The bytes of an ASCII literal. -/
def str (s : String) : GoString := s.toList.map (fun c => Fin.ofNat c.toNat)

/-- The Go builtin `len` on a byte slice or a string. -/
def len (s : List Byte) : Int := (s.length : Int)

/-- The index expression `s[i]`: `none` (panic) unless `0 ≤ i < len(s)`. -/
def index (s : List Byte) (i : Int) : Option Byte :=
  if 0 ≤ i then s[i.toNat]? else none

/-- The slice expression `s[lo:hi]` with `hi` within the length of `s`:
`none` (panic) unless `0 ≤ lo ≤ hi ≤ len(s)`. Go checks `hi` against the
capacity; the one place of the decoder where a slice bound can exceed the
length (`ParseRRSIG`) uses `sliceCap`. -/
def slice (s : List Byte) (lo hi : Int) : Option (List Byte) :=
  if 0 ≤ lo ∧ lo ≤ hi ∧ hi ≤ len s then
    some ((s.drop lo.toNat).take (hi.toNat - lo.toNat))
  else none

/-- The slice expression `s[lo:]`. -/
def sliceFrom (s : List Byte) (lo : Int) : Option (List Byte) := slice s lo (len s)

/-- The slice expression `s[:hi]`. -/
def sliceTo (s : List Byte) (hi : Int) : Option (List Byte) := slice s 0 hi

/-- The slice expression `s[lo:hi]` on a slice whose backing array holds the
bytes `spare` between `len(s)` and `cap(s)`: `none` (panic) unless
`0 ≤ lo ≤ hi ≤ cap(s)`; the result may show bytes of `spare`. -/
def sliceCap (s spare : List Byte) (lo hi : Int) : Option (List Byte) :=
  if 0 ≤ lo ∧ lo ≤ hi ∧ hi ≤ len s + len spare then
    some (((s ++ spare).drop lo.toNat).take (hi.toNat - lo.toNat))
  else none

/-- `binary.BigEndian.Uint16(b)`: `uint16(b[1]) | uint16(b[0])<<8`, panics when
`len(b) < 2`. -/
def Uint16 (b : List Byte) : Option Nat :=
  match b with
  | b0 :: b1 :: _ => some (b1.val ||| (b0.val <<< 8))
  | _ => none

/-- `binary.BigEndian.Uint32(b)`, panics when `len(b) < 4`. -/
def Uint32 (b : List Byte) : Option Nat :=
  match b with
  | b0 :: b1 :: b2 :: b3 :: _ =>
    some (b3.val ||| (b2.val <<< 8) ||| (b1.val <<< 16) ||| (b0.val <<< 24))
  | _ => none

/-- `strings.Join(elems, sep)`. -/
def Join (elems : List GoString) (sep : GoString) : GoString := List.intercalate sep elems

/-! ## Errors -/

inductive DnsErr
  | ErrDecodeDnsHeaderTooShort
  | ErrDecodeDnsLabelTooLong
  | ErrDecodeDnsLabelInvalidData
  | ErrDecodeDnsLabelInvalidOffset
  | ErrDecodeDnsLabelInvalidPointer
  | ErrDecodeDnsLabelTooShort
  | ErrDecodeQuestionQtypeTooShort
  | ErrDecodeDnsAnswerTooShort
  | ErrDecodeDnsAnswerRdataTooShort
  | ErrDecodeEdnsDataTooShort
  | ErrDecodeEdnsOptionTooShort
  deriving DecidableEq, Repr

open DnsErr

/-! ## ParseLabels -/

/-- The local variables of the `for` loop of `ParseLabels`. -/
structure LabelState where
  offset : Int
  startOffset : Int
  maxOffset : Int
  endOffset : Int
  totalLength : Int
  labels : List GoString
  deriving DecidableEq, Repr

/-- What `ParseLabels` returns: `(name, endOffset, err)`. -/
abbrev LabelResult := GoString × Int × Option DnsErr

/-- What one iteration of the loop does to the payload: the indices it reads
and the pointer it follows, if any. Observations only, no decision of the loop
depends on them. -/
inductive Access
  | read (i : Int)
  | jump (pos target : Int)
  deriving DecidableEq, Repr

/-- The outcome of one iteration of the loop of `ParseLabels`. -/
inductive LabelStep
  | next (s : LabelState)
  | ret (r : LabelResult)
  | panic
  deriving DecidableEq, Repr

/-- The indices `lo, lo+1, ..., lo+n-1`. -/
def readRange (lo : Int) (n : Nat) : List Access :=
  (List.range n).map (fun (k : Nat) => Access.read (lo + (k : Int)))

/-- The statement `if endOffset == -1 { endOffset = v }`, as the new value of
`endOffset`. -/
def setEnd (endOffset v : Int) : Int := if endOffset = -1 then v else endOffset

/-- The pointer branch of the loop of `ParseLabels` (dns.go, lines 497-514),
entered when the two top bits of the length byte at `s.offset` are set. -/
def ParseLabels.pointer (payload : List Byte) (s : LabelState) : List Access × LabelStep :=
  if s.offset + 2 > len payload then
    ([], .ret ([], 0, some ErrDecodeDnsLabelTooShort))
  else if s.offset + 2 > s.maxOffset then
    ([], .ret ([], 0, some ErrDecodeDnsLabelInvalidPointer))
  else
    match (slice payload s.offset (s.offset + 2)).bind Uint16 with
    | none => ([.read s.offset, .read (s.offset + 1)], .panic)
    | some v =>
      let ptr : Int := ((v &&& 16383 : Nat) : Int)
      if ptr ≥ s.startOffset then
        ([.read s.offset, .read (s.offset + 1)],
          .ret ([], 0, some ErrDecodeDnsLabelInvalidPointer))
      else
        let endOffset := setEnd s.endOffset (s.offset + 2)
        ([.read s.offset, .read (s.offset + 1), .jump s.offset ptr],
          .next { s with
            endOffset := endOffset
            maxOffset := s.startOffset
            startOffset := ptr
            offset := ptr })

/-- The literal-label branch of the loop of `ParseLabels` (dns.go, lines
516-529), entered when the two top bits of the length byte `length` at
`s.offset` are clear and `length` is not zero. -/
def ParseLabels.literal (payload : List Byte) (s : LabelState) (length : Nat) :
    List Access × LabelStep :=
  if s.offset + length + 1 > len payload then
    ([], .ret ([], 0, some ErrDecodeDnsLabelTooShort))
  else if s.offset + length + 1 > s.maxOffset then
    ([], .ret ([], 0, some ErrDecodeDnsLabelInvalidPointer))
  else
    let totalLength := s.totalLength + length + 1
    if totalLength > 254 then
      ([], .ret ([], 0, some ErrDecodeDnsLabelTooLong))
    else
      match slice payload (s.offset + 1) (s.offset + length + 1) with
      | none => (readRange (s.offset + 1) length, .panic)
      | some label =>
        (readRange (s.offset + 1) length,
          .next { s with
            totalLength := totalLength
            labels := s.labels ++ [label]
            offset := s.offset + length + 1 })

/-- One iteration of the `for` loop of `ParseLabels` (dns.go, lines 483-533),
with the accesses to the payload it makes. -/
def ParseLabels.step (payload : List Byte) (s : LabelState) : List Access × LabelStep :=
  if s.offset ≥ len payload then
    ([], .ret ([], 0, some ErrDecodeDnsLabelTooShort))
  else if s.offset ≥ s.maxOffset then
    ([], .ret ([], 0, some ErrDecodeDnsLabelInvalidPointer))
  else
    match index payload s.offset with
    | none => ([.read s.offset], .panic)
    | some b =>
      let length : Nat := b.val
      if length = 0 then
        let endOffset := setEnd s.endOffset (s.offset + 1)
        ([.read s.offset], .ret (Join s.labels (str "."), endOffset, none))
      else if length &&& 0xc0 = 0xc0 then
        let r := ParseLabels.pointer payload s
        (.read s.offset :: r.1, r.2)
      else if length &&& 0xc0 = 0x00 then
        let r := ParseLabels.literal payload s length
        (.read s.offset :: r.1, r.2)
      else
        ([.read s.offset], .ret ([], 0, some ErrDecodeDnsLabelInvalidData))

/-- The `for` loop of `ParseLabels` run from the state `s`: the accesses made
and what is returned (`none` for a panic). The loop has no bound in the source;
it is a total function here because an iteration that goes on either lowers
`startOffset` or keeps it and raises `offset` below `len(payload)`. -/
def ParseLabels.run (payload : List Byte) (s : LabelState) : List Access × Option LabelResult :=
  match h : (ParseLabels.step payload s).2 with
  | .next s' =>
    let rest := ParseLabels.run payload s'
    ((ParseLabels.step payload s).1 ++ rest.1, rest.2)
  | .ret r => ((ParseLabels.step payload s).1, some r)
  | .panic => ((ParseLabels.step payload s).1, none)
termination_by (s.startOffset.toNat, (len payload - s.offset).toNat)
decreasing_by
  have hp : (ParseLabels.pointer payload s).2 = .next s' →
      s'.startOffset.toNat < s.startOffset.toNat := by
    intro hp
    unfold ParseLabels.pointer at hp
    split at hp
    · cases hp
    split at hp
    · cases hp
    split at hp
    · cases hp
    dsimp only at hp
    split at hp
    · cases hp
    · cases hp
      simp only
      omega
  have hl : ∀ length : Nat, (ParseLabels.literal payload s length).2 = .next s' →
      s'.startOffset = s.startOffset ∧ s.offset < s'.offset := by
    intro length hl
    unfold ParseLabels.literal at hl
    split at hl
    · cases hl
    split at hl
    · cases hl
    dsimp only at hl
    split at hl
    · cases hl
    split at hl
    · cases hl
    · cases hl
      exact ⟨rfl, by simp only; omega⟩
  unfold ParseLabels.step at h
  split at h
  · cases h
  rename_i hlen
  split at h
  · cases h
  split at h
  · cases h
  dsimp only at h
  split at h
  · cases h
  split at h
  · exact Prod.Lex.left _ _ (hp h)
  split at h
  · obtain ⟨h1, h2⟩ := hl _ h
    rw [h1]
    exact Prod.Lex.right _ (by omega)
  · cases h

/-- The state in which `ParseLabels` enters its loop. -/
def ParseLabels.init (offset : Int) (payload : List Byte) : LabelState :=
  { offset := offset
    startOffset := offset
    maxOffset := len payload
    endOffset := -1
    totalLength := 0
    labels := [] }

/-- `ParseLabels(offset, payload)` (dns.go, lines 467-536): the name, the
offset at which the caller resumes, the error; `none` for a panic. -/
def ParseLabels (offset : Int) (payload : List Byte) : Option LabelResult :=
  if offset < 0 then some ([], 0, some ErrDecodeDnsLabelInvalidOffset)
  else (ParseLabels.run payload (ParseLabels.init offset payload)).2

/-- The accesses to the payload that `ParseLabels(offset, payload)` makes, in
order. -/
def ParseLabels.trace (offset : Int) (payload : List Byte) : List Access :=
  if offset < 0 then []
  else (ParseLabels.run payload (ParseLabels.init offset payload)).1

/-- The loop of `ParseLabels` cut after `n` iterations (`none` when it has not
returned by then); used to evaluate `ParseLabels.run` on concrete payloads. -/
def ParseLabels.runN (payload : List Byte) :
    Nat → LabelState → Option (List Access × Option LabelResult)
  | 0, _ => none
  | n + 1, s =>
    match (ParseLabels.step payload s).2 with
    | .next s' =>
      match ParseLabels.runN payload n s' with
      | some rest => some ((ParseLabels.step payload s).1 ++ rest.1, rest.2)
      | none => none
    | .ret r => some ((ParseLabels.step payload s).1, some r)
    | .panic => some ((ParseLabels.step payload s).1, none)

/-! ## Header -/

def DnsLen : Int := 12

def UNKNOWN : String := "UNKNOWN"

/-- The table `Rdatatypes` (dns.go, lines 15-91). -/
def Rdatatypes : List (Int × String) :=
  [(0, "NONE"), (1, "A"), (2, "NS"), (3, "MD"), (4, "MF"), (5, "CNAME"), (6, "SOA"),
   (7, "MB"), (8, "MG"), (9, "MR"), (10, "NULL"), (11, "WKS"), (12, "PTR"), (13, "HINFO"),
   (14, "MINFO"), (15, "MX"), (16, "TXT"), (17, "RP"), (18, "AFSDB"), (19, "X25"),
   (20, "ISDN"), (21, "RT"), (22, "NSAP"), (23, "NSAP_PTR"), (24, "SIG"), (25, "KEY"),
   (26, "PX"), (27, "GPOS"), (28, "AAAA"), (29, "LOC"), (30, "NXT"), (33, "SRV"),
   (35, "NAPTR"), (36, "KX"), (37, "CERT"), (38, "A6"), (39, "DNAME"), (41, "OPT"),
   (42, "APL"), (43, "DS"), (44, "SSHFP"), (45, "IPSECKEY"), (46, "RRSIG"), (47, "NSEC"),
   (48, "DNSKEY"), (49, "DHCID"), (50, "NSEC3"), (51, "NSEC3PARAM"), (52, "TSLA"),
   (53, "SMIMEA"), (55, "HIP"), (56, "NINFO"), (59, "CDS"), (60, "CDNSKEY"),
   (61, "OPENPGPKEY"), (62, "CSYNC"), (64, "SVCB"), (65, "HTTPS"), (99, "SPF"),
   (103, "UNSPEC"), (108, "EUI48"), (109, "EUI64"), (249, "TKEY"), (250, "TSIG"),
   (251, "IXFR"), (252, "AXFR"), (253, "MAILB"), (254, "MAILA"), (255, "ANY"), (256, "URI"),
   (257, "CAA"), (258, "AVC"), (259, "AMTRELAY"), (32768, "TA"), (32769, "DLV")]

/-- The table `Rcodes` (dns.go, lines 92-113). -/
def Rcodes : List (Int × String) :=
  [(0, "NOERROR"), (1, "FORMERR"), (2, "SERVFAIL"), (3, "NXDOMAIN"), (4, "NOIMP"),
   (5, "REFUSED"), (6, "YXDOMAIN"), (7, "YXRRSET"), (8, "NXRRSET"), (9, "NOTAUTH"),
   (10, "NOTZONE"), (11, "DSOTYPENI"), (16, "BADSIG"), (17, "BADKEY"), (18, "BADTIME"),
   (19, "BADMODE"), (20, "BADNAME"), (21, "BADALG"), (22, "BADTRUNC"), (23, "BADCOOKIE")]

def RdatatypeToString (rrtype : Int) : GoString :=
  match Rdatatypes.lookup rrtype with
  | some value => str value
  | none => str UNKNOWN

def RcodeToString (rcode : Int) : GoString :=
  match Rcodes.lookup rcode with
  | some value => str value
  | none => str UNKNOWN

structure DnsHeader where
  Id : Int := 0
  Qr : Int := 0
  Opcode : Int := 0
  Aa : Int := 0
  Tc : Int := 0
  Rd : Int := 0
  Ra : Int := 0
  Z : Int := 0
  Ad : Int := 0
  Cd : Int := 0
  Rcode : Int := 0
  Qdcount : Int := 0
  Ancount : Int := 0
  Nscount : Int := 0
  Arcount : Int := 0
  deriving DecidableEq, Repr

/-- `DecodeDns(payload)` (dns.go, lines 191-221). -/
def DecodeDns (payload : List Byte) : Option (DnsHeader × Option DnsErr) :=
  let dh : DnsHeader := {}
  if len payload < DnsLen then
    some (dh, some ErrDecodeDnsHeaderTooShort)
  else
    match (sliceTo payload 2).bind Uint16, (slice payload 2 4).bind Uint16,
      (slice payload 4 6).bind Uint16, (slice payload 6 8).bind Uint16,
      (slice payload 8 10).bind Uint16, (slice payload 10 12).bind Uint16 with
    | some id, some flagsBytes, some qdcount, some ancount, some nscount, some arcount =>
      some ({ dh with
        Id := (id : Int)
        Qr := ((flagsBytes >>> 0xF : Nat) : Int)
        Opcode := (((flagsBytes >>> 11) &&& 0xF : Nat) : Int)
        Aa := (((flagsBytes >>> 10) &&& 1 : Nat) : Int)
        Tc := (((flagsBytes >>> 9) &&& 1 : Nat) : Int)
        Rd := (((flagsBytes >>> 8) &&& 1 : Nat) : Int)
        Cd := (((flagsBytes >>> 4) &&& 1 : Nat) : Int)
        Ad := (((flagsBytes >>> 5) &&& 1 : Nat) : Int)
        Z := (((flagsBytes >>> 6) &&& 1 : Nat) : Int)
        Ra := (((flagsBytes >>> 7) &&& 1 : Nat) : Int)
        Rcode := ((flagsBytes &&& 0xF : Nat) : Int)
        Qdcount := (qdcount : Int)
        Ancount := (ancount : Int)
        Nscount := (nscount : Int)
        Arcount := (arcount : Int) }, none)
    | _, _, _, _, _, _ => none

/-! ## Question section -/

/-- What `DecodeQuestion` returns: `(qname, qtype, offset, err)`. -/
abbrev QuestionResult := GoString × Int × Int × Option DnsErr

/-- The `for i := 0; i < qdcount; i++` loop of `DecodeQuestion` with `n`
iterations left to run, from the values `qname`, `qtype`, `offset` of the
variables. -/
def DecodeQuestion.loop (payload : List Byte) :
    Nat → GoString → Int → Int → Option QuestionResult
  | 0, qname, qtype, offset => some (qname, qtype, offset, none)
  | n + 1, _, _, offset =>
    match ParseLabels offset payload with
    | none => none
    | some (_, _, some err) => some ([], 0, 0, some err)
    | some (qname, offset, none) =>
      match sliceFrom payload offset with
      | none => none
      | some rest =>
        if len rest < 4 then
          some ([], 0, 0, some ErrDecodeQuestionQtypeTooShort)
        else
          match (slice payload offset (offset + 2)).bind Uint16 with
          | none => none
          | some qtype => DecodeQuestion.loop payload n qname (qtype : Int) (offset + 4)

/-- `DecodeQuestion(qdcount, payload)` (dns.go, lines 352-379). -/
def DecodeQuestion (qdcount : Int) (payload : List Byte) : Option QuestionResult :=
  DecodeQuestion.loop payload qdcount.toNat [] 0 DnsLen

/-! ## Formatting (models of the Go standard library) -/

/-- The verb `%d` of `fmt.Sprintf` on an unsigned value. -/
def decimal (n : Nat) : GoString := (Nat.toDigits 10 n).map (fun c => Fin.ofNat c.toNat)

/-- The verb `%d` of `fmt.Sprintf` on a signed value. -/
def decimalInt (i : Int) : GoString :=
  match i with
  | Int.ofNat n => decimal n
  | Int.negSucc n => str "-" ++ decimal (n + 1)

/-- The conversion `int32(x)` of a `uint32` value: two's complement. -/
def toInt32 (x : Nat) : Int :=
  if x % 4294967296 < 2147483648 then ((x % 4294967296 : Nat) : Int)
  else ((x % 4294967296 : Nat) : Int) - 4294967296

/-- Lower-case hexadecimal without leading zeros. -/
def hex (n : Nat) : GoString := (Nat.toDigits 16 n).map (fun c => Fin.ofNat c.toNat)

/-- Go `net.IP.To4`: the 4-byte form of an address, `none` for `nil`. -/
def IP.To4 (ip : List Byte) : Option (List Byte) :=
  if ip.length = 4 then some ip
  else if ip.length = 16 ∧ (ip.take 10).all (fun b => b.val = 0) ∧
      ip[10]? = some 255 ∧ ip[11]? = some 255 then
    some (ip.drop 12)
  else none

/-- The 16-bit groups of an IPv6 address. -/
def IP.groups : List Byte → List Nat
  | a :: b :: t => ((a.val <<< 8) ||| b.val) :: IP.groups t
  | _ => []

/-- The number of zero groups at the head of the list. -/
def IP.zeroRun : List Nat → Nat
  | 0 :: t => IP.zeroRun t + 1
  | _ => 0

/-- The first longest run of zero groups, as `(start, length)`; `i` is the
position of the head of the list and `best` the longest run seen before it. -/
def IP.longestRun : Nat → List Nat → Nat × Nat → Nat × Nat
  | _, [], best => best
  | i, g :: t, best =>
    IP.longestRun (i + 1) t (if IP.zeroRun (g :: t) > best.2 then (i, IP.zeroRun (g :: t)) else best)

/-- The text of a 16-byte address that is not an IPv4-mapped one: hexadecimal
groups separated by colons, the first longest run of two or more zero groups
written `::`. -/
def IP.text6 (ip : List Byte) : GoString :=
  let gs := IP.groups ip
  let run := IP.longestRun 0 gs (0, 0)
  if run.2 ≤ 1 then Join (gs.map hex) (str ":")
  else
    Join ((gs.take run.1).map hex) (str ":") ++ str "::" ++
      Join ((gs.drop (run.1 + run.2)).map hex) (str ":")

/-- Go `net.IP.String` on an address of 4 or 16 bytes (the only lengths the
decoder builds): dotted decimal when `To4` gives a 4-byte form, the IPv6 text
otherwise. -/
def IP.String (ip : List Byte) : GoString :=
  match IP.To4 ip with
  | some p4 => Join (p4.map (fun b => decimal b.val)) (str ".")
  | none => IP.text6 ip

/-! ## RDATA parsers -/

/-- What an RDATA parser returns: `(text, err)`. -/
abbrev RdataResult := GoString × Option DnsErr

/-- `ParseSOA(rdata_offset, payload)` (dns.go, lines 595-622). -/
def ParseSOA (rdata_offset : Int) (payload : List Byte) : Option RdataResult :=
  match ParseLabels rdata_offset payload with
  | none => none
  | some (_, _, some err) => some ([], some err)
  | some (primaryNS, offset, none) =>
    match ParseLabels offset payload with
    | none => none
    | some (_, _, some err) => some ([], some err)
    | some (respMailbox, offset, none) =>
      if offset + 20 > len payload then
        some ([], some ErrDecodeDnsAnswerRdataTooShort)
      else
        match slice payload offset (offset + 20) with
        | none => none
        | some rdata =>
          match (slice rdata 0 4).bind Uint32, (slice rdata 4 8).bind Uint32,
            (slice rdata 8 12).bind Uint32, (slice rdata 12 16).bind Uint32,
            (slice rdata 16 20).bind Uint32 with
          | some serial, some refresh, some retry, some expire, some minimum =>
            some (primaryNS ++ str " " ++ respMailbox ++ str " " ++ decimal serial ++ str " " ++
              decimalInt (toInt32 refresh) ++ str " " ++ decimalInt (toInt32 retry) ++ str " " ++
              decimalInt (toInt32 expire) ++ str " " ++ decimal minimum, none)
          | _, _, _, _, _ => none

/-- `ParseA(r)` (dns.go, lines 631-638). -/
def ParseA (r : List Byte) : Option RdataResult :=
  if len r < 4 then some ([], some ErrDecodeDnsAnswerRdataTooShort)
  else
    match sliceTo r 4 with
    | none => none
    | some addr => some (IP.String addr, none)

/-- `ParseAAAA(rdata)` (dns.go, lines 653-660). -/
def ParseAAAA (rdata : List Byte) : Option RdataResult :=
  if len rdata < 16 then some ([], some ErrDecodeDnsAnswerRdataTooShort)
  else
    match sliceTo rdata 16 with
    | none => none
    | some addr => some (IP.String addr, none)

/-- `ParseCNAME(rdata_offset, payload)` (dns.go, lines 669-675). -/
def ParseCNAME (rdata_offset : Int) (payload : List Byte) : Option RdataResult :=
  match ParseLabels rdata_offset payload with
  | none => none
  | some (_, _, some err) => some ([], some err)
  | some (cname, _, none) => some (cname, none)

/-- `ParseMX(rdata_offset, payload)` (dns.go, lines 686-700). -/
def ParseMX (rdata_offset : Int) (payload : List Byte) : Option RdataResult :=
  if len payload < rdata_offset + 3 then some ([], some ErrDecodeDnsAnswerRdataTooShort)
  else
    match (slice payload rdata_offset (rdata_offset + 2)).bind Uint16 with
    | none => none
    | some pref =>
      match ParseLabels (rdata_offset + 2) payload with
      | none => none
      | some (_, _, some err) => some ([], some err)
      | some (host, _, none) => some (decimal pref ++ str " " ++ host, none)

/-- `ParseSRV(rdata_offset, payload)` (dns.go, lines 714-727). -/
def ParseSRV (rdata_offset : Int) (payload : List Byte) : Option RdataResult :=
  if len payload < rdata_offset + 7 then some ([], some ErrDecodeDnsAnswerRdataTooShort)
  else
    match (slice payload rdata_offset (rdata_offset + 2)).bind Uint16,
      (slice payload (rdata_offset + 2) (rdata_offset + 4)).bind Uint16,
      (slice payload (rdata_offset + 4) (rdata_offset + 6)).bind Uint16 with
    | some priority, some weight, some port =>
      match ParseLabels (rdata_offset + 6) payload with
      | none => none
      | some (_, _, some err) => some ([], some err)
      | some (target, _, none) =>
        some (decimal priority ++ str " " ++ decimal weight ++ str " " ++ decimal port ++
          str " " ++ target, none)
    | _, _, _ => none

/-- `ParseNS(rdata_offset, payload)` (dns.go, lines 736-742). -/
def ParseNS (rdata_offset : Int) (payload : List Byte) : Option RdataResult :=
  match ParseLabels rdata_offset payload with
  | none => none
  | some (_, _, some err) => some ([], some err)
  | some (ns, _, none) => some (ns, none)

/-- `ParseTXT(rdata)` (dns.go, lines 752-763). -/
def ParseTXT (rdata : List Byte) : Option RdataResult :=
  if len rdata < 1 then some ([], some ErrDecodeDnsAnswerRdataTooShort)
  else
    match index rdata 0 with
    | none => none
    | some b =>
      let length : Int := (b.val : Int)
      if len rdata - 1 < length then some ([], some ErrDecodeDnsAnswerRdataTooShort)
      else
        match slice rdata 1 (length + 1) with
        | none => none
        | some txt => some (txt, none)

/-- `ParsePTR(rdata_offset, payload)` (dns.go, lines 771-777). -/
def ParsePTR (rdata_offset : Int) (payload : List Byte) : Option RdataResult :=
  match ParseLabels rdata_offset payload with
  | none => none
  | some (_, _, some err) => some ([], some err)
  | some (ptr, _, none) => some (ptr, none)
/-! ## SVCB / HTTPS parameters -/

/-- `SVCParamKeyToString(svcParamKey)` (dns.go, lines 867-885). -/
def SVCParamKeyToString (svcParamKey : Nat) : GoString :=
  match svcParamKey with
  | 0 => str "mandatory"
  | 1 => str "alpn"
  | 2 => str "no-default-alpn"
  | 3 => str "port"
  | 4 => str "ipv4hint"
  | 5 => str "ech"
  | 6 => str "ipv6hint"
  | k => str "key" ++ decimal k

/-- The constant `escapedByteSmall` (dns.go, lines 971-975). -/
def escapedByteSmall : String :=
  "\\000\\001\\002\\003\\004\\005\\006\\007\\008\\009\\010\\011\\012\\013\\014\\015\\016\\017\\018\\019" ++
  "\\020\\021\\022\\023\\024\\025\\026\\027\\028\\029\\030\\031"

/-- The constant `escapedByteLarge` (dns.go, lines 976-989). -/
def escapedByteLarge : String :=
  "\\127\\128\\129\\130\\131\\132\\133\\134\\135\\136\\137\\138\\139\\140\\141\\142\\143\\144\\145\\146" ++
  "\\147\\148\\149\\150\\151\\152\\153\\154\\155\\156\\157\\158\\159\\160\\161\\162\\163\\164\\165\\166" ++
  "\\167\\168\\169\\170\\171\\172\\173\\174\\175\\176\\177\\178\\179\\180\\181\\182\\183\\184\\185\\186" ++
  "\\187\\188\\189\\190\\191\\192\\193\\194\\195\\196\\197\\198\\199\\200\\201\\202\\203\\204\\205\\206" ++
  "\\207\\208\\209\\210\\211\\212\\213\\214\\215\\216\\217\\218\\219\\220\\221\\222\\223\\224\\225\\226" ++
  "\\227\\228\\229\\230\\231\\232\\233\\234\\235\\236\\237\\238\\239\\240\\241\\242\\243\\244\\245\\246" ++
  "\\247\\248\\249\\250\\251\\252\\253\\254\\255"

/-- `escapeByte(b)` (dns.go, lines 994-1002); `b*4` and `b -= '~' + 1` are
computed in `byte` arithmetic, modulo 256. -/
def escapeByte (b : Byte) : Option GoString :=
  if b.val < 32 then
    slice (str escapedByteSmall) ((b.val * 4 % 256 : Nat) : Int)
      (((b.val * 4 % 256 + 4) % 256 : Nat) : Int)
  else
    let b' : Nat := (b.val + 256 - 127) % 256
    slice (str escapedByteLarge) ((b' : Int) * 4) ((b' : Int) * 4 + 4)

/-- `svcbParamToStr(s)` (dns.go, lines 1004-1021). -/
def svcbParamToStr : List Byte → Option GoString
  | [] => some []
  | e :: t =>
    let piece : Option GoString :=
      if 32 ≤ e.val ∧ e.val ≤ 126 then
        if e.val = 34 ∨ e.val = 59 ∨ e.val = 32 ∨ e.val = 92 then some [92, e]
        else some [e]
      else escapeByte e
    match piece, svcbParamToStr t with
    | some p, some r => some (p ++ r)
    | _, _ => none

/-- The loop of the `mandatory` case of `ParseSVCParam`
(`for i := 0; i < len(paramData); i += 2`) with `n` iterations left. -/
def ParseSVCParam.mandatory (paramData : List Byte) :
    Nat → Int → List GoString → Option RdataResult
  | 0, _, mandatory => some (Join mandatory (str ","), none)
  | n + 1, i, mandatory =>
    match (slice paramData i (i + 2)).bind Uint16 with
    | none => none
    | some paramKey =>
      ParseSVCParam.mandatory paramData n (i + 2) (mandatory ++ [SVCParamKeyToString paramKey])

/-- The loop of the `alpn` case of `ParseSVCParam`, from the values `offset`
and `alpns` of its variables. -/
def ParseSVCParam.alpn (paramData : List Byte) (offset : Int) (alpns : List GoString) :
    Option RdataResult :=
  match h : index paramData offset with
  | none => none
  | some b =>
    let length : Int := (b.val : Int)
    if len paramData < offset + 1 + length then
      some ([], some ErrDecodeDnsAnswerRdataTooShort)
    else
      match (slice paramData (offset + 1) (offset + 1 + length)).bind svcbParamToStr with
      | none => none
      | some a =>
        if offset + 1 + length = len paramData then some (Join (alpns ++ [a]) (str ","), none)
        else ParseSVCParam.alpn paramData (offset + 1 + length) (alpns ++ [a])
termination_by (len paramData - offset).toNat
decreasing_by
  have h0 : 0 ≤ offset ∧ offset < len paramData := by
    unfold index at h
    split at h
    · rename_i h1
      have h2 := (List.getElem?_eq_some.mp h).1
      exact ⟨h1, by unfold len; omega⟩
    · cases h
  omega

/-- The loops of the `ipv4hint` and `ipv6hint` cases of `ParseSVCParam`
(`for offset := 0; offset < len(paramData); offset += stride`) with `n`
iterations left; `parse` is `ParseA` or `ParseAAAA`. -/
def ParseSVCParam.hints (parse : List Byte → Option RdataResult) (stride : Int)
    (paramData : List Byte) : Nat → Int → List GoString → Option RdataResult
  | 0, _, addresses => some (Join addresses (str ","), none)
  | n + 1, offset, addresses =>
    match (slice paramData offset (offset + stride)).bind parse with
    | none => none
    | some (_, some _) => some ([], none)
    | some (address, none) =>
      ParseSVCParam.hints parse stride paramData n (offset + stride) (addresses ++ [address])

/-- `ParseSVCParam(svcParamKey, paramData)` (dns.go, lines 887-967). -/
def ParseSVCParam (svcParamKey : Nat) (paramData : List Byte) : Option RdataResult :=
  match svcParamKey with
  | 0 =>
    if len paramData % 2 ≠ 0 then some ([], some ErrDecodeDnsAnswerRdataTooShort)
    else ParseSVCParam.mandatory paramData ((paramData.length + 1) / 2) 0 []
  | 1 =>
    if len paramData = 0 then some ([], some ErrDecodeDnsAnswerRdataTooShort)
    else ParseSVCParam.alpn paramData 0 []
  | 2 =>
    if len paramData ≠ 0 then some ([], some ErrDecodeDnsAnswerRdataTooShort)
    else some ([], none)
  | 3 =>
    if len paramData ≠ 2 then some ([], some ErrDecodeDnsAnswerRdataTooShort)
    else
      match Uint16 paramData with
      | none => none
      | some port => some (decimal port, none)
  | 4 =>
    if len paramData % 4 ≠ 0 then some ([], some ErrDecodeDnsAnswerRdataTooShort)
    else ParseSVCParam.hints ParseA 4 paramData ((paramData.length + 3) / 4) 0 []
  | 5 =>
    match svcbParamToStr paramData with
    | none => none
    | some v => some (v, none)
  | 6 =>
    if len paramData % 16 ≠ 0 then some ([], some ErrDecodeDnsAnswerRdataTooShort)
    else ParseSVCParam.hints ParseAAAA 16 paramData ((paramData.length + 15) / 16) 0 []
  | _ =>
    match svcbParamToStr paramData with
    | none => none
    | some v => some (v, none)

/-- The loop `for offset < len(rdata)` of `ParseSVCB`, from the values `offset`
and `svcParam` of its variables, and the return that follows it; `ret` is the
text of the priority and the target. -/
def ParseSVCB.loop (rdata : List Byte) (ret : GoString) (offset : Int)
    (svcParam : List GoString) : Option RdataResult :=
  if h : offset < len rdata then
    if len rdata < offset + 4 then some ([], some ErrDecodeDnsAnswerRdataTooShort)
    else
      match (slice rdata offset (offset + 2)).bind Uint16,
        (slice rdata (offset + 2) (offset + 2 + 2)).bind Uint16 with
      | some paramKey, some paramLen =>
        if len rdata < offset + 2 + 2 + paramLen then
          some ([], some ErrDecodeDnsAnswerRdataTooShort)
        else
          match (slice rdata (offset + 2 + 2) (offset + 2 + 2 + paramLen)).bind
            (ParseSVCParam paramKey) with
          | none => none
          | some (_, some err) => some ([], some err)
          | some (param, none) =>
            let param := if (92 : Byte) ∈ param then str "\"" ++ param ++ str "\"" else param
            ParseSVCB.loop rdata ret (offset + 2 + 2 + paramLen)
              (svcParam ++ [SVCParamKeyToString paramKey ++ str "=" ++ param])
      | _, _ => none
  else some (ret ++ str " " ++ Join svcParam (str " "), none)
termination_by (len rdata - offset).toNat
decreasing_by omega

/-- `ParseSVCB(rdata)` (dns.go, lines 789-831). -/
def ParseSVCB (rdata : List Byte) : Option RdataResult :=
  if len rdata < 3 then some ([], some ErrDecodeDnsAnswerRdataTooShort)
  else
    match (slice rdata 0 2).bind Uint16 with
    | none => none
    | some svcPriority =>
      match ParseLabels 2 rdata with
      | none => none
      | some (_, _, some err) => some ([], some err)
      | some (targetName, offset, none) =>
        let targetName := if targetName = [] then str "." else targetName
        let ret := decimal svcPriority ++ str " " ++ targetName
        if len rdata = offset then some (ret, none)
        else ParseSVCB.loop rdata ret offset []

/-! ## RRSIG -/

/-- `ParseRRSIG(rdata)` (dns.go, lines 853-865). The function checks no length:
`rdata[2]` and `rdata[3]` panic when `len(rdata) < 4`, and the slice
expressions, whose bounds Go checks against the capacity, panic when
`cap(rdata) < 32` and otherwise read the bytes `spare` that follow `rdata` in
its backing array. -/
def ParseRRSIG (rdata spare : List Byte) : Option RdataResult :=
  match (sliceCap rdata spare 0 2).bind Uint16, index rdata 2, index rdata 3,
    (sliceCap rdata spare 4 8).bind Uint32, (sliceCap rdata spare 8 12).bind Uint32,
    (sliceCap rdata spare 12 16).bind Uint32, (sliceCap rdata spare 16 18).bind Uint16,
    sliceCap rdata spare 18 24, sliceCap rdata spare 24 32 with
  | some typecovered, some algo, some labels, some originalTTL, some signatureExp,
    some signatureInception, some keyTag, some signerName, some signature =>
    some (decimal typecovered ++ str " " ++ decimal algo.val ++ str " " ++ decimal labels.val ++
      str " " ++ decimal originalTTL ++ str " " ++ decimal signatureExp ++ str " " ++
      decimal signatureInception ++ str " " ++ decimal keyTag ++ str " " ++ signerName ++
      str " " ++ signature, none)
  | _, _, _, _, _, _, _, _, _ => none

/-! ## Answer sections -/

/-- `ParseRdata(rdatatype, rdata, payload, rdata_offset)` (dns.go, lines
538-569); `spare` holds the bytes between `len(rdata)` and `cap(rdata)`. -/
def ParseRdata (rdatatype : GoString) (rdata spare : List Byte) (payload : List Byte)
    (rdata_offset : Int) : Option RdataResult :=
  if rdatatype = str "A" then ParseA rdata
  else if rdatatype = str "AAAA" then ParseAAAA rdata
  else if rdatatype = str "CNAME" then ParseCNAME rdata_offset payload
  else if rdatatype = str "MX" then ParseMX rdata_offset payload
  else if rdatatype = str "SRV" then ParseSRV rdata_offset payload
  else if rdatatype = str "NS" then ParseNS rdata_offset payload
  else if rdatatype = str "TXT" then ParseTXT rdata
  else if rdatatype = str "PTR" then ParsePTR rdata_offset payload
  else if rdatatype = str "SOA" then ParseSOA rdata_offset payload
  else if rdatatype = str "HTTPS" ∨ rdatatype = str "SVCB" then ParseSVCB rdata
  else if rdatatype = str "RRSIG" then ParseRRSIG rdata spare
  else some (str "-", none)

/-- The record type `DnsAnswer`, with the fields `DecodeAnswer` fills (dns.go,
lines 452-458). -/
structure DnsAnswer where
  Name : GoString
  Rdatatype : GoString
  Class : Int
  Ttl : Int
  Rdata : GoString
  deriving DecidableEq, Repr

/-- What `DecodeAnswer` returns: `(answers, offset, err)`. -/
abbrev AnswerResult := List DnsAnswer × Int × Option DnsErr

/-- The `for i := 0; i < ancount; i++` loop of `DecodeAnswer` with `n`
iterations left to run, from the values `offset` and `answers` of the
variables. `spare` holds the bytes between `len(payload)` and `cap(payload)`
in the backing array of `payload`. -/
def DecodeAnswer.loop (payload spare : List Byte) :
    Nat → Int → List DnsAnswer → Option AnswerResult
  | 0, offset, answers => some (answers, offset, none)
  | n + 1, offset, answers =>
    match ParseLabels offset payload with
    | none => none
    | some (_, _, some err) => some (answers, offset, some err)
    | some (name, offset_next, none) =>
      match sliceFrom payload offset_next with
      | none => none
      | some rest =>
        if len rest < 10 then some (answers, offset, some ErrDecodeDnsAnswerTooShort)
        else
          match (slice payload offset_next (offset_next + 2)).bind Uint16,
            (slice payload (offset_next + 2) (offset_next + 4)).bind Uint16,
            (slice payload (offset_next + 4) (offset_next + 8)).bind Uint32,
            (slice payload (offset_next + 8) (offset_next + 10)).bind Uint16,
            sliceFrom payload (offset_next + 10) with
          | some t, some class_, some ttl, some rdlength, some rest10 =>
            if len rest10 < (rdlength : Int) then
              some (answers, offset, some ErrDecodeDnsAnswerRdataTooShort)
            else
              match slice payload (offset_next + 10) (offset_next + 10 + rdlength) with
              | none => none
              | some rdata =>
                if t = 41 then
                  DecodeAnswer.loop payload spare n (offset_next + 10 + rdlength) answers
                else
                  let rdatatype := RdatatypeToString (t : Int)
                  match (sliceTo payload (offset_next + 10 + rdlength)).bind (fun pfx =>
                    ParseRdata rdatatype rdata
                      (payload.drop (offset_next + 10 + rdlength).toNat ++ spare) pfx
                      (offset_next + 10)) with
                  | none => none
                  | some (_, some err) => some (answers, offset, some err)
                  | some (parsed, none) =>
                    DecodeAnswer.loop payload spare n (offset_next + 10 + rdlength)
                      (answers ++ [{ Name := name, Rdatatype := rdatatype, Class := (class_ : Int),
                                     Ttl := (ttl : Int), Rdata := parsed }])
          | _, _, _, _, _ => none

/-- `DecodeAnswer(ancount, start_offset, payload)` (dns.go, lines 408-465). -/
def DecodeAnswer (ancount start_offset : Int) (payload spare : List Byte) :
    Option AnswerResult :=
  DecodeAnswer.loop payload spare ancount.toNat start_offset []

/-! ## DecodePayload -/

/-- The flags of a message that `DecodePayload` sets (`dm.DNS.Flags`). -/
structure DnsFlags where
  QR : Bool
  TC : Bool
  AA : Bool
  RA : Bool
  AD : Bool
  deriving DecidableEq, Repr

/-- The three record lists of a message (`dm.DNS.DnsRRs`). -/
structure DnsRRs where
  Answers : List DnsAnswer
  Nameservers : List DnsAnswer
  Records : List DnsAnswer
  deriving DecidableEq, Repr

/-- The part `dm.DNS` of a message, with the fields `DecodePayload` reads or
writes (dns.go, lines 230-338); the type is declared outside `dns.go`. -/
structure Dns where
  Id : Int
  Rcode : GoString
  Opcode : Int
  Flags : DnsFlags
  Payload : List Byte
  Qname : GoString
  Qtype : GoString
  DnsRRs : DnsRRs
  MalformedPacket : Bool
  deriving DecidableEq, Repr

/-- The part `dm.DnsTap` of a message, with the field `DecodePayload` writes. -/
structure DnsTap where
  Operation : GoString
  deriving DecidableEq, Repr

/-- The type `DnsMessage`, with the parts `DecodePayload` reads or writes; the
type `E` of the EDNS view `dm.EDNS` is declared outside `dns.go` and is left
open. -/
structure DnsMessage (E : Type) where
  DNS : Dns
  DnsTap : DnsTap
  EDNS : E

/-- The configuration type, declared outside `dns.go`; `DecodePayload` takes a
pointer to it and does not read it. -/
structure Config where

/-- The type `decodingError` (dns.go, lines 141-144). -/
structure DecodingError where
  part : String
  err : DnsErr
  deriving DecidableEq, Repr

/-- What `DecodePayload` leaves and returns: the message after the call and the
error. -/
abbrev PayloadResult (E : Type) := DnsMessage E × Option DecodingError

/-- The condition under which `DecodePayload` lets an error of `DecodeAnswer`
pass when the TC flag is set: `errors.Is(err, ErrDecodeDnsAnswerTooShort) ||
errors.Is(err, ErrDecodeDnsAnswerRdataTooShort) || errors.Is(err,
ErrDecodeDnsLabelTooShort)`. -/
def isTruncation (err : DnsErr) : Prop :=
  err = ErrDecodeDnsAnswerTooShort ∨ err = ErrDecodeDnsAnswerRdataTooShort ∨
    err = ErrDecodeDnsLabelTooShort

instance (err : DnsErr) : Decidable (isTruncation err) := by
  unfold isTruncation
  infer_instance

/-- The EDNS options in `DecodePayload` (dns.go, lines 321-336), after the
additional section. `DecodeEDNS` is declared outside `dns.go` and is a
parameter. -/
def DecodePayload.edns {E : Type}
    (DecodeEDNS : Int → Int → List Byte → Option (E × Int × Option DnsErr))
    (dm : DnsMessage E) (header : DnsHeader) (payload_offset : Int) :
    Option (PayloadResult E) :=
  match DecodeEDNS header.Arcount payload_offset dm.DNS.Payload with
  | none => none
  | some (edns, _, none) => some ({ dm with EDNS := edns }, none)
  | some (edns, _, some err) =>
    if dm.DNS.Flags.TC ∧ (isTruncation err ∨ err = ErrDecodeEdnsDataTooShort ∨
        err = ErrDecodeEdnsOptionTooShort) then
      some ({ dm with DNS.MalformedPacket := true, EDNS := edns }, none)
    else
      some ({ dm with DNS.MalformedPacket := true },
        some { part := "edns options", err := err })

/-- The additional section in `DecodePayload` (dns.go, lines 309-320) and
what follows it, from the running offset `payload_offset`. -/
def DecodePayload.additional {E : Type}
    (DecodeEDNS : Int → Int → List Byte → Option (E × Int × Option DnsErr))
    (dm : DnsMessage E) (header : DnsHeader) (spare : List Byte) (payload_offset : Int) :
    Option (PayloadResult E) :=
  if header.Arcount > 0 then
    match DecodeAnswer header.Arcount payload_offset dm.DNS.Payload spare with
    | none => none
    | some (answers, _, none) =>
      DecodePayload.edns DecodeEDNS { dm with DNS.DnsRRs.Records := answers } header
        payload_offset
    | some (answers, _, some err) =>
      if dm.DNS.Flags.TC ∧ isTruncation err then
        DecodePayload.edns DecodeEDNS
          { dm with DNS.MalformedPacket := true, DNS.DnsRRs.Records := answers } header
          payload_offset
      else
        some ({ dm with DNS.MalformedPacket := true },
          some { part := "additional records", err := err })
  else some (dm, none)

/-- The authority section in `DecodePayload` (dns.go, lines 295-308) and what
follows it. -/
def DecodePayload.authority {E : Type}
    (DecodeEDNS : Int → Int → List Byte → Option (E × Int × Option DnsErr))
    (dm : DnsMessage E) (header : DnsHeader) (spare : List Byte) (payload_offset : Int) :
    Option (PayloadResult E) :=
  if header.Nscount > 0 then
    match DecodeAnswer header.Nscount payload_offset dm.DNS.Payload spare with
    | none => none
    | some (answers, offsetrr, none) =>
      DecodePayload.additional DecodeEDNS { dm with DNS.DnsRRs.Nameservers := answers } header
        spare offsetrr
    | some (answers, offsetrr, some err) =>
      if dm.DNS.Flags.TC ∧ isTruncation err then
        DecodePayload.additional DecodeEDNS
          { dm with DNS.MalformedPacket := true, DNS.DnsRRs.Nameservers := answers } header
          spare offsetrr
      else
        some ({ dm with DNS.MalformedPacket := true },
          some { part := "authority records", err := err })
  else DecodePayload.additional DecodeEDNS dm header spare payload_offset

/-- The answer section in `DecodePayload` (dns.go, lines 279-293) and what
follows it. -/
def DecodePayload.answers {E : Type}
    (DecodeEDNS : Int → Int → List Byte → Option (E × Int × Option DnsErr))
    (dm : DnsMessage E) (header : DnsHeader) (spare : List Byte) (payload_offset : Int) :
    Option (PayloadResult E) :=
  if header.Ancount > 0 then
    match DecodeAnswer header.Ancount payload_offset dm.DNS.Payload spare with
    | none => none
    | some (answers, offset, none) =>
      DecodePayload.authority DecodeEDNS { dm with DNS.DnsRRs.Answers := answers } header
        spare offset
    | some (answers, offset, some err) =>
      if dm.DNS.Flags.TC ∧ isTruncation err then
        DecodePayload.authority DecodeEDNS
          { dm with DNS.MalformedPacket := true, DNS.DnsRRs.Answers := answers } header
          spare offset
      else
        some ({ dm with DNS.MalformedPacket := true },
          some { part := "answer records", err := err })
  else DecodePayload.authority DecodeEDNS dm header spare payload_offset

/-- The question section in `DecodePayload` (dns.go, lines 265-277) and what
follows it; `payload_offset` is declared there and starts at 0. -/
def DecodePayload.question {E : Type}
    (DecodeEDNS : Int → Int → List Byte → Option (E × Int × Option DnsErr))
    (dm : DnsMessage E) (header : DnsHeader) (spare : List Byte) :
    Option (PayloadResult E) :=
  if header.Qdcount > 0 then
    match DecodeQuestion header.Qdcount dm.DNS.Payload with
    | none => none
    | some (_, _, _, some err) =>
      some ({ dm with DNS.MalformedPacket := true }, some { part := "query", err := err })
    | some (dns_qname, dns_rrtype, offsetrr, none) =>
      DecodePayload.answers DecodeEDNS
        { dm with DNS.Qname := dns_qname, DNS.Qtype := RdatatypeToString dns_rrtype } header
        spare offsetrr
  else DecodePayload.answers DecodeEDNS dm header spare 0

/-- The message after `DecodePayload` has copied the id, the rcode, the opcode
and the flags of the header into it (dns.go, lines 237-263). -/
def DecodePayload.copyHeader {E : Type} (dm : DnsMessage E) (header : DnsHeader) :
    DnsMessage E :=
  let dm : DnsMessage E :=
    { dm with DNS.Id := header.Id, DNS.Rcode := RcodeToString header.Rcode,
              DNS.Opcode := header.Opcode }
  let dm : DnsMessage E :=
    if dm.DNS.Opcode = 5 ∧ header.Qr = 1 then { dm with DnsTap.Operation := str "UPDATE_QUERY" }
    else dm
  let dm : DnsMessage E :=
    if dm.DNS.Opcode = 5 ∧ header.Qr = 0 then
      { dm with DnsTap.Operation := str "UPDATE_RESPONSE" }
    else dm
  let dm : DnsMessage E := if header.Qr = 1 then { dm with DNS.Flags.QR := true } else dm
  let dm : DnsMessage E := if header.Tc = 1 then { dm with DNS.Flags.TC := true } else dm
  let dm : DnsMessage E := if header.Aa = 1 then { dm with DNS.Flags.AA := true } else dm
  let dm : DnsMessage E := if header.Ra = 1 then { dm with DNS.Flags.RA := true } else dm
  if header.Ad = 1 then { dm with DNS.Flags.AD := true } else dm

/-- `DecodePayload(dm, header, config)` (dns.go, lines 230-338): the message
after the call and the error returned; `none` for a panic. `spare` holds the
bytes between `len` and `cap` of `dm.DNS.Payload`. -/
def DecodePayload {E : Type}
    (DecodeEDNS : Int → Int → List Byte → Option (E × Int × Option DnsErr))
    (dm : DnsMessage E) (header : DnsHeader) (_config : Config) (spare : List Byte) :
    Option (PayloadResult E) :=
  if dm.DNS.MalformedPacket then some (dm, none)
  else DecodePayload.question DecodeEDNS (DecodePayload.copyHeader dm header) header spare

/-! ## Notions used to state the properties -/

/-- An access that reads inside the payload. -/
def InRange (p : List Byte) (a : Access) : Prop := ∃ i, a = .read i ∧ 0 ≤ i ∧ i < len p

/-- The state after a pointer with the 16-bit value `v` is followed. -/
def LabelState.jump (s : LabelState) (v : Nat) : LabelState :=
  { s with
    endOffset := setEnd s.endOffset (s.offset + 2)
    maxOffset := s.startOffset
    startOffset := ((v &&& 16383 : Nat) : Int)
    offset := ((v &&& 16383 : Nat) : Int) }

/-- The state after the label `label`, of length byte `n`, is read. -/
def LabelState.push (s : LabelState) (n : Nat) (label : GoString) : LabelState :=
  { s with
    totalLength := s.totalLength + n + 1
    labels := s.labels ++ [label]
    offset := s.offset + n + 1 }

/-- The position of the first pointer followed in a list of accesses. -/
def firstJump : List Access → Option Int
  | [] => none
  | .jump pos _ :: _ => some pos
  | .read _ :: t => firstJump t

/-- The length of the uncompressed encoding of the labels, without the zero
terminator: the sum over the labels of `length + 1`. -/
def encodedLength (labels : List GoString) : Int :=
  (labels.map (fun l => (l.length : Int) + 1)).sum

/-- The uncompressed wire form of the labels, each after its length byte,
without the zero terminator. -/
def encodeLabels : List GoString → List Byte
  | [] => []
  | l :: t => Fin.ofNat l.length :: (l ++ encodeLabels t)

/-- The labels are fit for the wire: each has 1 to 63 bytes. -/
def ValidLabels (labels : List GoString) : Prop :=
  ∀ l ∈ labels, 1 ≤ l.length ∧ l.length ≤ 63

/-- The header that `DecodeDns` builds from the twelve bytes, field by field
in arithmetic. -/
def headerOf (p0 p1 p2 p3 p4 p5 p6 p7 p8 p9 p10 p11 : Byte) : DnsHeader :=
  { Id := ((p0.val * 256 + p1.val : Nat) : Int)
    Qr := ((p2.val / 128 : Nat) : Int)
    Opcode := ((p2.val / 8 % 16 : Nat) : Int)
    Aa := ((p2.val / 4 % 2 : Nat) : Int)
    Tc := ((p2.val / 2 % 2 : Nat) : Int)
    Rd := ((p2.val % 2 : Nat) : Int)
    Ra := ((p3.val / 128 : Nat) : Int)
    Z := ((p3.val / 64 % 2 : Nat) : Int)
    Ad := ((p3.val / 32 % 2 : Nat) : Int)
    Cd := ((p3.val / 16 % 2 : Nat) : Int)
    Rcode := ((p3.val % 16 : Nat) : Int)
    Qdcount := ((p4.val * 256 + p5.val : Nat) : Int)
    Ancount := ((p6.val * 256 + p7.val : Nat) : Int)
    Nscount := ((p8.val * 256 + p9.val : Nat) : Int)
    Arcount := ((p10.val * 256 + p11.val : Nat) : Int) }

/-- Every flag is 0 or 1, `Opcode` and `Rcode` are in 0..15, `Id` and the
counts are in 0..65535. -/
def DnsHeader.InRange (dh : DnsHeader) : Prop :=
  (0 ≤ dh.Id ∧ dh.Id ≤ 65535) ∧ (0 ≤ dh.Qr ∧ dh.Qr ≤ 1) ∧ (0 ≤ dh.Opcode ∧ dh.Opcode ≤ 15) ∧
  (0 ≤ dh.Aa ∧ dh.Aa ≤ 1) ∧ (0 ≤ dh.Tc ∧ dh.Tc ≤ 1) ∧ (0 ≤ dh.Rd ∧ dh.Rd ≤ 1) ∧
  (0 ≤ dh.Ra ∧ dh.Ra ≤ 1) ∧ (0 ≤ dh.Z ∧ dh.Z ≤ 1) ∧ (0 ≤ dh.Ad ∧ dh.Ad ≤ 1) ∧
  (0 ≤ dh.Cd ∧ dh.Cd ≤ 1) ∧ (0 ≤ dh.Rcode ∧ dh.Rcode ≤ 15) ∧
  (0 ≤ dh.Qdcount ∧ dh.Qdcount ≤ 65535) ∧ (0 ≤ dh.Ancount ∧ dh.Ancount ≤ 65535) ∧
  (0 ≤ dh.Nscount ∧ dh.Nscount ≤ 65535) ∧ (0 ≤ dh.Arcount ∧ dh.Arcount ≤ 65535)

/-- A 23-byte message: a 12-byte header, then one record with the root name,
TYPE 46 (RRSIG), CLASS 1, TTL 0 and RDLENGTH 0. -/
def rrsigPayload : List Byte :=
  [0, 1, 0x80, 0, 0, 0, 0, 1, 0, 0, 0, 0,
   0, 0, 46, 0, 1, 0, 0, 0, 0, 0, 0]

/-! ## The scenarios of the specification -/

/-- Scenario S1, the minimum query for `www.example.com`, type A. -/
def S1 : List Byte :=
  [0x00, 0x01, 0x01, 0x00, 0x00, 0x01, 0x00, 0x00, 0x00, 0x00, 0x00, 0x00,
   0x03, 0x77, 0x77, 0x77, 0x07, 0x65, 0x78, 0x61, 0x6D, 0x70, 0x6C, 0x65, 0x03, 0x63, 0x6F,
   0x6D, 0x00,
   0x00, 0x01, 0x00, 0x01]

/-- Scenario S2, the query of S1 followed by an A record whose name is a
pointer to offset 12. -/
def S2 : List Byte :=
  S1 ++ [0xC0, 0x0C, 0x00, 0x01, 0x00, 0x01, 0x00, 0x00, 0x00, 0x3C, 0x00, 0x04,
    0x5D, 0xB8, 0xD8, 0x22]

/-- Scenario S3, a 30-byte payload with the name `C0 FF` at offset 12. -/
def S3 : List Byte :=
  [0, 0, 0, 0, 0, 1, 0, 0, 0, 0, 0, 0, 0xC0, 0xFF,
   0, 0, 0, 0, 0, 0, 0, 0, 0, 0, 0, 0, 0, 0, 0, 0]

/-- Scenario S7, the labels of a name whose uncompressed encoding, with its
zero terminator, totals 260 bytes: four labels of 63 bytes and one of 2. -/
def S7 : List GoString :=
  [List.replicate 63 97, List.replicate 63 98, List.replicate 63 99, List.replicate 63 100,
   [101, 102]]

/-- At `offset` the payload holds a record whose NAME and 10-byte fixed header
parse and whose RDLENGTH bytes of RDATA are available: the name and its resume
offset, TYPE, CLASS, TTL, RDLENGTH and the RDATA bytes. -/
structure RecordAt (payload : List Byte) (offset : Int) (name : GoString) (offset_next : Int)
    (t class_ ttl rdlength : Nat) (rdata : List Byte) : Prop where
  name_ok : ParseLabels offset payload = some (name, offset_next, none)
  fits : offset_next + 10 + rdlength ≤ len payload
  type_eq : (slice payload offset_next (offset_next + 2)).bind Uint16 = some t
  class_eq : (slice payload (offset_next + 2) (offset_next + 4)).bind Uint16 = some class_
  ttl_eq : (slice payload (offset_next + 4) (offset_next + 8)).bind Uint32 = some ttl
  rdlength_eq : (slice payload (offset_next + 8) (offset_next + 10)).bind Uint16 = some rdlength
  rdata_eq : slice payload (offset_next + 10) (offset_next + 10 + rdlength) = some rdata

/-- The call of `ParseRdata` that `DecodeAnswer` makes for a record of type
`t` whose RDATA `rdata`, of `rdlength` bytes, starts at `offset_next + 10`. -/
def DecodeAnswer.rdataOf (payload spare : List Byte) (offset_next : Int) (t rdlength : Nat)
    (rdata : List Byte) : Option RdataResult :=
  ParseRdata (RdatatypeToString (t : Int)) rdata
    (payload.drop (offset_next + 10 + rdlength).toNat ++ spare)
    (payload.take (offset_next + 10 + rdlength).toNat) (offset_next + 10)

/-- A message made of a 12-byte header, one question whose name is stored
uncompressed at offset 12 (then QTYPE `q0 q1`, QCLASS `q2 q3`), and one record:
the name `C0 0C` (a pointer to offset 12), TYPE 1, CLASS `c0 c1`, TTL
`t0 t1 t2 t3`, RDLENGTH 4 and the address `a b c d`. -/
def messageWithA (header : List Byte) (labels : List GoString)
    (q0 q1 q2 q3 c0 c1 t0 t1 t2 t3 a b c d : Byte) : List Byte :=
  header ++ encodeLabels labels ++
    0 :: q0 :: q1 :: q2 :: q3 ::
    0xC0 :: 0x0C :: 0 :: 1 :: c0 :: c1 :: t0 :: t1 :: t2 :: t3 :: 0 :: 4 :: a :: b :: c :: d :: []

/-- A message with one RRSIG record whose RDLENGTH is 4, followed by 28 bytes
`41`: a 12-byte header, the root name, TYPE 46, CLASS 1, TTL 0, RDLENGTH 4, the
RDATA `00 01 08 02`, the 28 bytes. -/
def leakA : List Byte :=
  [0, 1, 0x80, 0, 0, 0, 0, 1, 0, 0, 0, 0,
   0, 0, 46, 0, 1, 0, 0, 0, 0, 0, 4, 0, 1, 8, 2] ++ List.replicate 28 0x41

/-- The message `leakA` with the 28 bytes after the RDATA changed to `42`. -/
def leakB : List Byte :=
  [0, 1, 0x80, 0, 0, 0, 0, 1, 0, 0, 0, 0,
   0, 0, 46, 0, 1, 0, 0, 0, 0, 0, 4, 0, 1, 8, 2] ++ List.replicate 28 0x42

/-- The query of S1 cut after 32 bytes: one byte of the QTYPE/QCLASS pair is
missing. -/
def S1short : List Byte := S1.take 32

/-- A message with one OPT record after a 12-byte header: the root name,
TYPE 41, CLASS 4096, TTL 0, RDLENGTH 0. -/
def optPayload : List Byte :=
  [0, 1, 0x80, 0, 0, 0, 0, 0, 0, 0, 0, 1,
   0, 0, 41, 0x10, 0, 0, 0, 0, 0, 0, 0]

/-- A truncated response: the header announces one question and two answers
and has the QR, TC, RD and RA bits set; the question and the first answer are
those of S2; of the second answer only the name `C0 0C` and two bytes are
there. -/
def truncatedResponse : List Byte :=
  [0x00, 0x01, 0x83, 0x80, 0x00, 0x01, 0x00, 0x02, 0x00, 0x00, 0x00, 0x00] ++ S2.drop 12 ++
    [0xC0, 0x0C, 0x00, 0x01]

/-- The header of `truncatedResponse`. -/
def truncatedHeader : DnsHeader :=
  { Id := 1, Qr := 1, Tc := 1, Rd := 1, Ra := 1, Qdcount := 1, Ancount := 2 }

/-- A message, not yet decoded, whose payload is `truncatedResponse`. -/
def truncatedMessage : DnsMessage Unit :=
  { DNS :=
      { Id := 0, Rcode := [], Opcode := 0,
        Flags := { QR := false, TC := false, AA := false, RA := false, AD := false },
        Payload := truncatedResponse, Qname := [], Qtype := [],
        DnsRRs := { Answers := [], Nameservers := [], Records := [] },
        MalformedPacket := false },
    DnsTap := { Operation := str "CLIENT_RESPONSE" },
    EDNS := () }

/-- The A record of S2. -/
def S2record : DnsAnswer :=
  { Name := str "www.example.com", Rdatatype := str "A", Class := 1, Ttl := 60,
    Rdata := str "93.184.216.34" }

/-- The text `err.Error()` of each error value: the messages declared in
dns.go, lines 116-124. The two EDNS errors are declared outside `dns.go`;
their messages are the parameters `ednsData` and `ednsOption`. -/
def DnsErr.Error (ednsData ednsOption : GoString) : DnsErr → GoString
  | ErrDecodeDnsHeaderTooShort => str "malformed pkt, dns payload too short to decode header"
  | ErrDecodeDnsLabelTooLong => str "malformed pkt, label too long"
  | ErrDecodeDnsLabelInvalidData => str "malformed pkt, invalid label length byte"
  | ErrDecodeDnsLabelInvalidOffset => str "malformed pkt, invalid offset to decode label"
  | ErrDecodeDnsLabelInvalidPointer =>
    str "malformed pkt, label pointer not pointing to prior data"
  | ErrDecodeDnsLabelTooShort => str "malformed pkt, dns payload too short to get label"
  | ErrDecodeQuestionQtypeTooShort => str "malformed pkt, not enough data to decode qtype"
  | ErrDecodeDnsAnswerTooShort => str "malformed pkt, not enough data to decode answer"
  | ErrDecodeDnsAnswerRdataTooShort =>
    str "malformed pkt, not enough data to decode rdata answer"
  | ErrDecodeEdnsDataTooShort => ednsData
  | ErrDecodeEdnsOptionTooShort => ednsOption

/-- `(*decodingError).Error()` (dns.go, lines 146-148):
`fmt.Sprintf("malformed %s in DNS packet: %v", e.part, e.err)`. -/
def DecodingError.Error (ednsData ednsOption : GoString) (e : DecodingError) : GoString :=
  str "malformed " ++ str e.part ++ str " in DNS packet: " ++
    DnsErr.Error ednsData ednsOption e.err

/-- A message not yet decoded, as the caller of `DecodePayload` builds it:
the payload is set and every other field has its zero value. -/
def freshMessage (payload : List Byte) : DnsMessage Unit :=
  { DNS :=
      { Id := 0, Rcode := [], Opcode := 0,
        Flags := { QR := false, TC := false, AA := false, RA := false, AD := false },
        Payload := payload, Qname := [], Qtype := [],
        DnsRRs := { Answers := [], Nameservers := [], Records := [] },
        MalformedPacket := false },
    DnsTap := { Operation := [] },
    EDNS := () }

/-- Scenario S4: a header with id 1, the QR and TC bits set, no question and
one answer, then the first 5 bytes of a record: the root name and 4 of the 10
bytes of its fixed header. -/
def S4 : List Byte :=
  [0x00, 0x01, 0x82, 0x00, 0x00, 0x00, 0x00, 0x01, 0x00, 0x00, 0x00, 0x00,
   0x00, 0x00, 0x01, 0x00, 0x01]

/-- The header of S4. -/
def S4header : DnsHeader := { Id := 1, Qr := 1, Tc := 1, Ancount := 1 }

/-- A response with no question and one answer: a header with id 1 and the QR
bit set, then an A record with the root name, CLASS 1, TTL 60 and the address
93.184.216.34. -/
def answerOnly : List Byte :=
  [0x00, 0x01, 0x80, 0x00, 0x00, 0x00, 0x00, 0x01, 0x00, 0x00, 0x00, 0x00,
   0x00, 0x00, 0x01, 0x00, 0x01, 0x00, 0x00, 0x00, 0x3C, 0x00, 0x04, 0x5D, 0xB8, 0xD8, 0x22]

/-- The header of `answerOnly`. -/
def answerOnlyHeader : DnsHeader := { Id := 1, Qr := 1, Ancount := 1 }

/-- The record that `DecodeAnswer` reads at offset 0 of S4 and of
`answerOnly`, out of the bytes of the header: the first byte of the id is the
root name, then TYPE, CLASS, TTL and RDLENGTH 0 are read from the rest of the
header. -/
def headerRecord : DnsAnswer :=
  { Name := [], Rdatatype := str "UNKNOWN", Class := 0, Ttl := 256, Rdata := str "-" }

/-- The header of S1. -/
def S1header : DnsHeader := { Id := 1, Rd := 1, Qdcount := 1 }

/-- A message whose payload is the query S1 and whose QR flag is already true
before it is decoded. -/
def staleMessage : DnsMessage Unit :=
  { freshMessage S1 with DNS.Flags.QR := true }

/-- The header of `truncatedResponse` with the TC bit cleared. -/
def plainHeader : DnsHeader :=
  { Id := 1, Qr := 1, Rd := 1, Ra := 1, Qdcount := 1, Ancount := 2 }

/-- The message `truncatedMessage` after `DecodePayload` with
`truncatedHeader`. -/
def truncatedDecoded : DnsMessage Unit :=
  { DNS :=
      { Id := 1, Rcode := str "NOERROR", Opcode := 0,
        Flags := { QR := true, TC := true, AA := false, RA := true, AD := false },
        Payload := truncatedResponse, Qname := str "www.example.com", Qtype := str "A",
        DnsRRs := { Answers := [S2record], Nameservers := [], Records := [] },
        MalformedPacket := true },
    DnsTap := { Operation := str "CLIENT_RESPONSE" },
    EDNS := () }

/-- The big-endian 32-bit word made of the four bytes at offsets `o` to
`o + 3` of `p`. -/
def wordAt (p : List Byte) (o : Int) : Option Nat :=
  match index p o, index p (o + 1), index p (o + 2), index p (o + 3) with
  | some b0, some b1, some b2, some b3 =>
    some (((b0.val * 256 + b1.val) * 256 + b2.val) * 256 + b3.val)
  | _, _, _, _ => none

/-- The value of a 32-bit word read as a two's-complement signed number. -/
def signed32 (w : Nat) : Int :=
  if w < 2147483648 then (w : Int) else (w : Int) - 4294967296

/-- The text of a SOA record: the two names and the five numbers separated by
single spaces. -/
def SOAText (mname rname : GoString) (serial refresh retry expire minimum : Nat) : GoString :=
  Join [mname, rname, decimal serial, decimalInt (signed32 refresh),
    decimalInt (signed32 retry), decimalInt (signed32 expire), decimal minimum] (str " ")

/-- The ASCII digit of `d`, for `d` below 10. -/
def digit (d : Nat) : Byte := Fin.ofNat (48 + d)

/-- The rendering of one byte of an SVCB parameter value, as the
specification states it: the byte itself when it is printable (0x20 to 0x7E)
and none of double quote, semicolon, space, backslash; a backslash and the
byte for these four; a backslash and the three decimal digits of the byte,
zero-padded, otherwise. -/
def renderByte (b : Byte) : GoString :=
  if 0x20 ≤ b.val ∧ b.val ≤ 0x7E then
    if b.val = 0x22 ∨ b.val = 0x3B ∨ b.val = 0x20 ∨ b.val = 0x5C then [0x5C, b] else [b]
  else [0x5C, digit (b.val / 100), digit (b.val / 10 % 10), digit (b.val % 10)]

/-- The renderings of the bytes of a string, in order. -/
def renderBytes : List Byte → GoString
  | [] => []
  | b :: t => renderByte b ++ renderBytes t

/-- A byte that `svcbParamToStr` writes as it is: printable and none of double
quote, semicolon, space, backslash. -/
def PlainByte (b : Byte) : Prop :=
  0x20 ≤ b.val ∧ b.val ≤ 0x7E ∧ b.val ≠ 0x22 ∧ b.val ≠ 0x3B ∧ b.val ≠ 0x20 ∧ b.val ≠ 0x5C

instance (b : Byte) : Decidable (PlainByte b) := by
  unfold PlainByte
  infer_instance

/-- The RDATA of an SVCB/HTTPS record with the priority `p0 p1`, the root
target and one `alpn` parameter (key 1) whose value is `value`. -/
def svcbWithAlpn (p0 p1 : Byte) (value : List Byte) : List Byte :=
  p0 :: p1 :: 0 :: 0 :: 1 :: Fin.ofNat (value.length / 256) :: Fin.ofNat (value.length % 256) ::
    value

/-- Scenario S6: the RDATA `00 01 00 00 01 00 06 02 68 32 02 68 33`. -/
def S6 : List Byte :=
  [0x00, 0x01, 0x00, 0x00, 0x01, 0x00, 0x06, 0x02, 0x68, 0x32, 0x02, 0x68, 0x33]

/-- In an `alpn` value, a length prefix overruns the value: after zero or more
protocol ids that are all there comes a length byte `l` with fewer than `l`
bytes after it. -/
def AlpnOverrun (v : List Byte) : Prop :=
  ∃ (ids : List GoString) (l : Byte) (rest : List Byte),
    (∀ id ∈ ids, id.length ≤ 255) ∧ v = encodeLabels ids ++ l :: rest ∧ rest.length < l.val

/-- The value of an SVCB parameter violates the length rule of its key: key 0
(mandatory) with an odd length, key 1 (alpn) with an empty value or a length
prefix that overruns the value, key 2 (no-default-alpn) with a non-zero
length, key 3 (port) with a length other than 2, key 4 (ipv4hint) with a
length that is not a multiple of 4, key 6 (ipv6hint) with a length that is not
a multiple of 16. Key 5 (ech) and the unknown keys have no length rule. -/
def LengthRuleViolated (svcParamKey : Nat) (v : List Byte) : Prop :=
  match svcParamKey with
  | 0 => v.length % 2 ≠ 0
  | 1 => v = [] ∨ AlpnOverrun v
  | 2 => v.length ≠ 0
  | 3 => v.length ≠ 2
  | 4 => v.length % 4 ≠ 0
  | 6 => v.length % 16 ≠ 0
  | _ => False

/-- The RDATA of a SOA record, from offset 0: MNAME `ns`, RNAME `a`, SERIAL
`FF FF FF FF`, REFRESH `FF FF FF FF`, RETRY 1, EXPIRE `80 00 00 00`, MINIMUM
3600. -/
def soaPayload : List Byte :=
  [0x02, 0x6E, 0x73, 0x00, 0x01, 0x61, 0x00,
   0xFF, 0xFF, 0xFF, 0xFF, 0xFF, 0xFF, 0xFF, 0xFF, 0x00, 0x00, 0x00, 0x01,
   0x80, 0x00, 0x00, 0x00, 0x00, 0x00, 0x0E, 0x10]

/-- A response cut in its authority section, with the TC bit clear: the
header announces one question, one answer and one authority record; the
question and the answer are those of S2; of the authority record only the
name `C0 0C` and two bytes are there. -/
def truncatedAuthority : List Byte :=
  [0x00, 0x01, 0x81, 0x80, 0x00, 0x01, 0x00, 0x01, 0x00, 0x01, 0x00, 0x00] ++ S2.drop 12 ++
    [0xC0, 0x0C, 0x00, 0x01]

/-- The header of `truncatedAuthority`. -/
def truncatedAuthorityHeader : DnsHeader :=
  { Id := 1, Qr := 1, Rd := 1, Ra := 1, Qdcount := 1, Ancount := 1, Nscount := 1 }

/-- A truncated response that announces an authority record: the header has
the QR, TC, RD and RA bits set and announces one question, two answers and one
authority record; the question and the first answer are those of S2; of the
second answer only the name `C0 0C` and two bytes are there. -/
def truncatedBoth : List Byte :=
  [0x00, 0x01, 0x83, 0x80, 0x00, 0x01, 0x00, 0x02, 0x00, 0x01, 0x00, 0x00] ++ S2.drop 12 ++
    [0xC0, 0x0C, 0x00, 0x01]

/-- The header of `truncatedBoth`. -/
def truncatedBothHeader : DnsHeader :=
  { Id := 1, Qr := 1, Tc := 1, Rd := 1, Ra := 1, Qdcount := 1, Ancount := 2, Nscount := 1 }

/-- The type names for which `ParseRdata` has a case (dns.go, lines 541-566). -/
def ParseRdata.cases : List GoString :=
  [str "A", str "AAAA", str "CNAME", str "MX", str "SRV", str "NS", str "TXT", str "PTR",
   str "SOA", str "HTTPS", str "SVCB", str "RRSIG"]

/-- A response with one record of a type `ParseRdata` has no case for: the
query of S1 with ANCOUNT 1, then the name `C0 0C`, TYPE 99 (SPF), CLASS 1,
TTL 60, RDLENGTH 3 and the RDATA `DE AD BE`. -/
def spfResponse : List Byte :=
  [0x00, 0x01, 0x81, 0x80, 0x00, 0x01, 0x00, 0x01, 0x00, 0x00, 0x00, 0x00] ++ S1.drop 12 ++
    [0xC0, 0x0C, 0x00, 0x63, 0x00, 0x01, 0x00, 0x00, 0x00, 0x3C, 0x00, 0x03, 0xDE, 0xAD, 0xBE]

/-- A response with no question and one answer whose name is a pointer that
points forward: the header of `answerOnly` (id 1, the QR bit set, TC clear),
then the two bytes `C0 FF`. -/
def pointerOnly : List Byte :=
  [0x00, 0x01, 0x80, 0x00, 0x00, 0x00, 0x00, 0x01, 0x00, 0x00, 0x00, 0x00, 0xC0, 0xFF]

/-- A truncated response with no question: a header with id `C0 00`, the QR
and TC bits set, no question, one answer and one authority record, then the
first 5 bytes of a record (the root name and 4 of the 10 bytes of its fixed
header). -/
def truncatedNoQuestion : List Byte :=
  [0xC0, 0x00, 0x82, 0x00, 0x00, 0x00, 0x00, 0x01, 0x00, 0x01, 0x00, 0x00,
   0x00, 0x00, 0x01, 0x00, 0x01]

/-- The header of `truncatedNoQuestion`. -/
def truncatedNoQuestionHeader : DnsHeader :=
  { Id := 49152, Qr := 1, Tc := 1, Ancount := 1, Nscount := 1 }

/-! # Theorems -/

/-! ## Bytes and slices -/

set_option maxRecDepth 4096 in
theorem byte_top_bits (b : Byte) :
    (b.val &&& 0xc0 = 0xc0 ↔ 192 ≤ b.val) ∧ (b.val &&& 0xc0 = 0 ↔ b.val < 64) := by
  revert b
  decide

theorem len_nonneg (p : List Byte) : 0 ≤ len p := by
  unfold len; omega

theorem index_eq_some {p : List Byte} {i : Int} {b : Byte} :
    index p i = some b ↔ 0 ≤ i ∧ p[i.toNat]? = some b := by
  unfold index
  split <;> simp [*]

theorem index_isSome {p : List Byte} {i : Int} (h0 : 0 ≤ i) (h1 : i < len p) :
    ∃ b, index p i = some b := by
  unfold len at h1
  have h2 : i.toNat < p.length := by omega
  exact ⟨p[i.toNat], by simp [index, h0, List.getElem?_eq_getElem h2]⟩

theorem index_lt {p : List Byte} {i : Int} {b : Byte} (h : index p i = some b) :
    0 ≤ i ∧ i < len p := by
  rw [index_eq_some] at h
  have h2 := (List.getElem?_eq_some.mp h.2).1
  exact ⟨h.1, by unfold len; omega⟩

theorem slice_eq_some {p : List Byte} {lo hi : Int} (h0 : 0 ≤ lo) (h1 : lo ≤ hi)
    (h2 : hi ≤ len p) :
    slice p lo hi = some ((p.drop lo.toNat).take (hi.toNat - lo.toNat)) := by
  unfold slice
  rw [if_pos ⟨h0, h1, h2⟩]

theorem slice_length {p q : List Byte} {lo hi : Int} (h : slice p lo hi = some q) :
    0 ≤ lo ∧ lo ≤ hi ∧ hi ≤ len p ∧ (q.length : Int) = hi - lo := by
  unfold slice at h
  split at h
  · rename_i hc
    cases h
    refine ⟨hc.1, hc.2.1, hc.2.2, ?_⟩
    have := hc.2.2
    unfold len at this
    simp only [List.length_take, List.length_drop]
    omega
  · cases h

theorem Uint16_isSome {q : List Byte} (h : 2 ≤ q.length) : ∃ v, Uint16 q = some v := by
  match q, h with
  | a :: b :: t, _ => exact ⟨_, rfl⟩

theorem Uint16_lt {q : List Byte} {v : Nat} (h : Uint16 q = some v) : v < 65536 := by
  match q, h with
  | a :: b :: t, h =>
    simp only [Uint16, Option.some.injEq] at h
    subst h
    have ha := a.isLt
    have hb := b.isLt
    have : b.val ||| a.val <<< 8 < 2 ^ 16 := Nat.or_lt_two_pow (by omega) (by
      rw [Nat.shiftLeft_eq]; omega)
    simpa using this

theorem slice_Uint16_isSome {p : List Byte} {lo : Int} (h0 : 0 ≤ lo) (h2 : lo + 2 ≤ len p) :
    ∃ v, (slice p lo (lo + 2)).bind Uint16 = some v := by
  have h := slice_eq_some h0 (by omega : lo ≤ lo + 2) h2
  have hl := (slice_length h).2.2.2
  obtain ⟨v, hv⟩ := Uint16_isSome (q := (p.drop lo.toNat).take ((lo + 2).toNat - lo.toNat)) (by omega)
  exact ⟨v, by rw [h]; exact hv⟩

/-! ## One iteration of the loop of `ParseLabels`, case by case -/

theorem ParseLabels.pointer_cases (p : List Byte) (s : LabelState) (h0 : 0 ≤ s.offset) :
    (∃ acc e, ParseLabels.pointer p s = (acc, .ret ([], 0, some e)) ∧ ∀ a ∈ acc, InRange p a) ∨
    (s.offset + 2 ≤ len p ∧ s.offset + 2 ≤ s.maxOffset ∧
      ∃ v, (slice p s.offset (s.offset + 2)).bind Uint16 = some v ∧
        ((v &&& 16383 : Nat) : Int) < s.startOffset ∧
        ParseLabels.pointer p s =
          ([.read s.offset, .read (s.offset + 1), .jump s.offset ((v &&& 16383 : Nat) : Int)],
            .next { s with
              endOffset := setEnd s.endOffset (s.offset + 2)
              maxOffset := s.startOffset
              startOffset := ((v &&& 16383 : Nat) : Int)
              offset := ((v &&& 16383 : Nat) : Int) })) := by
  unfold ParseLabels.pointer
  by_cases h1 : s.offset + 2 > len p
  · rw [if_pos h1]
    exact Or.inl ⟨_, _, rfl, by simp⟩
  rw [if_neg h1]
  by_cases h2 : s.offset + 2 > s.maxOffset
  · rw [if_pos h2]
    exact Or.inl ⟨_, _, rfl, by simp⟩
  rw [if_neg h2]
  obtain ⟨v, hv⟩ := slice_Uint16_isSome h0 (by omega : s.offset + 2 ≤ len p)
  rw [hv]
  dsimp only
  by_cases h4 : ((v &&& 16383 : Nat) : Int) ≥ s.startOffset
  · rw [if_pos h4]
    refine Or.inl ⟨_, _, rfl, ?_⟩
    intro a ha
    simp only [List.mem_cons, List.mem_singleton, List.not_mem_nil, or_false] at ha
    rcases ha with rfl | rfl
    · exact ⟨_, rfl, h0, by omega⟩
    · exact ⟨_, rfl, by omega, by omega⟩
  · rw [if_neg h4]
    exact Or.inr ⟨by omega, by omega, v, rfl, by omega, rfl⟩

theorem ParseLabels.literal_cases (p : List Byte) (s : LabelState) (length : Nat)
    (h0 : 0 ≤ s.offset) :
    (∃ e, ParseLabels.literal p s length = ([], .ret ([], 0, some e))) ∨
    (s.offset + length + 1 ≤ len p ∧ s.offset + length + 1 ≤ s.maxOffset ∧
      s.totalLength + length + 1 ≤ 254 ∧
      ∃ label, slice p (s.offset + 1) (s.offset + length + 1) = some label ∧
        ParseLabels.literal p s length =
          (readRange (s.offset + 1) length,
            .next { s with
              totalLength := s.totalLength + length + 1
              labels := s.labels ++ [label]
              offset := s.offset + length + 1 })) := by
  unfold ParseLabels.literal
  by_cases h1 : s.offset + length + 1 > len p
  · rw [if_pos h1]
    exact Or.inl ⟨_, rfl⟩
  rw [if_neg h1]
  by_cases h2 : s.offset + length + 1 > s.maxOffset
  · rw [if_pos h2]
    exact Or.inl ⟨_, rfl⟩
  rw [if_neg h2]
  dsimp only
  by_cases h3 : s.totalLength + length + 1 > 254
  · rw [if_pos h3]
    exact Or.inl ⟨_, rfl⟩
  rw [if_neg h3]
  have hs := slice_eq_some (p := p) (by omega : 0 ≤ s.offset + 1)
    (by omega : s.offset + 1 ≤ s.offset + length + 1) (by omega)
  rw [hs]
  exact Or.inr ⟨by omega, by omega, by omega, _, rfl, rfl⟩

theorem readRange_inRange {p : List Byte} {lo : Int} {n : Nat} (h0 : 0 ≤ lo)
    (h1 : lo + n ≤ len p) : ∀ a ∈ readRange lo n, InRange p a := by
  intro a ha
  simp only [readRange, List.mem_map, List.mem_range] at ha
  obtain ⟨k, hk, rfl⟩ := ha
  exact ⟨_, rfl, by omega, by omega⟩

/-- The four ways an iteration of the loop can end, for a cursor that is not
negative: an error, the zero byte, a pointer followed, a label read. -/
theorem ParseLabels.step_cases (p : List Byte) (s : LabelState) (h0 : 0 ≤ s.offset) :
    (∃ acc e, ParseLabels.step p s = (acc, .ret ([], 0, some e)) ∧ ∀ a ∈ acc, InRange p a) ∨
    (s.offset < len p ∧ s.offset < s.maxOffset ∧ index p s.offset = some 0 ∧
      ParseLabels.step p s =
        ([.read s.offset],
          .ret (Join s.labels (str "."), setEnd s.endOffset (s.offset + 1), none))) ∨
    (s.offset + 2 ≤ len p ∧ s.offset + 2 ≤ s.maxOffset ∧
      ∃ b v, index p s.offset = some b ∧ 192 ≤ b.val ∧
        (slice p s.offset (s.offset + 2)).bind Uint16 = some v ∧
        ((v &&& 16383 : Nat) : Int) < s.startOffset ∧
        ParseLabels.step p s =
          ([.read s.offset, .read s.offset, .read (s.offset + 1),
              .jump s.offset ((v &&& 16383 : Nat) : Int)],
            .next { s with
              endOffset := setEnd s.endOffset (s.offset + 2)
              maxOffset := s.startOffset
              startOffset := ((v &&& 16383 : Nat) : Int)
              offset := ((v &&& 16383 : Nat) : Int) })) ∨
    (∃ b label, index p s.offset = some b ∧ 1 ≤ b.val ∧ b.val < 64 ∧
      s.offset + b.val + 1 ≤ len p ∧ s.offset + b.val + 1 ≤ s.maxOffset ∧
      s.totalLength + b.val + 1 ≤ 254 ∧
      slice p (s.offset + 1) (s.offset + b.val + 1) = some label ∧
      ParseLabels.step p s =
        (.read s.offset :: readRange (s.offset + 1) b.val,
          .next { s with
            totalLength := s.totalLength + b.val + 1
            labels := s.labels ++ [label]
            offset := s.offset + b.val + 1 })) := by
  unfold ParseLabels.step
  by_cases h1 : s.offset ≥ len p
  · rw [if_pos h1]
    exact Or.inl ⟨_, _, rfl, by simp⟩
  rw [if_neg h1]
  by_cases h2 : s.offset ≥ s.maxOffset
  · rw [if_pos h2]
    exact Or.inl ⟨_, _, rfl, by simp⟩
  rw [if_neg h2]
  obtain ⟨b, hb⟩ := index_isSome h0 (by omega : s.offset < len p)
  rw [hb]
  dsimp only
  have hread : ∀ a ∈ [Access.read s.offset], InRange p a := by
    intro a ha
    simp only [List.mem_singleton] at ha
    exact ⟨_, ha, h0, by omega⟩
  by_cases h3 : b.val = 0
  · rw [if_pos h3]
    have hb0 : b = 0 := Fin.ext h3
    subst hb0
    exact Or.inr (Or.inl ⟨by omega, by omega, rfl, rfl⟩)
  rw [if_neg h3]
  by_cases h4 : b.val &&& 0xc0 = 0xc0
  · rw [if_pos h4]
    have h192 := (byte_top_bits b).1.mp h4
    rcases ParseLabels.pointer_cases p s h0 with ⟨acc, e, he, hacc⟩ | ⟨h5, h6, v, hv, hlt, he⟩
    · rw [he]
      refine Or.inl ⟨_, _, rfl, ?_⟩
      intro a ha
      rcases List.mem_cons.mp ha with rfl | ha
      · exact ⟨_, rfl, h0, by omega⟩
      · exact hacc a ha
    · rw [he]
      exact Or.inr (Or.inr (Or.inl ⟨h5, h6, b, v, rfl, h192, hv, hlt, rfl⟩))
  rw [if_neg h4]
  by_cases h5 : b.val &&& 0xc0 = 0x00
  · rw [if_pos h5]
    have h64 := (byte_top_bits b).2.mp h5
    rcases ParseLabels.literal_cases p s b.val h0 with ⟨e, he⟩ | ⟨h6, h7, h8, label, hl, he⟩
    · rw [he]
      exact Or.inl ⟨_, _, rfl, hread⟩
    · rw [he]
      exact Or.inr (Or.inr (Or.inr ⟨b, label, rfl, by omega, h64, h6, h7, h8, hl, rfl⟩))
  · rw [if_neg h5]
    exact Or.inl ⟨_, _, rfl, hread⟩

/-! ## The loop of `ParseLabels` -/

theorem ParseLabels.run_next {p : List Byte} {s s' : LabelState} {acc : List Access}
    (h : ParseLabels.step p s = (acc, .next s')) :
    ParseLabels.run p s = (acc ++ (ParseLabels.run p s').1, (ParseLabels.run p s').2) := by
  rw [ParseLabels.run]
  split <;> rename_i h1 <;> rw [h] at h1 <;> cases h1
  rw [h]

theorem ParseLabels.run_ret {p : List Byte} {s : LabelState} {acc : List Access}
    {r : LabelResult} (h : ParseLabels.step p s = (acc, .ret r)) :
    ParseLabels.run p s = (acc, some r) := by
  rw [ParseLabels.run]
  split <;> rename_i h1 <;> rw [h] at h1 <;> cases h1
  rw [h]

/-- Induction along the loop of `ParseLabels`, from any state whose cursor is
not negative: the loop returns an error, or returns at a zero byte, or follows
a pointer and goes on, or reads a label and goes on. -/
theorem ParseLabels.run_induction (p : List Byte) (motive : LabelState → Prop)
    (herr : ∀ s acc e, 0 ≤ s.offset → (∀ a ∈ acc, InRange p a) →
      ParseLabels.run p s = (acc, some ([], 0, some e)) → motive s)
    (hzero : ∀ s, 0 ≤ s.offset → s.offset < len p → s.offset < s.maxOffset →
      index p s.offset = some 0 →
      ParseLabels.run p s = ([.read s.offset],
        some (Join s.labels (str "."), setEnd s.endOffset (s.offset + 1), none)) → motive s)
    (hptr : ∀ s b v, 0 ≤ s.offset → s.offset + 2 ≤ len p → s.offset + 2 ≤ s.maxOffset →
      index p s.offset = some b → 192 ≤ b.val →
      (slice p s.offset (s.offset + 2)).bind Uint16 = some v →
      ((v &&& 16383 : Nat) : Int) < s.startOffset →
      ParseLabels.run p s =
        ([.read s.offset, .read s.offset, .read (s.offset + 1),
            .jump s.offset ((v &&& 16383 : Nat) : Int)] ++ (ParseLabels.run p (s.jump v)).1,
          (ParseLabels.run p (s.jump v)).2) →
      motive (s.jump v) → motive s)
    (hlit : ∀ (s : LabelState) (b : Byte) (label : GoString), 0 ≤ s.offset →
      index p s.offset = some b → 1 ≤ b.val → b.val < 64 →
      (s.offset + (b.val : Int) + 1 ≤ len p) → (s.offset + (b.val : Int) + 1 ≤ s.maxOffset) →
      (s.totalLength + (b.val : Int) + 1 ≤ 254) →
      slice p (s.offset + 1) (s.offset + b.val + 1) = some label →
      ParseLabels.run p s =
        ((.read s.offset :: readRange (s.offset + 1) b.val) ++
            (ParseLabels.run p (s.push b.val label)).1,
          (ParseLabels.run p (s.push b.val label)).2) →
      motive (s.push b.val label) → motive s) :
    ∀ s, 0 ≤ s.offset → motive s := by
  intro s
  induction s using ParseLabels.run.induct p with
  | case1 s s' h ih =>
    intro h0
    rcases ParseLabels.step_cases p s h0 with ⟨acc, e, he, _⟩ | ⟨_, _, _, he⟩ |
      ⟨h1, h2, b, v, hb, hb2, hv, hlt, he⟩ | ⟨b, label, hb, hb1, hb2, h1, h2, h3, hl, he⟩
    · rw [he] at h; cases h
    · rw [he] at h; cases h
    · rw [he] at h
      cases h
      exact hptr s b v h0 h1 h2 hb hb2 hv hlt (ParseLabels.run_next he)
        (ih (Int.ofNat_nonneg _))
    · rw [he] at h
      cases h
      exact hlit s b label h0 hb hb1 hb2 h1 h2 h3 hl (ParseLabels.run_next he)
        (ih (by simp only; omega))
  | case2 s r h =>
    intro h0
    rcases ParseLabels.step_cases p s h0 with ⟨acc, e, he, hacc⟩ | ⟨h1, h2, hb, he⟩ |
      ⟨_, _, b, v, _, _, _, _, he⟩ | ⟨b, label, _, _, _, _, _, _, _, he⟩
    · exact herr s acc e h0 hacc (ParseLabels.run_ret he)
    · exact hzero s h0 h1 h2 hb (ParseLabels.run_ret he)
    · rw [he] at h; cases h
    · rw [he] at h; cases h
  | case3 s h =>
    intro h0
    rcases ParseLabels.step_cases p s h0 with ⟨acc, e, he, _⟩ | ⟨_, _, _, he⟩ |
      ⟨_, _, b, v, _, _, _, _, he⟩ | ⟨b, label, _, _, _, _, _, _, _, he⟩ <;>
    · rw [he] at h; cases h

/-! ## Bridging the loop and its bounded evaluation -/

theorem ParseLabels.run_of_runN (n : Nat) {payload : List Byte} {s : LabelState}
    {r : List Access × Option LabelResult} (h : ParseLabels.runN payload n s = some r) :
    ParseLabels.run payload s = r := by
  induction n generalizing s r with
  | zero => simp [ParseLabels.runN] at h
  | succ n ih =>
    rw [ParseLabels.run]
    simp only [ParseLabels.runN] at h
    split <;> rename_i h1 <;> rw [h1] at h <;> dsimp only at h
    · rename_i s'
      cases h2 : ParseLabels.runN payload n s' with
      | none => rw [h2] at h; simp at h
      | some rest =>
        rw [h2] at h
        rw [ih h2]
        simpa using h
    · simpa using h
    · simpa using h

/-! ## Termination of `ParseLabels` (C2) -/

theorem ParseLabels.step_next_nonneg {p : List Byte} {s s' : LabelState}
    (h : (ParseLabels.step p s).2 = .next s') : 0 ≤ s.offset := by
  by_contra hneg
  have hi : index p s.offset = none := by simp [index, hneg]
  unfold ParseLabels.step at h
  rw [hi] at h
  split at h
  · cases h
  split at h
  · cases h
  · cases h

/-- An iteration of the loop that goes on either follows a pointer, which
lowers `startOffset`, or reads a label, which keeps `startOffset` and raises
the cursor, still within the payload. -/
theorem ParseLabels.step_next {p : List Byte} {s s' : LabelState}
    (h : (ParseLabels.step p s).2 = .next s') :
    (0 ≤ s'.startOffset ∧ s'.startOffset < s.startOffset) ∨
      (s'.startOffset = s.startOffset ∧ s.offset < s'.offset ∧ s'.offset ≤ len p) := by
  have h0 := ParseLabels.step_next_nonneg h
  rcases ParseLabels.step_cases p s h0 with ⟨acc, e, he, _⟩ | ⟨_, _, _, he⟩ |
      ⟨h1, h2, b, v, hb, hb2, hv, hlt, he⟩ | ⟨b, label, hb, hb1, hb2, h1, h2, h3, hl, he⟩
  · rw [he] at h; cases h
  · rw [he] at h; cases h
  · rw [he] at h
    cases h
    exact Or.inl ⟨Int.ofNat_nonneg _, hlt⟩
  · rw [he] at h
    cases h
    exact Or.inr ⟨rfl, by simp only; omega, h1⟩

theorem ParseLabels.step_wf (p : List Byte) :
    WellFounded (fun s' s : LabelState => (ParseLabels.step p s).2 = .next s') := by
  apply Subrelation.wf (r := InvImage (Prod.Lex (· < ·) (· < ·))
    (fun s : LabelState => (s.startOffset.toNat, (len p - s.offset).toNat)))
  · intro s' s h
    rcases ParseLabels.step_next h with ⟨h1, h2⟩ | ⟨h1, h2, h3⟩
    · exact Prod.Lex.left _ _ (by omega)
    · show Prod.Lex _ _ (s'.startOffset.toNat, _) (s.startOffset.toNat, _)
      rw [h1]
      exact Prod.Lex.right _ (by omega)
  · exact InvImage.wf _ (WellFounded.prod_lex Nat.lt_wfRel.wf Nat.lt_wfRel.wf)

theorem ParseLabels.runN_exists (p : List Byte) (s : LabelState) :
    ∃ n, ParseLabels.runN p n s = some (ParseLabels.run p s) := by
  induction s using ParseLabels.run.induct p with
  | case1 s s' h ih =>
    obtain ⟨n, hn⟩ := ih
    refine ⟨n + 1, ?_⟩
    have hs : ParseLabels.step p s = ((ParseLabels.step p s).1, .next s') := by
      rw [← h]
    rw [ParseLabels.run_next hs]
    simp only [ParseLabels.runN, h, hn]
  | case2 s r h =>
    refine ⟨1, ?_⟩
    have hs : ParseLabels.step p s = ((ParseLabels.step p s).1, .ret r) := by
      rw [← h]
    rw [ParseLabels.run_ret hs]
    simp only [ParseLabels.runN, h]
  | case3 s h =>
    refine ⟨1, ?_⟩
    rw [ParseLabels.run]
    simp only [ParseLabels.runN, h]
    split <;> rename_i h1 <;> rw [h] at h1 <;> cases h1

/-- C2. `ParseLabels` terminates on every offset and payload: the relation
"the loop goes from state `s` to state `s'` in one iteration" is well-founded,
because an iteration that goes on either follows a pointer, which strictly
lowers `startOffset` (and keeps it non-negative), or reads a label, which
keeps `startOffset` and strictly raises the cursor within the payload; and so
from every state the loop returns after finitely many iterations, with the
value of the total function `ParseLabels.run`. -/
theorem ParseLabels_terminates (payload : List Byte) :
    WellFounded (fun s' s : LabelState => (ParseLabels.step payload s).2 = .next s') ∧
    (∀ s s' : LabelState, (ParseLabels.step payload s).2 = .next s' →
      (0 ≤ s'.startOffset ∧ s'.startOffset < s.startOffset) ∨
        (s'.startOffset = s.startOffset ∧ s.offset < s'.offset ∧ s'.offset ≤ len payload)) ∧
    (∀ s : LabelState, ∃ n,
      ParseLabels.runN payload n s = some (ParseLabels.run payload s)) :=
  ⟨ParseLabels.step_wf payload, fun _ _ h => ParseLabels.step_next h,
    ParseLabels.runN_exists payload⟩

/-! ## Safety of the accesses of `ParseLabels` (C3) -/

theorem firstJump_append_of_inRange {p : List Byte} {l r : List Access}
    (h : ∀ a ∈ l, InRange p a) : firstJump (l ++ r) = firstJump r := by
  induction l with
  | nil => rfl
  | cons a t ih =>
    obtain ⟨i, rfl, _⟩ := h a (List.mem_cons_self _ _)
    simp only [List.cons_append, firstJump]
    exact ih (fun a ha => h a (List.mem_cons_of_mem _ ha))

theorem firstJump_of_inRange {p : List Byte} {l : List Access}
    (h : ∀ a ∈ l, InRange p a) : firstJump l = none := by
  have := firstJump_append_of_inRange (r := []) h
  simpa [firstJump] using this

theorem not_jump_of_inRange {p : List Byte} {l : List Access}
    (h : ∀ a ∈ l, InRange p a) (pos t : Int) : Access.jump pos t ∉ l := by
  intro hm
  obtain ⟨i, hi, _⟩ := h _ hm
  cases hi

theorem ParseLabels.run_isSome (p : List Byte) :
    ∀ s : LabelState, 0 ≤ s.offset → ∃ r, (ParseLabels.run p s).2 = some r := by
  apply ParseLabels.run_induction
  · intro s acc e _ _ h
    exact ⟨_, by rw [h]⟩
  · intro s _ _ _ _ h
    exact ⟨_, by rw [h]⟩
  · intro s b v _ _ _ _ _ _ _ h ih
    rw [h]
    exact ih
  · intro s b label _ _ _ _ _ _ _ _ h ih
    rw [h]
    exact ih

/-- `ParseLabels` never panics. -/
theorem ParseLabels_isSome (offset : Int) (p : List Byte) :
    ∃ r, ParseLabels offset p = some r := by
  unfold ParseLabels
  split
  · exact ⟨_, rfl⟩
  · exact ParseLabels.run_isSome p _ (by simp only [ParseLabels.init]; omega)

theorem ParseLabels.run_accesses (p : List Byte) :
    ∀ s : LabelState, 0 ≤ s.offset → s.startOffset ≤ s.offset →
      (∀ i, Access.read i ∈ (ParseLabels.run p s).1 → 0 ≤ i ∧ i < len p) ∧
      (∀ pos t, Access.jump pos t ∈ (ParseLabels.run p s).1 → 0 ≤ t ∧ t < s.startOffset) ∧
      (∀ first, firstJump (ParseLabels.run p s).1 = some first → s.offset ≤ first) := by
  apply ParseLabels.run_induction
  · intro s acc e h0 hacc h _
    rw [h]
    refine ⟨?_, ?_, ?_⟩
    · intro i hi
      obtain ⟨j, hj, hr⟩ := hacc _ hi
      cases hj
      exact hr
    · intro pos t hm
      exact absurd hm (not_jump_of_inRange hacc pos t)
    · intro first hf
      rw [firstJump_of_inRange hacc] at hf
      cases hf
  · intro s h0 h1 _ _ h _
    rw [h]
    refine ⟨?_, ?_, ?_⟩
    · intro i hi
      simp only [List.mem_singleton, Access.read.injEq] at hi
      subst hi
      exact ⟨h0, h1⟩
    · intro pos t hm
      simp at hm
    · intro first hf
      simp [firstJump] at hf
  · intro s b v h0 h1 _ _ _ _ hlt h ih hso
    obtain ⟨ih1, ih2, ih3⟩ := ih (le_refl _)
    rw [h]
    refine ⟨?_, ?_, ?_⟩
    · intro i hi
      simp only [List.cons_append, List.nil_append, List.mem_cons, Access.read.injEq,
        reduceCtorEq, false_or] at hi
      rcases hi with rfl | rfl | rfl | hi
      · omega
      · omega
      · omega
      · exact ih1 i hi
    · intro pos t hm
      simp only [List.cons_append, List.nil_append, List.mem_cons, reduceCtorEq,
        Access.jump.injEq, false_or] at hm
      rcases hm with ⟨_, rfl⟩ | hm
      · exact ⟨Int.ofNat_nonneg _, hlt⟩
      · have := ih2 pos t hm
        simp only [LabelState.jump] at this
        omega
    · intro first hf
      simp only [List.cons_append, List.nil_append, firstJump, Option.some.injEq] at hf
      omega
  · intro s b label h0 hb hb1 _ h1 _ _ _ h ih hso
    have hr : ∀ a ∈ Access.read s.offset :: readRange (s.offset + 1) b.val, InRange p a := by
      intro a ha
      rcases List.mem_cons.mp ha with rfl | ha
      · exact ⟨_, rfl, h0, by omega⟩
      · exact readRange_inRange (by omega) (by omega) a ha
    obtain ⟨ih1, ih2, ih3⟩ := ih (by simp only [LabelState.push]; omega)
    rw [h]
    refine ⟨?_, ?_, ?_⟩
    · intro i hi
      rcases List.mem_append.mp hi with hi | hi
      · obtain ⟨j, hj, hr⟩ := hr _ hi
        cases hj
        exact hr
      · exact ih1 i hi
    · intro pos t hm
      rcases List.mem_append.mp hm with hm | hm
      · exact absurd hm (not_jump_of_inRange hr pos t)
      · exact ih2 pos t hm
    · intro first hf
      rw [firstJump_append_of_inRange hr] at hf
      have := ih3 first hf
      simp only [LabelState.push] at this
      omega

/-- C3. For every offset and payload, every payload index that `ParseLabels`
reads lies in `[0, len(payload))`, so that it does not panic, and the target of
every pointer it follows is not negative and strictly less than the position
of the first pointer met in that parse. -/
theorem ParseLabels_accesses_safe (offset : Int) (payload : List Byte) :
    (∀ i, Access.read i ∈ ParseLabels.trace offset payload → 0 ≤ i ∧ i < len payload) ∧
    (∀ pos target first, Access.jump pos target ∈ ParseLabels.trace offset payload →
      firstJump (ParseLabels.trace offset payload) = some first →
      0 ≤ target ∧ target < first) ∧
    (∃ r, ParseLabels offset payload = some r) := by
  refine ⟨?_, ?_, ParseLabels_isSome offset payload⟩
  · unfold ParseLabels.trace
    split
    · intro i hi
      simp at hi
    · exact (ParseLabels.run_accesses payload _ (by simp only [ParseLabels.init]; omega)
        (le_refl _)).1
  · unfold ParseLabels.trace
    split
    · intro pos target first hm
      simp at hm
    · intro pos target first hm hf
      obtain ⟨_, h2, h3⟩ := ParseLabels.run_accesses payload (ParseLabels.init offset payload)
        (by simp only [ParseLabels.init]; omega) (le_refl _)
      have ha := h2 pos target hm
      have hb := h3 first hf
      simp only [ParseLabels.init] at ha hb
      omega

/-! ## The name and the end offset of `ParseLabels` (C4, C5) -/

theorem encodedLength_nil : encodedLength [] = 0 := rfl

theorem encodedLength_cons (l : GoString) (t : List GoString) :
    encodedLength (l :: t) = (l.length : Int) + 1 + encodedLength t := by
  simp [encodedLength]

theorem encodedLength_append (a b : List GoString) :
    encodedLength (a ++ b) = encodedLength a + encodedLength b := by
  simp [encodedLength]

theorem encodedLength_nonneg (a : List GoString) : 0 ≤ encodedLength a := by
  induction a with
  | nil => simp [encodedLength]
  | cons l t ih => rw [encodedLength_cons]; omega

theorem Join_nil (sep : GoString) : Join [] sep = [] := rfl

theorem Join_cons_cons (a b : GoString) (t : List GoString) (sep : GoString) :
    Join (a :: b :: t) sep = a ++ sep ++ Join (b :: t) sep := by
  simp [Join, List.intercalate, List.intersperse]

theorem Join_length (ls : List GoString) (h : ls ≠ []) :
    ((Join ls (str ".")).length : Int) + 1 = encodedLength ls := by
  induction ls with
  | nil => exact absurd rfl h
  | cons a t ih =>
    cases t with
    | nil => simp [Join, List.intercalate, List.intersperse, encodedLength]
    | cons b t =>
      rw [Join_cons_cons, encodedLength_cons, ← ih (by simp)]
      simp only [List.length_append]
      have : (str ".").length = 1 := rfl
      rw [this]
      push_cast
      omega

theorem Join_length_le (ls : List GoString) :
    ((Join ls (str ".")).length : Int) ≤ encodedLength ls := by
  cases ls with
  | nil => simp [Join_nil, encodedLength]
  | cons a t =>
    have := Join_length (a :: t) (by simp)
    omega

theorem ParseLabels.run_name_le (p : List Byte) :
    ∀ s : LabelState, 0 ≤ s.offset →
      s.totalLength = encodedLength s.labels → s.totalLength ≤ 254 →
      ∀ name e, (ParseLabels.run p s).2 = some (name, e, none) → (name.length : Int) ≤ 253 := by
  apply ParseLabels.run_induction
  · intro s acc e _ _ h _ _ name e' hr
    rw [h] at hr
    cases hr
  · intro s _ _ _ _ h ht hle name e' hr
    rw [h] at hr
    cases hr
    by_cases hl : s.labels = []
    · simp [hl, Join_nil]
    · have := Join_length s.labels hl
      omega
  · intro s b v _ _ _ _ _ _ _ h ih ht hle name e' hr
    rw [h] at hr
    exact ih ht hle name e' hr
  · intro s b label _ _ _ _ _ _ h3 hl h ih ht hle name e' hr
    rw [h] at hr
    have hlen := (slice_length hl).2.2.2
    refine ih ?_ ?_ name e' hr
    · simp only [LabelState.push]
      rw [encodedLength_append, encodedLength_cons, encodedLength_nil, ht]
      omega
    · simp only [LabelState.push]
      omega

/-- C4. Whenever `ParseLabels` succeeds, the dotted name it returns has at
most 253 bytes, whether the name is stored uncompressed or assembled through
compression pointers. -/
theorem ParseLabels_name_le_253 (offset : Int) (payload : List Byte) (name : GoString)
    (e : Int) (h : ParseLabels offset payload = some (name, e, none)) :
    name.length ≤ 253 := by
  unfold ParseLabels at h
  split at h
  · cases h
  · have := ParseLabels.run_name_le payload (ParseLabels.init offset payload)
      (by simp only [ParseLabels.init]; omega) rfl (by simp [ParseLabels.init]) name e h
    omega

theorem getLast?_append_of_some {α : Type} (l r : List α) (a : α)
    (h : r.getLast? = some a) : (l ++ r).getLast? = some a := by
  rw [List.getLast?_append, h]
  rfl

theorem ParseLabels.run_end (p : List Byte) :
    ∀ s : LabelState, 0 ≤ s.offset →
      ∀ name e, (ParseLabels.run p s).2 = some (name, e, none) →
        (s.endOffset ≠ -1 → e = s.endOffset) ∧
        (s.endOffset = -1 →
          (firstJump (ParseLabels.run p s).1 = none →
            ∃ z, (ParseLabels.run p s).1.getLast? = some (.read z) ∧
              index p z = some 0 ∧ e = z + 1) ∧
          (∀ first, firstJump (ParseLabels.run p s).1 = some first → e = first + 2)) := by
  apply ParseLabels.run_induction
  · intro s acc e _ _ h name e' hr
    rw [h] at hr
    cases hr
  · intro s _ _ _ hz h name e' hr
    rw [h] at hr ⊢
    cases hr
    refine ⟨fun hne => by simp [setEnd, hne], fun heq => ⟨fun _ => ⟨s.offset, rfl, hz, ?_⟩, ?_⟩⟩
    · simp [setEnd, heq]
    · intro first hf
      simp [firstJump] at hf
  · intro s b v h0 _ _ _ _ _ _ h ih name e' hr
    rw [h] at hr ⊢
    obtain ⟨ih1, _⟩ := ih name e' hr
    refine ⟨fun hne => ?_, fun heq => ⟨fun hn => ?_, fun first hf => ?_⟩⟩
    · have hs : (s.jump v).endOffset = s.endOffset := by simp [LabelState.jump, setEnd, hne]
      rw [← hs]
      exact ih1 (by rw [hs]; exact hne)
    · simp [firstJump] at hn
    · simp only [List.cons_append, List.nil_append, firstJump, Option.some.injEq] at hf
      have hs : (s.jump v).endOffset = s.offset + 2 := by simp [LabelState.jump, setEnd, heq]
      have := ih1 (by rw [hs]; omega)
      rw [hs] at this
      omega
  · intro s b label h0 hb hb1 _ h1 _ _ _ h ih name e' hr
    have hr' : ∀ a ∈ Access.read s.offset :: readRange (s.offset + 1) b.val, InRange p a := by
      intro a ha
      rcases List.mem_cons.mp ha with rfl | ha
      · exact ⟨_, rfl, h0, by omega⟩
      · exact readRange_inRange (by omega) (by omega) a ha
    rw [h] at hr ⊢
    obtain ⟨ih1, ih2⟩ := ih name e' hr
    have hs : (s.push b.val label).endOffset = s.endOffset := rfl
    rw [hs] at ih1 ih2
    refine ⟨ih1, fun heq => ⟨fun hn => ?_, fun first hf => ?_⟩⟩
    · rw [firstJump_append_of_inRange hr'] at hn
      obtain ⟨z, hz1, hz2, hz3⟩ := (ih2 heq).1 hn
      exact ⟨z, getLast?_append_of_some _ _ _ hz1, hz2, hz3⟩
    · rw [firstJump_append_of_inRange hr'] at hf
      exact (ih2 heq).2 first hf

/-- C5. Whenever `ParseLabels` succeeds, the end offset it returns is, if it
followed no pointer, the position just past the zero byte at which it stopped
(the last byte it read), and otherwise the position of the first pointer it
met plus 2: the pointers followed afterwards and the zero byte reached through
them do not change it. -/
theorem ParseLabels_end_offset (offset : Int) (payload : List Byte) (name : GoString)
    (e : Int) (h : ParseLabels offset payload = some (name, e, none)) :
    (firstJump (ParseLabels.trace offset payload) = none →
      ∃ z, (ParseLabels.trace offset payload).getLast? = some (.read z) ∧
        index payload z = some 0 ∧ e = z + 1) ∧
    (∀ first, firstJump (ParseLabels.trace offset payload) = some first → e = first + 2) := by
  unfold ParseLabels at h
  unfold ParseLabels.trace
  split at h
  · cases h
  · rename_i hneg
    rw [if_neg hneg]
    exact (ParseLabels.run_end payload (ParseLabels.init offset payload)
      (by simp only [ParseLabels.init]; omega) name e h).2 rfl

/-! ## Reading bytes at known places -/

theorem be16 (b0 b1 : Byte) : b1.val ||| (b0.val <<< 8) = b0.val * 256 + b1.val := by
  have h := Nat.mul_add_lt_is_or (i := 8) (b := b1.val) (by have := b1.isLt; omega) b0.val
  rw [Nat.shiftLeft_eq, Nat.lor_comm, ← Nat.mul_comm, ← h]

theorem and_16383 (x : Nat) : x &&& 16383 = x % 16384 := by
  have := Nat.and_pow_two_sub_one_eq_mod x 14
  simpa using this

theorem Uint16_pair (b0 b1 : Byte) (t : List Byte) :
    Uint16 (b0 :: b1 :: t) = some (b0.val * 256 + b1.val) := by
  simp only [Uint16, be16]

theorem slice_two {p : List Byte} {o : Int} {b0 b1 : Byte} (h0 : index p o = some b0)
    (h1 : index p (o + 1) = some b1) : slice p o (o + 2) = some [b0, b1] := by
  have hl0 := index_lt h0
  have hl1 := index_lt h1
  rw [index_eq_some] at h0 h1
  rw [slice_eq_some hl0.1 (by omega) (by omega)]
  have hn : (o + 1).toNat = o.toNat + 1 := by omega
  rw [hn] at h1
  have hlen : o.toNat + 1 < p.length := by
    have := hl1.2; unfold len at this; omega
  have e0 := List.getElem?_eq_some.mp h0.2
  have e1 := List.getElem?_eq_some.mp h1.2
  obtain ⟨_, e0⟩ := e0
  obtain ⟨_, e1⟩ := e1
  rw [List.drop_eq_getElem_cons (by omega : o.toNat < p.length),
    List.drop_eq_getElem_cons hlen, e0, e1]
  have : (o + 2).toNat - o.toNat = 2 := by omega
  rw [this]
  rfl

theorem index_append (pre x : List Byte) (i : Int) (hi : 0 ≤ i) :
    index (pre ++ x) (pre.length + i) = index x i := by
  unfold index
  rw [if_pos (by omega), if_pos hi]
  have : ((pre.length : Int) + i).toNat = pre.length + i.toNat := by omega
  rw [this, List.getElem?_append_right (by omega)]
  simp

theorem slice_append (pre x : List Byte) (lo hi : Int) (hlo : 0 ≤ lo) :
    slice (pre ++ x) (pre.length + lo) (pre.length + hi) = slice x lo hi := by
  unfold slice len
  by_cases hc : 0 ≤ lo ∧ lo ≤ hi ∧ hi ≤ (x.length : Int)
  · rw [if_pos hc, if_pos (by simp only [List.length_append]; push_cast; omega)]
    have h1 : ((pre.length : Int) + lo).toNat = pre.length + lo.toNat := by omega
    have h2 : ((pre.length : Int) + hi).toNat - (pre.length + lo.toNat) = hi.toNat - lo.toNat := by
      omega
    rw [h1, h2, List.drop_append]
  · rw [if_neg hc, if_neg (by simp only [List.length_append]; push_cast; omega)]

theorem slice_head (l x : List Byte) : slice (l ++ x) 0 l.length = some l := by
  rw [slice_eq_some (le_refl _) (by omega) (by unfold len; simp)]
  simp

/-! ## A pointer that does not point backwards (C6) -/

/-- C6. If the byte at `offset` has its two top bits set and the 14-bit value
of the pointer it starts with the next byte is at least `offset` (a pointer to
itself, to the same position or forward), `ParseLabels(offset, payload)`
fails with `ErrDecodeDnsLabelInvalidPointer`. -/
theorem ParseLabels_forward_pointer (offset : Int) (payload : List Byte) (b0 b1 : Byte)
    (h0 : 0 ≤ offset) (h2 : offset + 2 ≤ len payload)
    (hb0 : index payload offset = some b0) (hb1 : index payload (offset + 1) = some b1)
    (htop : 192 ≤ b0.val)
    (hptr : offset ≤ (((b0.val * 256 + b1.val) % 16384 : Nat) : Int)) :
    ParseLabels offset payload = some ([], 0, some ErrDecodeDnsLabelInvalidPointer) := by
  unfold ParseLabels
  rw [if_neg (by omega)]
  have hstep : ParseLabels.step payload (ParseLabels.init offset payload) =
      ([.read offset, .read offset, .read (offset + 1)],
        .ret ([], 0, some ErrDecodeDnsLabelInvalidPointer)) := by
    have hv : (slice payload offset (offset + 2)).bind Uint16 =
        some (b0.val * 256 + b1.val) := by
      rw [slice_two hb0 hb1]
      exact Uint16_pair b0 b1 []
    unfold ParseLabels.step
    simp only [ParseLabels.init]
    rw [if_neg (by omega), if_neg (by omega), hb0]
    dsimp only
    rw [if_neg (by omega), if_pos ((byte_top_bits b0).1.mpr htop)]
    unfold ParseLabels.pointer
    dsimp only
    rw [if_neg (by omega), if_neg (by omega), hv]
    dsimp only
    rw [and_16383, if_pos (by omega)]
  rw [ParseLabels.run_ret hstep]


/-! ## Names stored uncompressed (C7, C10) -/

theorem ParseLabels.run_next_snd {p : List Byte} {s s' : LabelState}
    (h : (ParseLabels.step p s).2 = .next s') :
    (ParseLabels.run p s).2 = (ParseLabels.run p s').2 := by
  have hs : ParseLabels.step p s = ((ParseLabels.step p s).1, .next s') := by rw [← h]
  rw [ParseLabels.run_next hs]

theorem ParseLabels.run_ret_snd {p : List Byte} {s : LabelState} {r : LabelResult}
    (h : (ParseLabels.step p s).2 = .ret r) : (ParseLabels.run p s).2 = some r := by
  have hs : ParseLabels.step p s = ((ParseLabels.step p s).1, .ret r) := by rw [← h]
  rw [ParseLabels.run_ret hs]

theorem ParseLabels.step_zero {p : List Byte} {s : LabelState}
    (hb : index p s.offset = some 0) (hmax : s.offset < s.maxOffset) :
    (ParseLabels.step p s).2 =
      .ret (Join s.labels (str "."), setEnd s.endOffset (s.offset + 1), none) := by
  have hl := index_lt hb
  unfold ParseLabels.step
  rw [if_neg (by omega), if_neg (by omega), hb]
  rfl

theorem ParseLabels.step_label {p : List Byte} {s : LabelState} {b : Byte} {label : GoString}
    (hb : index p s.offset = some b) (h1 : 1 ≤ b.val) (h64 : b.val < 64)
    (hlen : s.offset + b.val + 1 ≤ len p) (hmax : s.offset + b.val + 1 ≤ s.maxOffset)
    (hl : slice p (s.offset + 1) (s.offset + b.val + 1) = some label) :
    (ParseLabels.step p s).2 =
      if s.totalLength + b.val + 1 > 254 then .ret ([], 0, some ErrDecodeDnsLabelTooLong)
      else .next (s.push b.val label) := by
  have hi := index_lt hb
  have hnp : ¬ (b.val &&& 0xc0 = 0xc0) := by
    rw [(byte_top_bits b).1]; omega
  unfold ParseLabels.step
  rw [if_neg (by omega), if_neg (by omega), hb]
  dsimp only
  rw [if_neg (by omega), if_neg hnp, if_pos ((byte_top_bits b).2.mpr h64)]
  unfold ParseLabels.literal
  rw [if_neg (by omega), if_neg (by omega)]
  dsimp only
  split
  · rfl
  · rw [hl]
    rfl

theorem encodeLabels_length (ls : List GoString) :
    ((encodeLabels ls).length : Int) = encodedLength ls := by
  induction ls with
  | nil => rfl
  | cons l t ih =>
    rw [encodedLength_cons, ← ih]
    simp only [encodeLabels, List.length_cons, List.length_append]
    push_cast
    omega

theorem index_middle (pre : List Byte) (b : Byte) (post : List Byte) :
    index (pre ++ b :: post) pre.length = some b := by
  have := index_append pre (b :: post) 0 (le_refl _)
  rw [Int.add_zero] at this
  rw [this]
  simp [index]

theorem slice_middle (pre l post : List Byte) :
    slice (pre ++ (l ++ post)) pre.length (pre.length + l.length) = some l := by
  have := slice_append pre (l ++ post) 0 l.length (le_refl _)
  rw [Int.add_zero] at this
  rw [this, slice_head]

theorem lengthByte_val {l : GoString} (h : l.length ≤ 63) :
    (Fin.ofNat l.length : Byte).val = l.length := by
  simp only [Fin.ofNat, Nat.succ_eq_add_one]
  omega

/-- The facts about the first label of an uncompressed name that the loop
needs. -/
theorem ParseLabels.first_label (pre l rest : List Byte) (s : LabelState)
    (h1 : 1 ≤ l.length) (h63 : l.length ≤ 63) (hs : s.offset = pre.length)
    (hmax : s.maxOffset = len (pre ++ (Fin.ofNat l.length :: l) ++ rest)) :
    (ParseLabels.step (pre ++ (Fin.ofNat l.length :: l) ++ rest) s).2 =
      if s.totalLength + l.length + 1 > 254 then .ret ([], 0, some ErrDecodeDnsLabelTooLong)
      else .next (s.push l.length l) := by
  have hv := lengthByte_val h63
  have hb : index (pre ++ (Fin.ofNat l.length :: l) ++ rest) s.offset =
      some (Fin.ofNat l.length) := by
    rw [hs, List.append_assoc, List.cons_append]
    exact index_middle _ _ _
  have hl : slice (pre ++ (Fin.ofNat l.length :: l) ++ rest) (s.offset + 1)
      (s.offset + (Fin.ofNat l.length : Byte).val + 1) = some l := by
    have := slice_middle (pre ++ [Fin.ofNat l.length]) l rest
    simp only [List.length_append, List.length_singleton, List.append_assoc,
      List.singleton_append] at this
    rw [hs, hv, List.append_assoc, List.cons_append]
    rw [← this]
    congr 1
    push_cast
    omega
  have hlen : s.offset + (Fin.ofNat l.length : Byte).val + 1 ≤
      len (pre ++ (Fin.ofNat l.length :: l) ++ rest) := by
    rw [hs, hv]
    simp only [len, List.length_append, List.length_cons]
    push_cast
    omega
  have := ParseLabels.step_label hb (by omega) (by omega) hlen (by rw [hmax]; exact hlen) hl
  rw [hv] at this
  exact this

theorem ParseLabels.run_uncompressed (ls : List GoString) :
    ∀ (pre post : List Byte) (s : LabelState), ValidLabels ls →
      s.offset = pre.length → s.maxOffset = len (pre ++ encodeLabels ls ++ 0 :: post) →
      s.totalLength + encodedLength ls ≤ 254 →
      (ParseLabels.run (pre ++ encodeLabels ls ++ 0 :: post) s).2 =
        some (Join (s.labels ++ ls) (str "."),
          setEnd s.endOffset (pre.length + encodedLength ls + 1), none) := by
  induction ls with
  | nil =>
    intro pre post s _ hs hmax _
    simp only [encodeLabels, List.append_nil, encodedLength_nil, Int.add_zero] at hmax ⊢
    have hb : index (pre ++ 0 :: post) s.offset = some 0 := by
      rw [hs]; exact index_middle _ _ _
    have hlt : s.offset < s.maxOffset := by
      rw [hmax, hs]
      simp only [len, List.length_append, List.length_cons]
      push_cast
      omega
    rw [ParseLabels.run_ret_snd (ParseLabels.step_zero hb hlt), hs]
  | cons l t ih =>
    intro pre post s hv hs hmax htot
    have hl := hv l (List.mem_cons_self _ _)
    have hvt : ValidLabels t := fun x hx => hv x (List.mem_cons_of_mem _ hx)
    rw [encodedLength_cons] at htot
    have hnn := encodedLength_nonneg t
    have hp : pre ++ encodeLabels (l :: t) ++ 0 :: post =
        pre ++ (Fin.ofNat l.length :: l) ++ (encodeLabels t ++ 0 :: post) := by
      simp [encodeLabels]
    have hp2 : pre ++ encodeLabels (l :: t) ++ 0 :: post =
        (pre ++ Fin.ofNat l.length :: l) ++ encodeLabels t ++ 0 :: post := by
      simp [encodeLabels]
    have hstep := ParseLabels.first_label pre l (encodeLabels t ++ 0 :: post) s hl.1 hl.2 hs
      (by rw [← hp]; exact hmax)
    rw [if_neg (by omega), ← hp] at hstep
    rw [ParseLabels.run_next_snd hstep, hp2]
    rw [ih (pre ++ Fin.ofNat l.length :: l) post (s.push l.length l) hvt
      (by simp only [LabelState.push, List.length_append, List.length_cons]; push_cast; omega)
      (by rw [← hp2]; exact hmax)
      (by simp only [LabelState.push]; omega)]
    simp only [LabelState.push, List.append_assoc, List.singleton_append, List.length_append,
      List.length_cons, encodedLength_cons]
    congr 3
    congr 1
    push_cast
    omega

theorem ParseLabels.run_too_long (ls : List GoString) :
    ∀ (pre post : List Byte) (s : LabelState), ValidLabels ls →
      s.offset = pre.length → s.maxOffset = len (pre ++ encodeLabels ls ++ post) →
      254 < s.totalLength + encodedLength ls → s.totalLength ≤ 254 →
      (ParseLabels.run (pre ++ encodeLabels ls ++ post) s).2 =
        some ([], 0, some ErrDecodeDnsLabelTooLong) := by
  induction ls with
  | nil =>
    intro pre post s _ hs hmax htot hle
    rw [encodedLength_nil] at htot
    omega
  | cons l t ih =>
    intro pre post s hv hs hmax htot hle
    have hl := hv l (List.mem_cons_self _ _)
    have hvt : ValidLabels t := fun x hx => hv x (List.mem_cons_of_mem _ hx)
    rw [encodedLength_cons] at htot
    have hp : pre ++ encodeLabels (l :: t) ++ post =
        pre ++ (Fin.ofNat l.length :: l) ++ (encodeLabels t ++ post) := by
      simp [encodeLabels]
    have hp2 : pre ++ encodeLabels (l :: t) ++ post =
        (pre ++ Fin.ofNat l.length :: l) ++ encodeLabels t ++ post := by
      simp [encodeLabels]
    have hstep := ParseLabels.first_label pre l (encodeLabels t ++ post) s hl.1 hl.2 hs
      (by rw [← hp]; exact hmax)
    rw [← hp] at hstep
    by_cases hlong : s.totalLength + l.length + 1 > 254
    · rw [if_pos hlong] at hstep
      exact ParseLabels.run_ret_snd hstep
    · rw [if_neg hlong] at hstep
      rw [ParseLabels.run_next_snd hstep, hp2]
      exact ih (pre ++ Fin.ofNat l.length :: l) post (s.push l.length l) hvt
        (by simp only [LabelState.push, List.length_append, List.length_cons]; push_cast; omega)
        (by rw [← hp2]; exact hmax)
        (by simp only [LabelState.push]; omega)
        (by simp only [LabelState.push]; omega)

/-- A name stored uncompressed is decoded to its labels joined by dots, and
the end offset is just past its zero terminator. -/
theorem ParseLabels_uncompressed (pre post : List Byte) (labels : List GoString)
    (hv : ValidLabels labels) (hlen : encodedLength labels ≤ 254) :
    ParseLabels pre.length (pre ++ encodeLabels labels ++ 0 :: post) =
      some (Join labels (str "."), pre.length + encodedLength labels + 1, none) := by
  unfold ParseLabels
  rw [if_neg (by omega)]
  rw [ParseLabels.run_uncompressed labels pre post _ hv rfl rfl
    (by simp only [ParseLabels.init]; omega)]
  simp [ParseLabels.init, setEnd]

/-- C7. For a name made of labels of 1 to 63 bytes stored uncompressed, with
its zero terminator, inside the payload at the given offset: if the sum over
the labels of `length + 1` exceeds 254, `ParseLabels` fails with
`ErrDecodeDnsLabelTooLong`; if the sum is at most 254, it does not fail with
that error (it succeeds). -/
theorem ParseLabels_too_long (pre post : List Byte) (labels : List GoString)
    (hv : ValidLabels labels) :
    (254 < encodedLength labels →
      ParseLabels pre.length (pre ++ encodeLabels labels ++ 0 :: post) =
        some ([], 0, some ErrDecodeDnsLabelTooLong)) ∧
    (encodedLength labels ≤ 254 →
      ∀ name e, ParseLabels pre.length (pre ++ encodeLabels labels ++ 0 :: post) ≠
        some (name, e, some ErrDecodeDnsLabelTooLong)) := by
  constructor
  · intro hlong
    unfold ParseLabels
    rw [if_neg (by omega)]
    exact ParseLabels.run_too_long labels pre (0 :: post) _ hv rfl rfl
      (by simp only [ParseLabels.init]; omega) (by simp [ParseLabels.init])
  · intro hle name e h
    rw [ParseLabels_uncompressed pre post labels hv hle] at h
    cases h

/-! ## The question section (C10) -/

theorem sliceFrom_append (pre x : List Byte) : sliceFrom (pre ++ x) pre.length = some x := by
  unfold sliceFrom
  rw [slice_eq_some (by omega) (by unfold len; simp) (le_refl _)]
  have : (len (pre ++ x)).toNat - (pre.length : Int).toNat = x.length := by
    simp only [len, List.length_append]
    omega
  rw [this]
  simp

/-- C10. For a payload made of a 12-byte header, a name of labels of 1 to 63
bytes each, within the cap of 254, stored uncompressed with its zero
terminator, then a QTYPE and a QCLASS of two bytes each, followed by
anything, `DecodeQuestion(1, payload)` returns the labels joined by dots, the
big-endian QTYPE, the offset `12 + encoded name length + 4` (the encoded name
length counting the terminator) and no error. -/
theorem DecodeQuestion_uncompressed (header post : List Byte) (labels : List GoString)
    (t0 t1 c0 c1 : Byte) (hh : header.length = 12) (hv : ValidLabels labels)
    (hlen : encodedLength labels ≤ 254) :
    DecodeQuestion 1
        (header ++ encodeLabels labels ++ 0 :: t0 :: t1 :: c0 :: c1 :: post) =
      some (Join labels (str "."), ((t0.val * 256 + t1.val : Nat) : Int),
        12 + (encodedLength labels + 1) + 4, none) := by
  have hpl := ParseLabels_uncompressed header (t0 :: t1 :: c0 :: c1 :: post) labels hv hlen
  have hoff : ((header ++ encodeLabels labels ++ [0]).length : Int) =
      header.length + encodedLength labels + 1 := by
    simp only [List.length_append, List.length_singleton]
    push_cast
    rw [encodeLabels_length]
  have hp : header ++ encodeLabels labels ++ 0 :: t0 :: t1 :: c0 :: c1 :: post =
      (header ++ encodeLabels labels ++ [0]) ++ t0 :: t1 :: c0 :: c1 :: post := by simp
  have hrest : sliceFrom (header ++ encodeLabels labels ++ 0 :: t0 :: t1 :: c0 :: c1 :: post)
      (header.length + encodedLength labels + 1) = some (t0 :: t1 :: c0 :: c1 :: post) := by
    rw [hp, ← hoff]
    exact sliceFrom_append _ _
  have hq : (slice (header ++ encodeLabels labels ++ 0 :: t0 :: t1 :: c0 :: c1 :: post)
      (header.length + encodedLength labels + 1)
      (header.length + encodedLength labels + 1 + 2)).bind Uint16 =
      some (t0.val * 256 + t1.val) := by
    have := slice_middle (header ++ encodeLabels labels ++ [0]) [t0, t1] (c0 :: c1 :: post)
    rw [hoff] at this
    simp only [List.append_assoc, List.singleton_append, List.cons_append, List.nil_append,
      List.length_cons, List.length_nil] at this
    simp only [List.append_assoc]
    rw [show ((0 + 1 + 1 : Nat) : Int) = 2 from rfl] at this
    rw [this]
    exact Uint16_pair t0 t1 []
  have hd : (DnsLen : Int) = header.length := by rw [hh]; rfl
  unfold DecodeQuestion
  simp only [Int.toNat_one, DecodeQuestion.loop]
  rw [hd, hpl]
  simp only [hrest]
  rw [if_neg (by simp only [len, List.length_cons]; push_cast; omega)]
  simp only [hq]
  rw [hh]
  have harith : ((12 : Nat) : Int) + encodedLength labels + 1 + 4 =
      12 + (encodedLength labels + 1) + 4 := by
    push_cast
    omega
  rw [harith]

/-! ## The header (C8, C9) -/

theorem flag_bits (a b : Byte) :
    (a.val * 256 + b.val) >>> 0xF = a.val / 128 ∧
    ((a.val * 256 + b.val) >>> 11) &&& 0xF = a.val / 8 % 16 ∧
    ((a.val * 256 + b.val) >>> 10) &&& 1 = a.val / 4 % 2 ∧
    ((a.val * 256 + b.val) >>> 9) &&& 1 = a.val / 2 % 2 ∧
    ((a.val * 256 + b.val) >>> 8) &&& 1 = a.val % 2 ∧
    ((a.val * 256 + b.val) >>> 4) &&& 1 = b.val / 16 % 2 ∧
    ((a.val * 256 + b.val) >>> 5) &&& 1 = b.val / 32 % 2 ∧
    ((a.val * 256 + b.val) >>> 6) &&& 1 = b.val / 64 % 2 ∧
    ((a.val * 256 + b.val) >>> 7) &&& 1 = b.val / 128 ∧
    (a.val * 256 + b.val) &&& 0xF = b.val % 16 := by
  have ha := a.isLt
  have hb := b.isLt
  have h15 : ∀ x : Nat, x &&& 0xF = x % 16 := fun x => by
    have := Nat.and_pow_two_sub_one_eq_mod x 4
    simpa using this
  simp only [Nat.shiftRight_eq_div_pow, Nat.and_one_is_mod, h15]
  norm_num
  omega

theorem DecodeDns_cons (p0 p1 p2 p3 p4 p5 p6 p7 p8 p9 p10 p11 : Byte) (rest : List Byte) :
    DecodeDns (p0 :: p1 :: p2 :: p3 :: p4 :: p5 :: p6 :: p7 :: p8 :: p9 :: p10 :: p11 :: rest) =
      some (headerOf p0 p1 p2 p3 p4 p5 p6 p7 p8 p9 p10 p11, none) := by
  have hlen : ¬ len (p0 :: p1 :: p2 :: p3 :: p4 :: p5 :: p6 :: p7 :: p8 :: p9 :: p10 ::
      p11 :: rest) < DnsLen := by
    simp only [len, DnsLen, List.length_cons]
    push_cast
    omega
  have s0 : sliceTo (p0 :: p1 :: p2 :: p3 :: p4 :: p5 :: p6 :: p7 :: p8 :: p9 :: p10 ::
      p11 :: rest) 2 = some [p0, p1] := slice_middle [] [p0, p1] _
  have s2 : slice (p0 :: p1 :: p2 :: p3 :: p4 :: p5 :: p6 :: p7 :: p8 :: p9 :: p10 ::
      p11 :: rest) 2 4 = some [p2, p3] := slice_middle [p0, p1] [p2, p3] _
  have s4 : slice (p0 :: p1 :: p2 :: p3 :: p4 :: p5 :: p6 :: p7 :: p8 :: p9 :: p10 ::
      p11 :: rest) 4 6 = some [p4, p5] := slice_middle [p0, p1, p2, p3] [p4, p5] _
  have s6 : slice (p0 :: p1 :: p2 :: p3 :: p4 :: p5 :: p6 :: p7 :: p8 :: p9 :: p10 ::
      p11 :: rest) 6 8 = some [p6, p7] := slice_middle [p0, p1, p2, p3, p4, p5] [p6, p7] _
  have s8 : slice (p0 :: p1 :: p2 :: p3 :: p4 :: p5 :: p6 :: p7 :: p8 :: p9 :: p10 ::
      p11 :: rest) 8 10 = some [p8, p9] :=
    slice_middle [p0, p1, p2, p3, p4, p5, p6, p7] [p8, p9] _
  have s10 : slice (p0 :: p1 :: p2 :: p3 :: p4 :: p5 :: p6 :: p7 :: p8 :: p9 :: p10 ::
      p11 :: rest) 10 12 = some [p10, p11] :=
    slice_middle [p0, p1, p2, p3, p4, p5, p6, p7, p8, p9] [p10, p11] _
  obtain ⟨f1, f2, f3, f4, f5, f6, f7, f8, f9, f10⟩ := flag_bits p2 p3
  unfold DecodeDns
  rw [if_neg hlen, s0, s2, s4, s6, s8, s10]
  simp only [Option.some_bind, Uint16_pair]
  simp only [f1, f2, f3, f4, f5, f6, f7, f8, f9, f10]
  rfl

theorem headerOf_inRange (p0 p1 p2 p3 p4 p5 p6 p7 p8 p9 p10 p11 : Byte) :
    (headerOf p0 p1 p2 p3 p4 p5 p6 p7 p8 p9 p10 p11).InRange := by
  have h0 := p0.isLt
  have h1 := p1.isLt
  have h2 := p2.isLt
  have h3 := p3.isLt
  have h4 := p4.isLt
  have h5 := p5.isLt
  have h6 := p6.isLt
  have h7 := p7.isLt
  have h8 := p8.isLt
  have h9 := p9.isLt
  have h10 := p10.isLt
  have h11 := p11.isLt
  simp only [DnsHeader.InRange, headerOf]
  omega

theorem exists_cons12 {l : List Byte} (h : 12 ≤ l.length) :
    ∃ p0 p1 p2 p3 p4 p5 p6 p7 p8 p9 p10 p11 rest,
      l = p0 :: p1 :: p2 :: p3 :: p4 :: p5 :: p6 :: p7 :: p8 :: p9 :: p10 :: p11 :: rest := by
  rcases l with _ | ⟨p0, _ | ⟨p1, _ | ⟨p2, _ | ⟨p3, _ | ⟨p4, _ | ⟨p5, _ | ⟨p6, _ | ⟨p7, _ |
    ⟨p8, _ | ⟨p9, _ | ⟨p10, _ | ⟨p11, rest⟩⟩⟩⟩⟩⟩⟩⟩⟩⟩⟩⟩
  all_goals first
    | exact ⟨_, _, _, _, _, _, _, _, _, _, _, _, _, rfl⟩
    | (simp only [List.length_cons, List.length_nil] at h; omega)

/-- C8. `DecodeDns` returns an error if and only if the payload has fewer than
12 bytes, the error is then `ErrDecodeDnsHeaderTooShort`, and on every payload
of at least 12 bytes it succeeds (it never panics). -/
theorem DecodeDns_error_iff (payload : List Byte) :
    ∃ dh, DecodeDns payload =
      some (dh, if len payload < 12 then some ErrDecodeDnsHeaderTooShort else none) := by
  by_cases h : len payload < 12
  · refine ⟨{}, ?_⟩
    unfold DecodeDns
    rw [if_pos h, if_pos (by exact h)]
  · rw [if_neg h]
    obtain ⟨p0, p1, p2, p3, p4, p5, p6, p7, p8, p9, p10, p11, rest, rfl⟩ :=
      exists_cons12 (l := payload) (by unfold len at h; omega)
    exact ⟨_, DecodeDns_cons p0 p1 p2 p3 p4 p5 p6 p7 p8 p9 p10 p11 rest⟩

/-- C9. On a payload of at least 12 bytes `p0 ... p11`, `DecodeDns` returns
`Id = p0*256 + p1`; `Qr`, `Opcode`, `Aa`, `Tc`, `Rd` equal to bit 7, bits
6..3, bit 2, bit 1, bit 0 of `p2`; `Ra`, `Z`, `Ad`, `Cd`, `Rcode` equal to bit
7, bit 6, bit 5, bit 4, bits 3..0 of `p3`; the four counts equal to the
big-endian 16-bit values at bytes 4-5, 6-7, 8-9, 10-11; so every flag is 0 or
1, `Opcode` and `Rcode` are in 0..15, `Id` and the counts in 0..65535. -/
theorem DecodeDns_fields (p0 p1 p2 p3 p4 p5 p6 p7 p8 p9 p10 p11 : Byte) (rest : List Byte) :
    DecodeDns (p0 :: p1 :: p2 :: p3 :: p4 :: p5 :: p6 :: p7 :: p8 :: p9 :: p10 :: p11 :: rest) =
      some ({ Id := ((p0.val * 256 + p1.val : Nat) : Int)
              Qr := ((p2.val / 128 : Nat) : Int)
              Opcode := ((p2.val / 8 % 16 : Nat) : Int)
              Aa := ((p2.val / 4 % 2 : Nat) : Int)
              Tc := ((p2.val / 2 % 2 : Nat) : Int)
              Rd := ((p2.val % 2 : Nat) : Int)
              Ra := ((p3.val / 128 : Nat) : Int)
              Z := ((p3.val / 64 % 2 : Nat) : Int)
              Ad := ((p3.val / 32 % 2 : Nat) : Int)
              Cd := ((p3.val / 16 % 2 : Nat) : Int)
              Rcode := ((p3.val % 16 : Nat) : Int)
              Qdcount := ((p4.val * 256 + p5.val : Nat) : Int)
              Ancount := ((p6.val * 256 + p7.val : Nat) : Int)
              Nscount := ((p8.val * 256 + p9.val : Nat) : Int)
              Arcount := ((p10.val * 256 + p11.val : Nat) : Int) }, none) ∧
    ∀ dh err, DecodeDns (p0 :: p1 :: p2 :: p3 :: p4 :: p5 :: p6 :: p7 :: p8 :: p9 :: p10 ::
        p11 :: rest) = some (dh, err) → dh.InRange := by
  refine ⟨DecodeDns_cons p0 p1 p2 p3 p4 p5 p6 p7 p8 p9 p10 p11 rest, ?_⟩
  intro dh err h
  rw [DecodeDns_cons] at h
  cases h
  exact headerOf_inRange p0 p1 p2 p3 p4 p5 p6 p7 p8 p9 p10 p11

/-! ## RRSIG records make `DecodeAnswer` panic (C1) -/

theorem ParseRRSIG_short (rdata spare : List Byte) (h : rdata.length < 4) :
    ParseRRSIG rdata spare = none := by
  have h3 : index rdata 3 = none := by
    simp only [index]
    rw [if_pos (by omega)]
    exact List.getElem?_eq_none (by simpa using (by omega : rdata.length ≤ 3))
  unfold ParseRRSIG
  rw [h3]
  split
  · rename_i h _ _ _ _ _ _
    cases h
  · rfl

theorem ParseLabels_of_runN (n : Nat) {offset : Int} {payload : List Byte}
    {r : List Access × Option LabelResult} (h0 : 0 ≤ offset)
    (h : ParseLabels.runN payload n (ParseLabels.init offset payload) = some r) :
    ParseLabels offset payload = r.2 := by
  unfold ParseLabels
  rw [if_neg (by omega), ParseLabels.run_of_runN n h]

/-- C1 (the code does not do what the claim says). On `rrsigPayload`, one
record of TYPE 46 (RRSIG) with RDLENGTH 0 after a 12-byte header,
`DecodeAnswer(1, 12, payload)` panics, whatever the capacity of the payload:
`ParseRRSIG` checks no length and the index expression `rdata[2]` is out of
range. -/
theorem DecodeAnswer_rrsig_panics (spare : List Byte) :
    DecodeAnswer 1 12 rrsigPayload spare = none := by
  have hpl : ParseLabels 12 rrsigPayload = some ([], 13, none) :=
    ParseLabels_of_runN 2 (r := ([.read 12], some ([], 13, none))) (by decide) (by decide)
  have h1 : sliceFrom rrsigPayload 13 = some [0, 46, 0, 1, 0, 0, 0, 0, 0, 0] := by decide
  have h2 : (slice rrsigPayload 13 (13 + 2)).bind Uint16 = some 46 := by decide
  have h3 : (slice rrsigPayload (13 + 2) (13 + 4)).bind Uint16 = some 1 := by decide
  have h4 : (slice rrsigPayload (13 + 4) (13 + 8)).bind Uint32 = some 0 := by decide
  have h5 : (slice rrsigPayload (13 + 8) (13 + 10)).bind Uint16 = some 0 := by decide
  have h6 : sliceFrom rrsigPayload (13 + 10) = some [] := by decide
  have h7 : slice rrsigPayload (13 + 10) (13 + 10 + ((0 : Nat) : Int)) = some [] := by decide
  have h8 : sliceTo rrsigPayload (13 + 10 + ((0 : Nat) : Int)) = some rrsigPayload := by decide
  have h9 : RdatatypeToString ((46 : Nat) : Int) = str "RRSIG" := by decide
  have h10 : ∀ sp pfx off, ParseRdata (str "RRSIG") [] sp pfx off = none := by
    intro sp pfx off
    unfold ParseRdata
    rw [if_neg (by decide), if_neg (by decide), if_neg (by decide), if_neg (by decide),
      if_neg (by decide), if_neg (by decide), if_neg (by decide), if_neg (by decide),
      if_neg (by decide), if_neg (by decide), if_pos rfl]
    exact ParseRRSIG_short [] _ (by decide)
  unfold DecodeAnswer
  simp only [Int.toNat_one, DecodeAnswer.loop, hpl, h1]
  rw [if_neg (by decide)]
  simp only [h2, h3, h4, h5, h6]
  rw [if_neg (by decide)]
  simp only [h7]
  rw [if_neg (by decide)]
  simp only [h8, h9, Option.some_bind, h10]

/-! ## The properties on the scenarios of the specification -/

theorem trace_of_runN (n : Nat) {offset : Int} {payload : List Byte}
    {r : List Access × Option LabelResult} (h0 : 0 ≤ offset)
    (h : ParseLabels.runN payload n (ParseLabels.init offset payload) = some r) :
    ParseLabels.trace offset payload = r.1 := by
  unfold ParseLabels.trace
  rw [if_neg (by omega), ParseLabels.run_of_runN n h]

theorem S1_run : ParseLabels.runN S1 4 (ParseLabels.init 12 S1) =
    some ([.read 12, .read 13, .read 14, .read 15,
        .read 16, .read 17, .read 18, .read 19, .read 20, .read 21, .read 22, .read 23,
        .read 24, .read 25, .read 26, .read 27, .read 28],
      some (str "www.example.com", 29, none)) := by
  decide

theorem S1_name : ParseLabels 12 S1 = some (str "www.example.com", 29, none) :=
  ParseLabels_of_runN 4 (by decide) S1_run

theorem S2_run : ParseLabels.runN S2 5 (ParseLabels.init 33 S2) =
    some ([.read 33, .read 33, .read 34, .jump 33 12,
        .read 12, .read 13, .read 14, .read 15,
        .read 16, .read 17, .read 18, .read 19, .read 20, .read 21, .read 22, .read 23,
        .read 24, .read 25, .read 26, .read 27, .read 28],
      some (str "www.example.com", 35, none)) := by
  decide

theorem ParseLabels_terminates_witness :
    ∃ n, ParseLabels.runN S2 n (ParseLabels.init 33 S2) =
      some (ParseLabels.run S2 (ParseLabels.init 33 S2)) :=
  (ParseLabels_terminates S2).2.2 (ParseLabels.init 33 S2)

theorem ParseLabels_accesses_safe_witness :
    firstJump (ParseLabels.trace 33 S2) = some 33 ∧
    Access.jump 33 12 ∈ ParseLabels.trace 33 S2 ∧ (0 : Int) ≤ 12 ∧ (12 : Int) < 33 := by
  have ht := trace_of_runN 5 (by decide) S2_run
  have hf : firstJump (ParseLabels.trace 33 S2) = some 33 := by rw [ht]; decide
  have hm : Access.jump 33 12 ∈ ParseLabels.trace 33 S2 := by rw [ht]; decide
  exact ⟨hf, hm, (ParseLabels_accesses_safe 33 S2).2.1 33 12 33 hm hf⟩

theorem ParseLabels_name_le_253_witness :
    ParseLabels 12 S1 = some (str "www.example.com", 29, none) ∧
    (str "www.example.com").length ≤ 253 :=
  ⟨S1_name, ParseLabels_name_le_253 12 S1 (str "www.example.com") 29 S1_name⟩

theorem ParseLabels_end_offset_witness :
    ParseLabels 33 S2 = some (str "www.example.com", 35, none) ∧
    firstJump (ParseLabels.trace 33 S2) = some 33 ∧ (35 : Int) = 33 + 2 := by
  have hp : ParseLabels 33 S2 = some (str "www.example.com", 35, none) :=
    ParseLabels_of_runN 5 (by decide) S2_run
  have hf : firstJump (ParseLabels.trace 33 S2) = some 33 := by
    rw [trace_of_runN 5 (by decide) S2_run]; decide
  exact ⟨hp, hf, (ParseLabels_end_offset 33 S2 _ 35 hp).2 33 hf⟩

theorem ParseLabels_forward_pointer_witness :
    len S3 = 30 ∧
    ParseLabels 12 S3 = some ([], 0, some ErrDecodeDnsLabelInvalidPointer) :=
  ⟨by decide, ParseLabels_forward_pointer 12 S3 0xC0 0xFF (by decide) (by decide) (by decide)
    (by decide) (by decide) (by decide)⟩

set_option maxRecDepth 8192 in
theorem ParseLabels_too_long_witness :
    ValidLabels S7 ∧ ((encodeLabels S7 ++ [0]).length = 260) ∧
    ParseLabels 0 (encodeLabels S7 ++ [0]) = some ([], 0, some ErrDecodeDnsLabelTooLong) := by
  have hv : ValidLabels S7 := by
    intro l hl
    simp only [S7, List.mem_cons, List.mem_singleton, List.not_mem_nil, or_false] at hl
    rcases hl with rfl | rfl | rfl | rfl | rfl <;> simp
  exact ⟨hv, by decide, (ParseLabels_too_long [] [] S7 hv).1 (by decide)⟩

theorem DecodeDns_fields_witness :
    DecodeDns S1 = some ({ Id := 1, Rd := 1, Qdcount := 1 }, none) :=
  (DecodeDns_fields 0 1 1 0 0 1 0 0 0 0 0 0 (S1.drop 12)).1

theorem DecodeQuestion_uncompressed_witness :
    DecodeQuestion 1 S1 = some (str "www.example.com", 1, 33, none) :=
  DecodeQuestion_uncompressed (S1.take 12) [] [str "www", str "example", str "com"] 0 1 0 1
    (by decide)
    (by
      intro l hl
      simp only [List.mem_cons, List.mem_singleton, List.not_mem_nil, or_false] at hl
      rcases hl with rfl | rfl | rfl <;> decide)
    (by decide)

/-! ## Where `ParseLabels` stops -/

theorem ParseLabels.run_end_bounds (p : List Byte) :
    ∀ s : LabelState, 0 ≤ s.offset → s.endOffset = -1 →
      ∀ name e, (ParseLabels.run p s).2 = some (name, e, none) →
        s.offset + 1 ≤ e ∧ e ≤ len p := by
  apply ParseLabels.run_induction
  · intro s acc e _ _ h _ name e' hr
    rw [h] at hr
    cases hr
  · intro s _ h1 _ _ h heq name e' hr
    rw [h] at hr
    cases hr
    simp only [setEnd, heq, if_true]
    omega
  · intro s b v h0 h1 _ _ _ _ _ h _ heq name e' hr
    rw [h] at hr
    have hs : (s.jump v).endOffset = s.offset + 2 := by simp [LabelState.jump, setEnd, heq]
    have := (ParseLabels.run_end p (s.jump v) (Int.ofNat_nonneg _) name e' hr).1
      (by rw [hs]; omega)
    rw [hs] at this
    omega
  · intro s b label h0 _ _ _ _ _ _ _ h ih heq name e' hr
    rw [h] at hr
    have := ih heq name e' hr
    simp only [LabelState.push] at this
    omega

/-- A successful `ParseLabels` returns an end offset past the start offset
and within the payload. -/
theorem ParseLabels_end_bounds {offset : Int} {p : List Byte} {name : GoString} {e : Int}
    (h : ParseLabels offset p = some (name, e, none)) :
    0 ≤ offset ∧ offset + 1 ≤ e ∧ e ≤ len p := by
  unfold ParseLabels at h
  split at h
  · cases h
  · rename_i hneg
    have := ParseLabels.run_end_bounds p (ParseLabels.init offset p)
      (by simp only [ParseLabels.init]; omega) rfl name e h
    simp only [ParseLabels.init] at this
    omega

theorem ParseLabels.run_error (p : List Byte) :
    ∀ s : LabelState, 0 ≤ s.offset →
      ∀ name e err, (ParseLabels.run p s).2 = some (name, e, some err) → name = [] ∧ e = 0 := by
  apply ParseLabels.run_induction
  · intro s acc e _ _ h name e' err hr
    rw [h] at hr
    cases hr
    exact ⟨rfl, rfl⟩
  · intro s _ _ _ _ h name e' err hr
    rw [h] at hr
    cases hr
  · intro s b v _ _ _ _ _ _ _ h ih name e' err hr
    rw [h] at hr
    exact ih name e' err hr
  · intro s b label _ _ _ _ _ _ _ _ h ih name e' err hr
    rw [h] at hr
    exact ih name e' err hr

/-- A failing `ParseLabels` returns the empty name and the offset 0. -/
theorem ParseLabels_error {offset : Int} {p : List Byte} {name : GoString} {e : Int}
    {err : DnsErr} (h : ParseLabels offset p = some (name, e, some err)) :
    name = [] ∧ e = 0 := by
  unfold ParseLabels at h
  split at h
  · cases h
    exact ⟨rfl, rfl⟩
  · exact ParseLabels.run_error p (ParseLabels.init offset p)
      (by simp only [ParseLabels.init]; omega) name e err h

theorem sliceFrom_eq_some {p : List Byte} {lo : Int} (h0 : 0 ≤ lo) (h1 : lo ≤ len p) :
    ∃ rest, sliceFrom p lo = some rest ∧ len rest = len p - lo := by
  unfold sliceFrom
  have h := slice_eq_some h0 h1 (le_refl (len p))
  refine ⟨_, h, ?_⟩
  have := (slice_length h).2.2.2
  unfold len at *
  omega

theorem sliceFrom_length {p rest : List Byte} {lo : Int} (h : sliceFrom p lo = some rest) :
    0 ≤ lo ∧ lo ≤ len p ∧ len rest = len p - lo := by
  unfold sliceFrom at h
  have := slice_length h
  refine ⟨this.1, this.2.1, ?_⟩
  unfold len at *
  omega

/-! ## RRSIG (C18) -/

theorem ParseRRSIG_no_error (rdata spare : List Byte) (text : GoString) (e : DnsErr) :
    ParseRRSIG rdata spare ≠ some (text, some e) := by
  unfold ParseRRSIG
  split
  · intro h
    have h2 := (Prod.mk.inj (Option.some.inj h)).2
    cases h2
  · intro h
    exact Option.noConfusion h

/-- C18 (the code does not do what the claim says). `ParseRRSIG` checks no
length: on the empty RDATA it panics instead of failing with
`ErrDecodeDnsAnswerRdataTooShort`, and on no RDATA at all, of any length, does
it return an error. -/
theorem ParseRRSIG_short_no_error :
    (∀ spare, ParseRRSIG [] spare = none) ∧
    (∀ rdata spare text, rdata.length < 32 →
      ParseRRSIG rdata spare ≠ some (text, some ErrDecodeDnsAnswerRdataTooShort)) :=
  ⟨fun spare => ParseRRSIG_short [] spare (by decide),
    fun rdata spare text _ => ParseRRSIG_no_error rdata spare text _⟩

/-! ## The question section, one question at a time -/

/-- The loop of `DecodeQuestion` runs its first iteration, stops there on an
error and otherwise goes on with the values it produced. -/
theorem DecodeQuestion.loop_step (payload : List Byte) (n : Nat) (q : GoString) (t off : Int) :
    DecodeQuestion.loop payload (n + 1) q t off =
      match DecodeQuestion.loop payload 1 q t off with
      | none => none
      | some (q1, t1, o1, none) => DecodeQuestion.loop payload n q1 t1 o1
      | some (q1, t1, o1, some e) => some (q1, t1, o1, some e) := by
  simp only [DecodeQuestion.loop]
  cases h : ParseLabels off payload with
  | none => rfl
  | some r =>
    obtain ⟨nm, o, err⟩ := r
    cases err with
    | some e => rfl
    | none =>
      dsimp only
      cases h2 : sliceFrom payload o with
      | none => rfl
      | some rest =>
        dsimp only
        split
        · rfl
        · cases h3 : (slice payload o (o + 2)).bind Uint16 with
          | none => rfl
          | some v => rfl

/-- The loop of `DecodeAnswer` runs its first iteration, stops there on an
error and otherwise goes on with the offset and the list it produced. -/
theorem DecodeAnswer.loop_succ (payload spare : List Byte) (n : Nat) (off : Int)
    (answers : List DnsAnswer) :
    DecodeAnswer.loop payload spare (n + 1) off answers =
      match DecodeAnswer.loop payload spare 1 off answers with
      | none => none
      | some (l, o, none) => DecodeAnswer.loop payload spare n o l
      | some (l, o, some e) => some (l, o, some e) := by
  simp only [DecodeAnswer.loop]
  cases h : ParseLabels off payload with
  | none => rfl
  | some r =>
    obtain ⟨nm, o, err⟩ := r
    cases err with
    | some e => rfl
    | none =>
      dsimp only
      cases h2 : sliceFrom payload o with
      | none => rfl
      | some rest =>
        dsimp only
        split
        · rfl
        · split
          · split
            · rfl
            · split
              · rfl
              · split
                · rfl
                · split
                  · rfl
                  · rfl
                  · rfl
          · rfl

theorem Uint32_isSome {q : List Byte} (h : 4 ≤ q.length) : ∃ v, Uint32 q = some v := by
  match q, h with
  | a :: b :: c :: d :: t, _ => exact ⟨_, rfl⟩

theorem slice_Uint32_isSome {p : List Byte} {lo : Int} (h0 : 0 ≤ lo) (h2 : lo + 4 ≤ len p) :
    ∃ v, (slice p lo (lo + 4)).bind Uint32 = some v := by
  have h := slice_eq_some h0 (by omega : lo ≤ lo + 4) h2
  have hl := (slice_length h).2.2.2
  obtain ⟨v, hv⟩ := Uint32_isSome (q := (p.drop lo.toNat).take ((lo + 4).toNat - lo.toNat))
    (by omega)
  exact ⟨v, by rw [h]; exact hv⟩

theorem sliceTo_eq_some {p : List Byte} {hi : Int} (h0 : 0 ≤ hi) (h1 : hi ≤ len p) :
    sliceTo p hi = some (p.take hi.toNat) := by
  unfold sliceTo
  rw [slice_eq_some (le_refl _) h0 h1]
  simp

/-- What `DecodeAnswer` does with a record whose name, fixed header and RDATA
are there: it skips it when its TYPE is 41, and otherwise parses its RDATA,
stops on a panic or an error and appends the record on success. -/
theorem DecodeAnswer.loop_one_record {payload : List Byte} {off : Int} {nm : GoString}
    {o1 : Int} {t c ttl rdlength : Nat} {rdata : List Byte}
    (h : RecordAt payload off nm o1 t c ttl rdlength rdata) (spare : List Byte)
    (answers : List DnsAnswer) :
    DecodeAnswer.loop payload spare 1 off answers =
      if t = 41 then some (answers, o1 + 10 + rdlength, none)
      else
        match DecodeAnswer.rdataOf payload spare o1 t rdlength rdata with
        | none => none
        | some (_, some err) => some (answers, off, some err)
        | some (parsed, none) =>
          some (answers ++ [{ Name := nm, Rdatatype := RdatatypeToString (t : Int),
                              Class := (c : Int), Ttl := (ttl : Int), Rdata := parsed }],
            o1 + 10 + rdlength, none) := by
  have hb := ParseLabels_end_bounds h.name_ok
  have hf := h.fits
  obtain ⟨rest, hrest, hrl⟩ := @sliceFrom_eq_some payload o1 (by omega) (by omega)
  obtain ⟨rest10, hrest10, hrl10⟩ := @sliceFrom_eq_some payload (o1 + 10)
    (by omega) (by omega)
  have h48 : o1 + 4 + 4 = o1 + 8 := by omega
  simp only [DecodeAnswer.loop, h.name_ok, hrest]
  rw [if_neg (by omega)]
  simp only [h.type_eq, h.class_eq, h.ttl_eq, h.rdlength_eq, hrest10]
  rw [if_neg (by omega)]
  simp only [h.rdata_eq, sliceTo_eq_some (by omega : 0 ≤ o1 + 10 + (rdlength : Int)) hf,
    Option.some_bind, DecodeAnswer.rdataOf]

/-- The ways the first iteration of the loop of `DecodeAnswer` can go: the
name fails, or fewer than 10 bytes follow it, or fewer than RDLENGTH bytes
follow the fixed header, or the record is there. -/
theorem DecodeAnswer.loop_one_cases (payload spare : List Byte) (off : Int)
    (answers : List DnsAnswer) :
    (∃ e, ParseLabels off payload = some ([], 0, some e) ∧
      DecodeAnswer.loop payload spare 1 off answers = some (answers, off, some e)) ∨
    (∃ nm o1, ParseLabels off payload = some (nm, o1, none) ∧ len payload - o1 < 10 ∧
      DecodeAnswer.loop payload spare 1 off answers =
        some (answers, off, some ErrDecodeDnsAnswerTooShort)) ∨
    (∃ nm o1 rdlength, ParseLabels off payload = some (nm, o1, none) ∧
      10 ≤ len payload - o1 ∧
      (slice payload (o1 + 8) (o1 + 10)).bind Uint16 = some rdlength ∧
      len payload - (o1 + 10) < (rdlength : Int) ∧
      DecodeAnswer.loop payload spare 1 off answers =
        some (answers, off, some ErrDecodeDnsAnswerRdataTooShort)) ∨
    (∃ nm o1 t c ttl rdlength rdata, RecordAt payload off nm o1 t c ttl rdlength rdata) := by
  obtain ⟨⟨nm, o1, err⟩, hpl⟩ := ParseLabels_isSome off payload
  cases err with
  | some e =>
    obtain ⟨rfl, rfl⟩ := ParseLabels_error hpl
    exact Or.inl ⟨e, hpl, by simp only [DecodeAnswer.loop, hpl]⟩
  | none =>
    have hb := ParseLabels_end_bounds hpl
    obtain ⟨rest, hrest, hrl⟩ := @sliceFrom_eq_some payload o1 (by omega) hb.2.2
    by_cases h10 : len payload - o1 < 10
    · refine Or.inr (Or.inl ⟨nm, o1, hpl, h10, ?_⟩)
      simp only [DecodeAnswer.loop, hpl, hrest]
      rw [if_pos (by omega)]
    · obtain ⟨t, ht⟩ := @slice_Uint16_isSome payload o1 (by omega) (by omega)
      obtain ⟨c, hc⟩ := @slice_Uint16_isSome payload (o1 + 2) (by omega) (by omega)
      obtain ⟨ttl, httl⟩ := @slice_Uint32_isSome payload (o1 + 4) (by omega)
        (by omega)
      obtain ⟨rdlength, hrd⟩ := @slice_Uint16_isSome payload (o1 + 8) (by omega)
        (by omega)
      have e1 : o1 + 2 + 2 = o1 + 4 := by omega
      have e2 : o1 + 4 + 4 = o1 + 8 := by omega
      have e3 : o1 + 8 + 2 = o1 + 10 := by omega
      rw [e1] at hc
      rw [e2] at httl
      rw [e3] at hrd
      obtain ⟨rest10, hrest10, hrl10⟩ := @sliceFrom_eq_some payload (o1 + 10)
        (by omega) (by omega)
      by_cases hshort : len payload - (o1 + 10) < (rdlength : Int)
      · refine Or.inr (Or.inr (Or.inl ⟨nm, o1, rdlength, hpl, by omega, hrd, hshort, ?_⟩))
        simp only [DecodeAnswer.loop, hpl, hrest]
        rw [if_neg (by omega)]
        simp only [ht, hc, httl, hrd, hrest10]
        rw [if_pos (by omega)]
      · exact Or.inr (Or.inr (Or.inr ⟨nm, o1, t, c, ttl, rdlength, _,
          ⟨hpl, by omega, ht, hc, httl, hrd, slice_eq_some (by omega) (by omega) (by omega)⟩⟩))

/-! ## Failures of `DecodeQuestion` (C11) -/

/-- The ways the first iteration of the loop of `DecodeQuestion` can go. -/
theorem DecodeQuestion.loop_first_cases (payload : List Byte) (q : GoString) (t off : Int) :
    (∃ e, ParseLabels off payload = some ([], 0, some e) ∧
      DecodeQuestion.loop payload 1 q t off = some ([], 0, 0, some e)) ∨
    (∃ nm o1, ParseLabels off payload = some (nm, o1, none) ∧ len payload - o1 < 4 ∧
      DecodeQuestion.loop payload 1 q t off =
        some ([], 0, 0, some ErrDecodeQuestionQtypeTooShort)) ∨
    (∃ nm o1 v, ParseLabels off payload = some (nm, o1, none) ∧ 4 ≤ len payload - o1 ∧
      (slice payload o1 (o1 + 2)).bind Uint16 = some v ∧
      DecodeQuestion.loop payload 1 q t off = some (nm, (v : Int), o1 + 4, none)) := by
  obtain ⟨⟨nm, o1, err⟩, hpl⟩ := ParseLabels_isSome off payload
  cases err with
  | some e =>
    obtain ⟨rfl, rfl⟩ := ParseLabels_error hpl
    exact Or.inl ⟨e, hpl, by simp only [DecodeQuestion.loop, hpl]⟩
  | none =>
    have hb := ParseLabels_end_bounds hpl
    obtain ⟨rest, hrest, hrl⟩ := @sliceFrom_eq_some payload o1 (by omega) hb.2.2
    by_cases h4 : len payload - o1 < 4
    · refine Or.inr (Or.inl ⟨nm, o1, hpl, h4, ?_⟩)
      simp only [DecodeQuestion.loop, hpl, hrest]
      rw [if_pos (by omega)]
    · obtain ⟨v, hv⟩ := @slice_Uint16_isSome payload o1 (by omega) (by omega)
      refine Or.inr (Or.inr ⟨nm, o1, v, hpl, by omega, hv, ?_⟩)
      simp only [DecodeQuestion.loop, hpl, hrest]
      rw [if_neg (by omega)]
      simp only [hv]

theorem DecodeQuestion.loop_error (payload : List Byte) :
    ∀ (n : Nat) (q : GoString) (t off : Int) (q2 : GoString) (t2 o2 : Int) (e : DnsErr),
      DecodeQuestion.loop payload n q t off = some (q2, t2, o2, some e) →
      q2 = [] ∧ t2 = 0 ∧ o2 = 0 ∧
      ∃ i, i < n ∧ ∃ q1 t1 offi, DecodeQuestion.loop payload i q t off = some (q1, t1, offi, none) ∧
        (ParseLabels offi payload = some ([], 0, some e) ∨
          (e = ErrDecodeQuestionQtypeTooShort ∧
            ∃ nm o1, ParseLabels offi payload = some (nm, o1, none) ∧ len payload - o1 < 4)) := by
  intro n
  induction n with
  | zero =>
    intro q t off q2 t2 o2 e h
    simp only [DecodeQuestion.loop] at h
    cases h
  | succ n ih =>
    intro q t off q2 t2 o2 e h
    rw [DecodeQuestion.loop_step] at h
    rcases DecodeQuestion.loop_first_cases payload q t off with ⟨e1, hpl, h1⟩ | ⟨nm, o1, hpl, hlt, h1⟩ |
      ⟨nm, o1, v, hpl, hge, hv, h1⟩
    · rw [h1] at h
      cases h
      exact ⟨rfl, rfl, rfl, 0, by omega, q, t, off, rfl, Or.inl hpl⟩
    · rw [h1] at h
      cases h
      exact ⟨rfl, rfl, rfl, 0, by omega, q, t, off, rfl, Or.inr ⟨rfl, nm, o1, hpl, hlt⟩⟩
    · rw [h1] at h
      obtain ⟨hq, ht, ho, i, hi, q1, t1, offi, hloop, hcase⟩ := ih nm v (o1 + 4) q2 t2 o2 e h
      refine ⟨hq, ht, ho, i + 1, by omega, q1, t1, offi, ?_, hcase⟩
      rw [DecodeQuestion.loop_step, h1]
      exact hloop

theorem DecodeQuestion.loop_qtype_short (payload : List Byte) :
    ∀ (i n : Nat) (q : GoString) (t off : Int) (q1 : GoString) (t1 offi : Int) (nm : GoString)
      (o1 : Int), i < n → DecodeQuestion.loop payload i q t off = some (q1, t1, offi, none) →
      ParseLabels offi payload = some (nm, o1, none) → len payload - o1 < 4 →
      DecodeQuestion.loop payload n q t off =
        some ([], 0, 0, some ErrDecodeQuestionQtypeTooShort) := by
  intro i
  induction i with
  | zero =>
    intro n q t off q1 t1 offi nm o1 hin hloop hpl hlt
    simp only [DecodeQuestion.loop, Option.some.injEq, Prod.mk.injEq, and_true] at hloop
    obtain ⟨_, _, rfl⟩ := hloop
    obtain ⟨m, rfl⟩ : ∃ m, n = m + 1 := ⟨n - 1, by omega⟩
    rw [DecodeQuestion.loop_step]
    rcases DecodeQuestion.loop_first_cases payload q t off with ⟨e1, hpl', h1⟩ |
      ⟨nm', o1', hpl', hlt', h1⟩ | ⟨nm', o1', v, hpl', hge, hv, h1⟩
    · rw [hpl] at hpl'
      cases hpl'
    · rw [h1]
    · rw [hpl] at hpl'
      cases hpl'
      omega
  | succ i ih =>
    intro n q t off q1 t1 offi nm o1 hin hloop hpl hlt
    obtain ⟨m, rfl⟩ : ∃ m, n = m + 1 := ⟨n - 1, by omega⟩
    rw [DecodeQuestion.loop_step] at hloop ⊢
    rcases DecodeQuestion.loop_first_cases payload q t off with ⟨e1, hpl', h1⟩ |
      ⟨nm', o1', hpl', hlt', h1⟩ | ⟨nm', o1', v, hpl', hge, hv, h1⟩
    · rw [h1] at hloop
      cases hloop
    · rw [h1] at hloop
      cases hloop
    · rw [h1] at hloop ⊢
      exact ih m nm' v (o1' + 4) q1 t1 offi nm o1 (by omega) hloop hpl hlt

/-- C11. If a question's name parses at its offset but fewer than 4 bytes of
payload remain at the name's resume offset, `DecodeQuestion` fails with
`ErrDecodeQuestionQtypeTooShort`; whenever it fails it returns the empty name,
qtype 0 and offset 0; and every failure other than that one is the error
`ParseLabels` returns for the name of the question at which it stopped. Here
the question at which it stops, after `i` questions, starts at the offset
`DecodeQuestion(i, payload)` returns. -/
theorem DecodeQuestion_failures (qdcount : Int) (payload : List Byte) :
    (∀ (i : Nat) (q : GoString) (t off : Int) (nm : GoString) (o1 : Int), (i : Int) < qdcount →
      DecodeQuestion i payload = some (q, t, off, none) →
      ParseLabels off payload = some (nm, o1, none) → len payload - o1 < 4 →
      DecodeQuestion qdcount payload = some ([], 0, 0, some ErrDecodeQuestionQtypeTooShort)) ∧
    (∀ (q : GoString) (t o : Int) (e : DnsErr),
      DecodeQuestion qdcount payload = some (q, t, o, some e) →
      q = [] ∧ t = 0 ∧ o = 0 ∧
      ∃ i : Nat, (i : Int) < qdcount ∧ ∃ q1 t1 off,
        DecodeQuestion i payload = some (q1, t1, off, none) ∧
        (ParseLabels off payload = some ([], 0, some e) ∨
          (e = ErrDecodeQuestionQtypeTooShort ∧
            ∃ nm o1, ParseLabels off payload = some (nm, o1, none) ∧ len payload - o1 < 4))) := by
  constructor
  · intro i q t off nm o1 hi hloop hpl hlt
    unfold DecodeQuestion at hloop ⊢
    rw [Int.toNat_ofNat] at hloop
    exact DecodeQuestion.loop_qtype_short payload i qdcount.toNat [] 0 DnsLen q t off nm o1
      (by omega) hloop hpl hlt
  · intro q t o e h
    unfold DecodeQuestion at h
    obtain ⟨hq, ht, ho, i, hi, q1, t1, offi, hloop, hcase⟩ :=
      DecodeQuestion.loop_error payload qdcount.toNat [] 0 DnsLen q t o e h
    refine ⟨hq, ht, ho, i, by omega, q1, t1, offi, ?_, hcase⟩
    unfold DecodeQuestion
    rw [Int.toNat_ofNat]
    exact hloop

/-! ## The loop of `DecodeAnswer`, record by record -/

theorem DecodeAnswer.loop_zero (payload spare : List Byte) (off : Int)
    (answers : List DnsAnswer) :
    DecodeAnswer.loop payload spare 0 off answers = some (answers, off, none) := by
  simp only [DecodeAnswer.loop]

/-- Every outcome of the first iteration of the loop of `DecodeAnswer`: a
panic, an error that leaves the list and the offset as they were, or a success
that moves the offset at least 11 bytes up, within the payload, and appends at
most one record, whose type is not OPT. -/
theorem DecodeAnswer.loop_one_outcome (payload spare : List Byte) (off : Int)
    (answers : List DnsAnswer) :
    DecodeAnswer.loop payload spare 1 off answers = none ∨
    (∃ e, DecodeAnswer.loop payload spare 1 off answers = some (answers, off, some e)) ∨
    (∃ l o, DecodeAnswer.loop payload spare 1 off answers = some (l, o, none) ∧
      off + 11 ≤ o ∧ o ≤ len payload ∧
      (l = answers ∨ ∃ a, l = answers ++ [a] ∧ a.Rdatatype ≠ str "OPT")) := by
  rcases DecodeAnswer.loop_one_cases payload spare off answers with ⟨e, _, h1⟩ |
    ⟨nm, o1, _, _, h1⟩ | ⟨nm, o1, rdlength, _, _, _, _, h1⟩ |
    ⟨nm, o1, t, c, ttl, rdlength, rdata, hrec⟩
  · exact Or.inr (Or.inl ⟨e, h1⟩)
  · exact Or.inr (Or.inl ⟨_, h1⟩)
  · exact Or.inr (Or.inl ⟨_, h1⟩)
  · have hb := ParseLabels_end_bounds hrec.name_ok
    have hf := hrec.fits
    rw [DecodeAnswer.loop_one_record hrec]
    by_cases ht : t = 41
    · rw [if_pos ht]
      exact Or.inr (Or.inr ⟨_, _, rfl, by omega, hf, Or.inl rfl⟩)
    · rw [if_neg ht]
      cases hr : DecodeAnswer.rdataOf payload spare o1 t rdlength rdata with
      | none => exact Or.inl rfl
      | some r =>
        obtain ⟨parsed, err⟩ := r
        cases err with
        | some e => exact Or.inr (Or.inl ⟨e, rfl⟩)
        | none =>
          refine Or.inr (Or.inr ⟨_, _, rfl, by omega, hf, Or.inr ⟨_, rfl, ?_⟩⟩)
          intro hopt
          apply ht
          have hopt' : RdatatypeToString (t : Int) = str "OPT" := hopt
          have key : ∀ kv ∈ Rdatatypes, str kv.2 = str "OPT" → kv.1 = 41 := by decide
          unfold RdatatypeToString at hopt'
          cases hl : Rdatatypes.lookup (t : Int) with
          | none =>
            rw [hl] at hopt'
            exact absurd hopt' (by decide)
          | some v =>
            rw [hl] at hopt'
            have hmem : ((t : Int), v) ∈ Rdatatypes := by
              have := List.lookup_eq_some_iff.mp hl
              obtain ⟨l1, l2, heq, _⟩ := this
              rw [heq]
              simp
            have := key _ hmem hopt'
            simp only at this
            omega

/-- The loop of `DecodeAnswer` with `i + k` iterations runs `i` iterations,
stops there on an error and otherwise runs `k` more. -/
theorem DecodeAnswer.loop_add (payload spare : List Byte) (k : Nat) :
    ∀ (i : Nat) (off : Int) (answers : List DnsAnswer),
      DecodeAnswer.loop payload spare (i + k) off answers =
        match DecodeAnswer.loop payload spare i off answers with
        | none => none
        | some (l, o, none) => DecodeAnswer.loop payload spare k o l
        | some (l, o, some e) => some (l, o, some e) := by
  intro i
  induction i with
  | zero =>
    intro off answers
    rw [DecodeAnswer.loop_zero, Nat.zero_add]
  | succ i ih =>
    intro off answers
    rw [show i + 1 + k = (i + k) + 1 by omega, DecodeAnswer.loop_succ,
      DecodeAnswer.loop_succ payload spare i]
    rcases DecodeAnswer.loop_one_outcome payload spare off answers with h1 | ⟨e, h1⟩ |
      ⟨l, o, h1, _⟩
    · rw [h1]
    · rw [h1]
    · rw [h1]
      exact ih o l

/-- The list the loop of `DecodeAnswer` starts from is a prefix of the list
it returns: the loop run from a list is the loop run from the empty list,
with the list put in front of the result. -/
theorem DecodeAnswer.loop_one_acc (payload spare : List Byte) (off : Int)
    (answers : List DnsAnswer) :
    DecodeAnswer.loop payload spare 1 off answers =
      (DecodeAnswer.loop payload spare 1 off []).map (fun r => (answers ++ r.1, r.2)) := by
  rcases DecodeAnswer.loop_one_cases payload spare off answers with ⟨e, hpl, h1⟩ |
    ⟨nm, o1, hpl, hlt, h1⟩ | ⟨nm, o1, rdlength, hpl, hge, hrd, hlt, h1⟩ |
    ⟨nm, o1, t, c, ttl, rdlength, rdata, hrec⟩
  · rcases DecodeAnswer.loop_one_cases payload spare off [] with ⟨e', hpl', h2⟩ |
      ⟨_, _, hpl', _, h2⟩ | ⟨_, _, _, hpl', _, _, _, h2⟩ | ⟨_, _, _, _, _, _, _, hrec'⟩
    · rw [hpl] at hpl'
      cases hpl'
      rw [h1, h2]
      simp
    · rw [hpl] at hpl'; cases hpl'
    · rw [hpl] at hpl'; cases hpl'
    · have := hrec'.name_ok
      rw [hpl] at this; cases this
  · rcases DecodeAnswer.loop_one_cases payload spare off [] with ⟨e', hpl', h2⟩ |
      ⟨_, o1', hpl', _, h2⟩ | ⟨_, o1', _, hpl', _, _, _, h2⟩ | ⟨_, _, _, _, _, _, _, hrec'⟩
    · rw [hpl] at hpl'; cases hpl'
    · rw [h1, h2]
      simp
    · rw [hpl] at hpl'
      cases hpl'
      omega
    · have := hrec'.name_ok
      rw [hpl] at this
      cases this
      have := hrec'.fits
      omega
  · rcases DecodeAnswer.loop_one_cases payload spare off [] with ⟨e', hpl', h2⟩ |
      ⟨_, o1', hpl', _, h2⟩ | ⟨_, o1', _, hpl', _, _, _, h2⟩ | ⟨_, _, _, _, _, _, _, hrec'⟩
    · rw [hpl] at hpl'; cases hpl'
    · rw [hpl] at hpl'
      cases hpl'
      omega
    · rw [h1, h2]
      simp
    · have := hrec'.name_ok
      rw [hpl] at this
      cases this
      have h3 := hrec'.rdlength_eq
      rw [hrd] at h3
      cases h3
      have := hrec'.fits
      omega
  · rw [DecodeAnswer.loop_one_record hrec, DecodeAnswer.loop_one_record hrec]
    split
    · simp
    · split <;> simp

theorem DecodeAnswer.loop_acc (payload spare : List Byte) :
    ∀ (n : Nat) (off : Int) (answers : List DnsAnswer),
      DecodeAnswer.loop payload spare n off answers =
        (DecodeAnswer.loop payload spare n off []).map (fun r => (answers ++ r.1, r.2)) := by
  intro n
  induction n with
  | zero =>
    intro off answers
    simp [DecodeAnswer.loop_zero]
  | succ n ih =>
    intro off answers
    rw [DecodeAnswer.loop_succ, DecodeAnswer.loop_succ payload spare n off [],
      DecodeAnswer.loop_one_acc payload spare off answers]
    rcases DecodeAnswer.loop_one_outcome payload spare off [] with h1 | ⟨e, h1⟩ | ⟨l, o, h1, _⟩
    · rw [h1]
      rfl
    · rw [h1]
      rfl
    · rw [h1]
      simp only [Option.map_some']
      rw [ih o (answers ++ l), ih o l]
      cases DecodeAnswer.loop payload spare n o [] with
      | none => rfl
      | some r => simp

theorem DecodeAnswer.loop_no_opt (payload spare : List Byte) :
    ∀ (n : Nat) (off : Int) (answers l : List DnsAnswer) (o : Int) (err : Option DnsErr),
      DecodeAnswer.loop payload spare n off answers = some (l, o, err) →
      ∀ a ∈ l, a ∈ answers ∨ a.Rdatatype ≠ str "OPT" := by
  intro n
  induction n with
  | zero =>
    intro off answers l o err h a ha
    rw [DecodeAnswer.loop_zero] at h
    cases h
    exact Or.inl ha
  | succ n ih =>
    intro off answers l o err h a ha
    rw [DecodeAnswer.loop_succ] at h
    rcases DecodeAnswer.loop_one_outcome payload spare off answers with h1 | ⟨e, h1⟩ |
      ⟨l1, o1, h1, _, _, hl1⟩
    · rw [h1] at h
      cases h
    · rw [h1] at h
      cases h
      exact Or.inl ha
    · rw [h1] at h
      rcases ih o1 l1 l o err h a ha with hin | hne
      · rcases hl1 with rfl | ⟨a1, rfl, hne⟩
        · exact Or.inl hin
        · rcases List.mem_append.mp hin with hin | hin
          · exact Or.inl hin
          · simp only [List.mem_singleton] at hin
            subst hin
            exact Or.inr hne
      · exact Or.inr hne

/-! ## OPT records are left out (C12) -/

/-- C12. No record in the list `DecodeAnswer` returns, with or without an
error, has the type OPT (TYPE 41); a record of TYPE 41 whose name, fixed
header and RDATA are there is skipped: decoding goes on past its 10-byte fixed
header and its RDLENGTH bytes, with the list unchanged. -/
theorem DecodeAnswer_no_opt (ancount start_offset : Int) (payload spare : List Byte) :
    (∀ l o err, DecodeAnswer ancount start_offset payload spare = some (l, o, err) →
      ∀ a ∈ l, a.Rdatatype ≠ str "OPT") ∧
    (∀ nm o1 c ttl rdlength rdata, 0 < ancount →
      RecordAt payload start_offset nm o1 41 c ttl rdlength rdata →
      DecodeAnswer ancount start_offset payload spare =
        DecodeAnswer (ancount - 1) (o1 + 10 + rdlength) payload spare) := by
  constructor
  · intro l o err h a ha
    unfold DecodeAnswer at h
    rcases DecodeAnswer.loop_no_opt payload spare _ _ _ _ _ _ h a ha with hin | hne
    · simp at hin
    · exact hne
  · intro nm o1 c ttl rdlength rdata hpos hrec
    unfold DecodeAnswer
    obtain ⟨k, hk⟩ : ∃ k, ancount.toNat = k + 1 := ⟨ancount.toNat - 1, by omega⟩
    have hk2 : (ancount - 1).toNat = k := by omega
    rw [hk, hk2, DecodeAnswer.loop_succ, DecodeAnswer.loop_one_record hrec, if_pos rfl]

/-! ## The offset moves up (C13) -/

theorem DecodeAnswer.loop_success_split (payload spare : List Byte) (i k : Nat) (off : Int)
    (answers l : List DnsAnswer) (o : Int)
    (h : DecodeAnswer.loop payload spare (i + k) off answers = some (l, o, none)) :
    ∃ li oi, DecodeAnswer.loop payload spare i off answers = some (li, oi, none) ∧
      DecodeAnswer.loop payload spare k oi li = some (l, o, none) := by
  rw [DecodeAnswer.loop_add] at h
  cases hi : DecodeAnswer.loop payload spare i off answers with
  | none => rw [hi] at h; cases h
  | some r =>
    obtain ⟨li, oi, err⟩ := r
    cases err with
    | some e => rw [hi] at h; cases h
    | none =>
      rw [hi] at h
      exact ⟨li, oi, rfl, h⟩

theorem DecodeAnswer.loop_one_success (payload spare : List Byte) (off : Int)
    (answers l : List DnsAnswer) (o : Int)
    (h : DecodeAnswer.loop payload spare 1 off answers = some (l, o, none)) :
    off + 11 ≤ o ∧ o ≤ len payload := by
  rcases DecodeAnswer.loop_one_outcome payload spare off answers with h1 | ⟨e, h1⟩ |
    ⟨l1, o1, h1, hlo, hhi, _⟩
  · rw [h1] at h; cases h
  · rw [h1] at h; cases h
  · rw [h1] at h
    cases h
    exact ⟨hlo, hhi⟩

theorem DecodeAnswer.loop_success_offset (payload spare : List Byte) :
    ∀ (n : Nat) (off : Int) (answers l : List DnsAnswer) (o : Int),
      DecodeAnswer.loop payload spare n off answers = some (l, o, none) →
      off + 11 * (n : Int) ≤ o := by
  intro n
  induction n with
  | zero =>
    intro off answers l o h
    rw [DecodeAnswer.loop_zero] at h
    cases h
    simp
  | succ n ih =>
    intro off answers l o h
    obtain ⟨l1, o1, h1, h2⟩ := DecodeAnswer.loop_success_split payload spare 1 n off answers l o
      (by rw [Nat.add_comm]; exact h)
    have := (DecodeAnswer.loop_one_success payload spare off answers l1 o1 h1).1
    have := ih o1 l1 l o h2
    push_cast
    omega

/-- C13. When `DecodeAnswer` succeeds, the offset after each record it
processed is strictly greater than the offset at which that record started
(the offsets after `i` and after `i + 1` records are those `DecodeAnswer`
returns for these counts); hence, for a count of at least 1, the offset it
returns is strictly greater than the start offset. -/
theorem DecodeAnswer_offset_increases (ancount start_offset : Int) (payload spare : List Byte)
    (l : List DnsAnswer) (o : Int)
    (h : DecodeAnswer ancount start_offset payload spare = some (l, o, none)) :
    (∀ i : Nat, (i : Int) < ancount → ∃ li oi li' oi',
      DecodeAnswer i start_offset payload spare = some (li, oi, none) ∧
      DecodeAnswer (i + 1) start_offset payload spare = some (li', oi', none) ∧ oi < oi') ∧
    (1 ≤ ancount → start_offset < o) := by
  unfold DecodeAnswer at h
  constructor
  · intro i hi
    obtain ⟨k, hk⟩ : ∃ k, ancount.toNat = (i + 1) + k := ⟨ancount.toNat - (i + 1), by omega⟩
    rw [hk] at h
    obtain ⟨li', oi', h1, _⟩ := DecodeAnswer.loop_success_split payload spare (i + 1) k _ _ _ _ h
    obtain ⟨li, oi, h2, h3⟩ := DecodeAnswer.loop_success_split payload spare i 1 _ _ _ _ h1
    have := (DecodeAnswer.loop_one_success payload spare oi li li' oi' h3).1
    refine ⟨li, oi, li', oi', ?_, ?_, by omega⟩
    · unfold DecodeAnswer
      rw [Int.toNat_ofNat]
      exact h2
    · unfold DecodeAnswer
      rw [show ((i : Int) + 1).toNat = i + 1 by omega]
      exact h1
  · intro hpos
    have := DecodeAnswer.loop_success_offset payload spare _ _ _ _ _ h
    have : (1 : Int) ≤ (ancount.toNat : Int) := by omega
    omega

/-! ## A record cut in its fixed header (C14) -/

theorem DecodeAnswer.loop_one_too_short {payload : List Byte} {off : Int} {nm : GoString}
    {o1 : Int} (hpl : ParseLabels off payload = some (nm, o1, none))
    (hlt : len payload - o1 < 10) (spare : List Byte) (answers : List DnsAnswer) :
    DecodeAnswer.loop payload spare 1 off answers =
      some (answers, off, some ErrDecodeDnsAnswerTooShort) := by
  rcases DecodeAnswer.loop_one_cases payload spare off answers with ⟨e, hpl', h1⟩ |
    ⟨_, _, _, _, h1⟩ | ⟨_, o1', _, hpl', _, _, _, h1⟩ | ⟨_, _, _, _, _, _, _, hrec⟩
  · rw [hpl] at hpl'; cases hpl'
  · exact h1
  · rw [hpl] at hpl'
    cases hpl'
    omega
  · have := hrec.name_ok
    rw [hpl] at this
    cases this
    have := hrec.fits
    omega

/-- C14. If the NAME of a record parses at the offset where the record
starts (the offset reached after the `i` records before it) and fewer than 10
bytes of payload remain at the name's resume offset, `DecodeAnswer` fails on
that record with `ErrDecodeDnsAnswerTooShort`. -/
theorem DecodeAnswer_too_short (ancount start_offset : Int) (payload spare : List Byte)
    (i : Nat) (l : List DnsAnswer) (off : Int) (nm : GoString) (o1 : Int)
    (hi : (i : Int) < ancount)
    (hprev : DecodeAnswer i start_offset payload spare = some (l, off, none))
    (hpl : ParseLabels off payload = some (nm, o1, none)) (hlt : len payload - o1 < 10) :
    DecodeAnswer ancount start_offset payload spare =
      some (l, off, some ErrDecodeDnsAnswerTooShort) := by
  unfold DecodeAnswer at hprev ⊢
  rw [Int.toNat_ofNat] at hprev
  obtain ⟨k, hk⟩ : ∃ k, ancount.toNat = i + (k + 1) := ⟨ancount.toNat - (i + 1), by omega⟩
  rw [hk, DecodeAnswer.loop_add, hprev]
  simp only
  rw [DecodeAnswer.loop_succ, DecodeAnswer.loop_one_too_short hpl hlt]

/-! ## Where a failing `DecodeAnswer` stops (C15) -/

theorem DecodeAnswer.loop_failure (payload spare : List Byte) :
    ∀ (n : Nat) (off : Int) (answers l : List DnsAnswer) (o : Int) (e : DnsErr),
      DecodeAnswer.loop payload spare n off answers = some (l, o, some e) →
      ∃ i, i < n ∧ DecodeAnswer.loop payload spare i off answers = some (l, o, none) ∧
        DecodeAnswer.loop payload spare 1 o l = some (l, o, some e) := by
  intro n
  induction n with
  | zero =>
    intro off answers l o e h
    rw [DecodeAnswer.loop_zero] at h
    cases h
  | succ n ih =>
    intro off answers l o e h
    have h' := h
    rw [DecodeAnswer.loop_succ] at h
    rcases DecodeAnswer.loop_one_outcome payload spare off answers with h1 | ⟨e1, h1⟩ |
      ⟨l1, o1, h1, _⟩
    · rw [h1] at h
      cases h
    · rw [h1] at h
      cases h
      exact ⟨0, by omega, DecodeAnswer.loop_zero _ _ _ _, h1⟩
    · rw [h1] at h
      obtain ⟨i, hi, h2, h3⟩ := ih o1 l1 l o e h
      refine ⟨i + 1, by omega, ?_, h3⟩
      rw [DecodeAnswer.loop_succ, h1]
      exact h2

/-- C15. Whenever `DecodeAnswer(n, s, payload)` fails, the list and the
offset it returns are those of the successful `DecodeAnswer(i, s, payload)`
for the number `i < n` of records processed before the failing one, and the
offset is where the failing record begins: decoding one record from it fails
with the same error, the empty list and that offset. In particular, when the
first record fails (`i = 0`), the list is empty and the offset is `s`. -/
theorem DecodeAnswer_failure_offset (n s : Int) (payload spare : List Byte)
    (l : List DnsAnswer) (o : Int) (e : DnsErr)
    (h : DecodeAnswer n s payload spare = some (l, o, some e)) :
    ∃ i : Nat, (i : Int) < n ∧ DecodeAnswer i s payload spare = some (l, o, none) ∧
      DecodeAnswer 1 o payload spare = some ([], o, some e) ∧
      (i = 0 → l = [] ∧ o = s) := by
  unfold DecodeAnswer at h
  obtain ⟨i, hi, h2, h3⟩ := DecodeAnswer.loop_failure payload spare _ _ _ _ _ _ h
  refine ⟨i, by omega, ?_, ?_, ?_⟩
  · unfold DecodeAnswer
    rw [Int.toNat_ofNat]
    exact h2
  · unfold DecodeAnswer
    rw [Int.toNat_one]
    rw [DecodeAnswer.loop_one_acc] at h3
    rcases DecodeAnswer.loop_one_outcome payload spare o [] with h1 | ⟨e1, h1⟩ | ⟨l1, o1, h1, _⟩
    · rw [h1] at h3
      cases h3
    · rw [h1] at h3 ⊢
      simp only [Option.map_some', List.append_nil, Option.some.injEq, Prod.mk.injEq,
        true_and] at h3
      rw [h3]
    · rw [h1] at h3
      simp only [Option.map_some', Option.some.injEq, Prod.mk.injEq] at h3
      obtain ⟨_, _, h4⟩ := h3
      cases h4
  · intro hi0
    subst hi0
    rw [DecodeAnswer.loop_zero] at h2
    cases h2
    exact ⟨rfl, rfl⟩

/-! ## A name reached through a pointer -/

theorem ParseLabels.step_pointer {p : List Byte} {s : LabelState} {b : Byte} {v : Nat}
    (hb : index p s.offset = some b) (htop : 192 ≤ b.val)
    (hlen : s.offset + 2 ≤ len p) (hmax : s.offset + 2 ≤ s.maxOffset)
    (hv : (slice p s.offset (s.offset + 2)).bind Uint16 = some v)
    (hlt : ((v &&& 16383 : Nat) : Int) < s.startOffset) :
    (ParseLabels.step p s).2 = .next (s.jump v) := by
  have hi := index_lt hb
  unfold ParseLabels.step
  rw [if_neg (by omega), if_neg (by omega), hb]
  dsimp only
  rw [if_neg (by omega), if_pos ((byte_top_bits b).1.mpr htop)]
  unfold ParseLabels.pointer
  dsimp only
  rw [if_neg (by omega), if_neg (by omega), hv]
  dsimp only
  rw [if_neg (by omega)]
  rfl

theorem ParseLabels.first_label_within (pre l rest : List Byte) (s : LabelState)
    (h1 : 1 ≤ l.length) (h63 : l.length ≤ 63) (hs : s.offset = pre.length)
    (hmax : (pre.length : Int) + l.length + 1 ≤ s.maxOffset) :
    (ParseLabels.step (pre ++ (Fin.ofNat l.length :: l) ++ rest) s).2 =
      if s.totalLength + l.length + 1 > 254 then .ret ([], 0, some ErrDecodeDnsLabelTooLong)
      else .next (s.push l.length l) := by
  have hv := lengthByte_val h63
  have hb : index (pre ++ (Fin.ofNat l.length :: l) ++ rest) s.offset =
      some (Fin.ofNat l.length) := by
    rw [hs, List.append_assoc, List.cons_append]
    exact index_middle _ _ _
  have hl : slice (pre ++ (Fin.ofNat l.length :: l) ++ rest) (s.offset + 1)
      (s.offset + (Fin.ofNat l.length : Byte).val + 1) = some l := by
    have := slice_middle (pre ++ [Fin.ofNat l.length]) l rest
    simp only [List.length_append, List.length_singleton, List.append_assoc,
      List.singleton_append] at this
    rw [hs, hv, List.append_assoc, List.cons_append]
    rw [← this]
    congr 1
    push_cast
    omega
  have hlen : s.offset + (Fin.ofNat l.length : Byte).val + 1 ≤
      len (pre ++ (Fin.ofNat l.length :: l) ++ rest) := by
    rw [hs, hv]
    simp only [len, List.length_append, List.length_cons]
    push_cast
    omega
  have := ParseLabels.step_label hb (by omega) (by omega) hlen (by rw [hs, hv]; exact hmax) hl
  rw [hv] at this
  exact this

/-- The loop of `ParseLabels` on a name stored uncompressed that ends within
the bound `maxOffset` of the current run. -/
theorem ParseLabels.run_uncompressed_within (ls : List GoString) :
    ∀ (pre post : List Byte) (s : LabelState), ValidLabels ls →
      s.offset = pre.length → (pre.length : Int) + encodedLength ls + 1 ≤ s.maxOffset →
      s.totalLength + encodedLength ls ≤ 254 →
      (ParseLabels.run (pre ++ encodeLabels ls ++ 0 :: post) s).2 =
        some (Join (s.labels ++ ls) (str "."),
          setEnd s.endOffset (pre.length + encodedLength ls + 1), none) := by
  induction ls with
  | nil =>
    intro pre post s _ hs hmax _
    simp only [encodeLabels, List.append_nil, encodedLength_nil, Int.add_zero] at hmax ⊢
    have hb : index (pre ++ 0 :: post) s.offset = some 0 := by
      rw [hs]; exact index_middle _ _ _
    rw [ParseLabels.run_ret_snd (ParseLabels.step_zero hb (by omega)), hs]
  | cons l t ih =>
    intro pre post s hv hs hmax htot
    have hl := hv l (List.mem_cons_self _ _)
    have hvt : ValidLabels t := fun x hx => hv x (List.mem_cons_of_mem _ hx)
    rw [encodedLength_cons] at htot hmax
    have hnn := encodedLength_nonneg t
    have hp : pre ++ encodeLabels (l :: t) ++ 0 :: post =
        pre ++ (Fin.ofNat l.length :: l) ++ (encodeLabels t ++ 0 :: post) := by
      simp [encodeLabels]
    have hp2 : pre ++ encodeLabels (l :: t) ++ 0 :: post =
        (pre ++ Fin.ofNat l.length :: l) ++ encodeLabels t ++ 0 :: post := by
      simp [encodeLabels]
    have hstep := ParseLabels.first_label_within pre l (encodeLabels t ++ 0 :: post) s hl.1 hl.2
      hs (by omega)
    rw [if_neg (by omega), ← hp] at hstep
    rw [ParseLabels.run_next_snd hstep, hp2]
    rw [ih (pre ++ Fin.ofNat l.length :: l) post (s.push l.length l) hvt
      (by simp only [LabelState.push, List.length_append, List.length_cons]; push_cast; omega)
      (by
        simp only [LabelState.push, List.length_append, List.length_cons]
        push_cast
        omega)
      (by simp only [LabelState.push]; omega)]
    simp only [LabelState.push, List.append_assoc, List.singleton_append, List.length_append,
      List.length_cons, encodedLength_cons]
    congr 3
    congr 1
    push_cast
    omega

/-- A two-byte pointer to the start of a name stored uncompressed earlier in
the payload decodes to that name, and the end offset is just past the
pointer. -/
theorem ParseLabels_pointer_to_uncompressed (pre mid post : List Byte) (labels : List GoString)
    (b0 b1 : Byte) (hv : ValidLabels labels) (hlen : encodedLength labels ≤ 254)
    (htop : 192 ≤ b0.val) (hptr : (b0.val * 256 + b1.val) % 16384 = pre.length) :
    ParseLabels ((pre ++ encodeLabels labels ++ 0 :: mid).length : Int)
        (pre ++ encodeLabels labels ++ 0 :: mid ++ b0 :: b1 :: post) =
      some (Join labels (str "."),
        ((pre ++ encodeLabels labels ++ 0 :: mid).length : Int) + 2, none) := by
  have hnn := encodedLength_nonneg labels
  have hoff : ((pre ++ encodeLabels labels ++ 0 :: mid).length : Int) =
      pre.length + encodedLength labels + 1 + mid.length := by
    simp only [List.length_append, List.length_cons]
    push_cast
    rw [encodeLabels_length]
    omega
  have hb0 : index (pre ++ encodeLabels labels ++ 0 :: mid ++ b0 :: b1 :: post)
      ((pre ++ encodeLabels labels ++ 0 :: mid).length : Int) = some b0 :=
    index_middle _ _ _
  have hb1 : index (pre ++ encodeLabels labels ++ 0 :: mid ++ b0 :: b1 :: post)
      (((pre ++ encodeLabels labels ++ 0 :: mid).length : Int) + 1) = some b1 := by
    have := index_middle (pre ++ encodeLabels labels ++ 0 :: mid ++ [b0]) b1 post
    simp only [List.length_append, List.length_singleton, List.append_assoc,
      List.singleton_append, List.cons_append, List.length_cons] at this ⊢
    rw [← this]
    congr 1
  have hv16 : (slice (pre ++ encodeLabels labels ++ 0 :: mid ++ b0 :: b1 :: post)
      ((pre ++ encodeLabels labels ++ 0 :: mid).length : Int)
      (((pre ++ encodeLabels labels ++ 0 :: mid).length : Int) + 2)).bind Uint16 =
      some (b0.val * 256 + b1.val) := by
    rw [slice_two hb0 hb1]
    exact Uint16_pair b0 b1 []
  have hlen2 : ((pre ++ encodeLabels labels ++ 0 :: mid).length : Int) + 2 ≤
      len (pre ++ encodeLabels labels ++ 0 :: mid ++ b0 :: b1 :: post) := by
    simp only [len, List.length_append, List.length_cons]
    push_cast
    omega
  unfold ParseLabels
  rw [if_neg (by omega)]
  have hstep := ParseLabels.step_pointer
    (s := ParseLabels.init ((pre ++ encodeLabels labels ++ 0 :: mid).length : Int)
      (pre ++ encodeLabels labels ++ 0 :: mid ++ b0 :: b1 :: post))
    hb0 htop hlen2 hlen2 hv16
    (by
      rw [and_16383, hptr]
      simp only [ParseLabels.init]
      rw [hoff]
      omega)
  rw [ParseLabels.run_next_snd hstep]
  have hp : pre ++ encodeLabels labels ++ 0 :: mid ++ b0 :: b1 :: post =
      pre ++ encodeLabels labels ++ 0 :: (mid ++ b0 :: b1 :: post) := by simp
  rw [hp]
  rw [ParseLabels.run_uncompressed_within labels pre (mid ++ b0 :: b1 :: post) _ hv
    (by simp only [LabelState.jump, ParseLabels.init, and_16383, hptr])
    (by
      simp only [LabelState.jump, ParseLabels.init]
      rw [hoff]
      omega)
    (by simp only [LabelState.jump, ParseLabels.init]; omega)]
  simp only [LabelState.jump, ParseLabels.init, setEnd, List.nil_append, if_true]
  rw [if_neg (by omega)]

theorem be32 (b0 b1 b2 b3 : Byte) :
    b3.val ||| (b2.val <<< 8) ||| (b1.val <<< 16) ||| (b0.val <<< 24) =
      ((b0.val * 256 + b1.val) * 256 + b2.val) * 256 + b3.val := by
  have h0 := b0.isLt
  have h1 := b1.isLt
  have h2 := b2.isLt
  have h3 := b3.isLt
  rw [be16 b2 b3]
  have e1 := Nat.mul_add_lt_is_or (i := 16) (b := b2.val * 256 + b3.val) (by omega) b1.val
  have e2 := Nat.mul_add_lt_is_or (i := 24)
    (b := 2 ^ 16 * b1.val + (b2.val * 256 + b3.val)) (by omega) b0.val
  rw [Nat.shiftLeft_eq, Nat.shiftLeft_eq, Nat.lor_comm (b2.val * 256 + b3.val),
    Nat.mul_comm b1.val, ← e1, Nat.lor_comm _ (b0.val * 2 ^ 24), Nat.mul_comm b0.val, ← e2]
  omega

theorem Uint32_quad (b0 b1 b2 b3 : Byte) (t : List Byte) :
    Uint32 (b0 :: b1 :: b2 :: b3 :: t) =
      some (((b0.val * 256 + b1.val) * 256 + b2.val) * 256 + b3.val) := by
  simp only [Uint32, be32]

theorem slice_at {p : List Byte} (pre x post : List Byte) {lo hi : Int}
    (hp : p = pre ++ (x ++ post)) (hlo : lo = pre.length) (hhi : hi = pre.length + x.length) :
    slice p lo hi = some x := by
  rw [hp, hlo, hhi]
  exact slice_middle pre x post

theorem ParseA_four (a b c d : Byte) :
    ParseA [a, b, c, d] =
      some (Join [decimal a.val, decimal b.val, decimal c.val, decimal d.val] (str "."),
        none) := by
  have h : sliceTo [a, b, c, d] 4 = some [a, b, c, d] := slice_middle [] [a, b, c, d] []
  unfold ParseA
  rw [if_neg (by simp [len]), h]
  simp [IP.String, IP.To4]

theorem LabelResult.ok_ne_error {a c : GoString} {b d : Int} {e : DnsErr}
    (h : (some (a, b, none) : Option LabelResult) = some (c, d, some e)) : False := by
  have := (Prod.mk.inj (Prod.mk.inj (Option.some.inj h)).2).2
  cases this

/-- The question section of a message with one question whose name is stored
uncompressed. -/
theorem DecodeQuestion.one_uncompressed (header post : List Byte) (labels : List GoString)
    (t0 t1 c0 c1 : Byte) (hh : header.length = 12) (hv : ValidLabels labels)
    (hlen : encodedLength labels ≤ 254) :
    DecodeQuestion 1
        (header ++ encodeLabels labels ++ 0 :: t0 :: t1 :: c0 :: c1 :: post) =
      some (Join labels (str "."), ((t0.val * 256 + t1.val : Nat) : Int),
        12 + (encodedLength labels + 1) + 4, none) := by
  have hpl := ParseLabels_uncompressed header (t0 :: t1 :: c0 :: c1 :: post) labels hv hlen
  have hb := ParseLabels_end_bounds hpl
  have hlenp : len (header ++ encodeLabels labels ++ 0 :: t0 :: t1 :: c0 :: c1 :: post) =
      header.length + encodedLength labels + 1 + 4 + post.length := by
    simp only [len, List.length_append, List.length_cons]
    push_cast
    rw [encodeLabels_length]
    omega
  have hq : (slice (header ++ encodeLabels labels ++ 0 :: t0 :: t1 :: c0 :: c1 :: post)
      (header.length + encodedLength labels + 1)
      (header.length + encodedLength labels + 1 + 2)).bind Uint16 =
      some (t0.val * 256 + t1.val) := by
    have hE := encodeLabels_length labels
    rw [slice_at (header ++ encodeLabels labels ++ [0]) [t0, t1] (c0 :: c1 :: post) (by simp)
      (by simp only [List.length_append, List.length_singleton]; push_cast; omega)
      (by simp only [List.length_append, List.length_singleton, List.length_cons,
            List.length_nil]; push_cast; omega)]
    exact Uint16_pair t0 t1 []
  rcases DecodeQuestion.loop_first_cases
    (header ++ encodeLabels labels ++ 0 :: t0 :: t1 :: c0 :: c1 :: post) [] 0 header.length with
    ⟨e, hpl', _⟩ | ⟨nm, o1, hpl', hlt, _⟩ | ⟨nm, o1, v, hpl', _, hv', h1⟩
  · rw [hpl] at hpl'
    exact (LabelResult.ok_ne_error hpl').elim
  · rw [hpl] at hpl'
    have ho := (Prod.mk.inj (Prod.mk.inj (Option.some.inj hpl')).2).1
    rw [hlenp] at hlt
    omega
  · rw [hpl] at hpl'
    have ho := (Prod.mk.inj (Prod.mk.inj (Option.some.inj hpl')).2).1
    have hn := (Prod.mk.inj (Option.some.inj hpl')).1
    subst ho
    subst hn
    rw [hq] at hv'
    cases hv'
    unfold DecodeQuestion
    rw [Int.toNat_one, show (DnsLen : Int) = header.length by rw [hh]; rfl, h1, hh]
    congr 3
    have : ((12 : Nat) : Int) = 12 := rfl
    rw [this]
    congr 1
    omega

/-! ## An A record after a question (C16) -/

theorem messageWithA_record (header : List Byte) (labels : List GoString)
    (q0 q1 q2 q3 c0 c1 t0 t1 t2 t3 a b c d : Byte) (hh : header.length = 12)
    (hv : ValidLabels labels) (hlen : encodedLength labels ≤ 254) :
    RecordAt (messageWithA header labels q0 q1 q2 q3 c0 c1 t0 t1 t2 t3 a b c d)
      (12 + (encodedLength labels + 1) + 4) (Join labels (str "."))
      (12 + (encodedLength labels + 1) + 4 + 2) 1 (c0.val * 256 + c1.val)
      (((t0.val * 256 + t1.val) * 256 + t2.val) * 256 + t3.val) 4 [a, b, c, d] := by
  have hE := encodeLabels_length labels
  have hnn := encodedLength_nonneg labels
  have hoff : ((header ++ encodeLabels labels ++ 0 :: [q0, q1, q2, q3]).length : Int) =
      12 + (encodedLength labels + 1) + 4 := by
    simp only [List.length_append, List.length_cons, List.length_nil, hh]
    push_cast
    omega
  have hpl := ParseLabels_pointer_to_uncompressed header [q0, q1, q2, q3]
    (0 :: 1 :: c0 :: c1 :: t0 :: t1 :: t2 :: t3 :: 0 :: 4 :: a :: b :: c :: d :: [])
    labels 0xC0 0x0C hv hlen (by decide) (by rw [hh]; rfl)
  rw [hoff] at hpl
  have hlenP : ∀ x : List Byte,
      ((header ++ encodeLabels labels ++ 0 :: q0 :: q1 :: q2 :: q3 :: 0xC0 :: 0x0C :: x).length
        : Int) = 12 + (encodedLength labels + 1) + 4 + 2 + x.length := by
    intro x
    simp only [List.length_append, List.length_cons, hh]
    push_cast
    omega
  refine ⟨?_, ?_, ?_, ?_, ?_, ?_, ?_⟩
  · simpa [messageWithA] using hpl
  · simp only [messageWithA, len, hlenP, List.length_cons, List.length_nil]
    push_cast
    omega
  · rw [slice_at (header ++ encodeLabels labels ++ 0 :: q0 :: q1 :: q2 :: q3 :: 0xC0 :: 0x0C :: [])
      [0, 1] (c0 :: c1 :: t0 :: t1 :: t2 :: t3 :: 0 :: 4 :: a :: b :: c :: d :: [])
      (by simp [messageWithA]) (by rw [hlenP]; simp)
      (by rw [hlenP]; simp only [List.length_cons, List.length_nil]; push_cast; omega)]
    rfl
  · rw [slice_at
      (header ++ encodeLabels labels ++ 0 :: q0 :: q1 :: q2 :: q3 :: 0xC0 :: 0x0C :: [0, 1])
      [c0, c1] (t0 :: t1 :: t2 :: t3 :: 0 :: 4 :: a :: b :: c :: d :: [])
      (by simp [messageWithA])
      (by rw [hlenP]; simp only [List.length_cons, List.length_nil]; push_cast; omega)
      (by rw [hlenP]; simp only [List.length_cons, List.length_nil]; push_cast; omega)]
    exact Uint16_pair c0 c1 []
  · rw [slice_at
      (header ++ encodeLabels labels ++
        0 :: q0 :: q1 :: q2 :: q3 :: 0xC0 :: 0x0C :: [0, 1, c0, c1])
      [t0, t1, t2, t3] (0 :: 4 :: a :: b :: c :: d :: [])
      (by simp [messageWithA])
      (by rw [hlenP]; simp only [List.length_cons, List.length_nil]; push_cast; omega)
      (by rw [hlenP]; simp only [List.length_cons, List.length_nil]; push_cast; omega)]
    exact Uint32_quad t0 t1 t2 t3 []
  · rw [slice_at
      (header ++ encodeLabels labels ++
        0 :: q0 :: q1 :: q2 :: q3 :: 0xC0 :: 0x0C :: [0, 1, c0, c1, t0, t1, t2, t3])
      [0, 4] (a :: b :: c :: d :: [])
      (by simp [messageWithA])
      (by rw [hlenP]; simp only [List.length_cons, List.length_nil]; push_cast; omega)
      (by rw [hlenP]; simp only [List.length_cons, List.length_nil]; push_cast; omega)]
    rfl
  · exact slice_at
      (header ++ encodeLabels labels ++
        0 :: q0 :: q1 :: q2 :: q3 :: 0xC0 :: 0x0C :: [0, 1, c0, c1, t0, t1, t2, t3, 0, 4])
      [a, b, c, d] []
      (by simp [messageWithA])
      (by rw [hlenP]; simp only [List.length_cons, List.length_nil]; push_cast; omega)
      (by rw [hlenP]; simp only [List.length_cons, List.length_nil]; push_cast; omega)

/-- C16. On a message made of a 12-byte header, one question whose name is
stored uncompressed at offset 12, and one record `C0 0C`, TYPE 1, CLASS, TTL,
RDLENGTH 4 and four address bytes, `DecodeQuestion(1, payload)` succeeds and
`DecodeAnswer(1, offset after the question, payload)` returns exactly one
record, with the name `DecodeQuestion` returns, the type "A", the CLASS, the
TTL and the dotted decimal of the four bytes, and the offset it returns is the
length of the payload. -/
theorem DecodeAnswer_A_record (header : List Byte) (labels : List GoString)
    (q0 q1 q2 q3 c0 c1 t0 t1 t2 t3 a b c d : Byte) (spare : List Byte)
    (hh : header.length = 12) (hv : ValidLabels labels) (hlen : encodedLength labels ≤ 254) :
    ∃ qname qtype off,
      DecodeQuestion 1 (messageWithA header labels q0 q1 q2 q3 c0 c1 t0 t1 t2 t3 a b c d) =
        some (qname, qtype, off, none) ∧
      qname = Join labels (str ".") ∧
      DecodeAnswer 1 off (messageWithA header labels q0 q1 q2 q3 c0 c1 t0 t1 t2 t3 a b c d)
          spare =
        some ([{ Name := qname
                 Rdatatype := str "A"
                 Class := ((c0.val * 256 + c1.val : Nat) : Int)
                 Ttl := ((((t0.val * 256 + t1.val) * 256 + t2.val) * 256 + t3.val : Nat) : Int)
                 Rdata := Join [decimal a.val, decimal b.val, decimal c.val, decimal d.val]
                   (str ".") }],
          len (messageWithA header labels q0 q1 q2 q3 c0 c1 t0 t1 t2 t3 a b c d), none) := by
  have hrec := messageWithA_record header labels q0 q1 q2 q3 c0 c1 t0 t1 t2 t3 a b c d hh hv hlen
  have hq := DecodeQuestion.one_uncompressed header
    (0xC0 :: 0x0C :: 0 :: 1 :: c0 :: c1 :: t0 :: t1 :: t2 :: t3 :: 0 :: 4 :: a :: b :: c :: d :: [])
    labels q0 q1 q2 q3 hh hv hlen
  have hE := encodeLabels_length labels
  have hlenm : len (messageWithA header labels q0 q1 q2 q3 c0 c1 t0 t1 t2 t3 a b c d) =
      12 + (encodedLength labels + 1) + 4 + 2 + 10 + ((4 : Nat) : Int) := by
    simp only [messageWithA, len, List.length_append, List.length_cons, List.length_nil, hh]
    push_cast
    omega
  refine ⟨_, _, _, hq, rfl, ?_⟩
  unfold DecodeAnswer
  rw [Int.toNat_one, DecodeAnswer.loop_one_record hrec, if_neg (by decide)]
  have hA : RdatatypeToString ((1 : Nat) : Int) = str "A" := by decide
  simp only [DecodeAnswer.rdataOf, hA, ParseRdata, if_true, ParseA_four, List.nil_append, hlenm]

/-! ## RRSIG records read past their RDATA (C17) -/

/-- For every type but RRSIG, the call of `ParseRdata` that `DecodeAnswer`
makes for a record depends on the payload only through its bytes before the
end of the RDATA of the record. -/
theorem DecodeAnswer.rdataOf_prefix (p1 p2 sp1 sp2 : List Byte) (o1 : Int) (t rdlength : Nat)
    (rdata : List Byte)
    (hagree : p1.take (o1 + 10 + rdlength).toNat = p2.take (o1 + 10 + rdlength).toNat)
    (ht : RdatatypeToString (t : Int) ≠ str "RRSIG") :
    DecodeAnswer.rdataOf p1 sp1 o1 t rdlength rdata =
      DecodeAnswer.rdataOf p2 sp2 o1 t rdlength rdata := by
  unfold DecodeAnswer.rdataOf ParseRdata
  rw [hagree, if_neg ht, if_neg ht]

theorem leakA_record : RecordAt leakA 12 [] 13 46 1 0 4 [0, 1, 8, 2] :=
  ⟨ParseLabels_of_runN 1 (r := ([.read 12], some ([], 13, none))) (by decide) (by decide),
    by decide, by decide, by decide, by decide, by decide, by decide⟩

theorem leakB_record : RecordAt leakB 12 [] 13 46 1 0 4 [0, 1, 8, 2] :=
  ⟨ParseLabels_of_runN 1 (r := ([.read 12], some ([], 13, none))) (by decide) (by decide),
    by decide, by decide, by decide, by decide, by decide, by decide⟩

theorem leakA_rdata :
    DecodeAnswer.rdataOf leakA [] 13 46 4 [0, 1, 8, 2] =
      some (str "1 8 2 1094795585 1094795585 1094795585 16705 AAAAAA AAAAAAAA", none) := by
  decide

theorem leakB_rdata :
    DecodeAnswer.rdataOf leakB [] 13 46 4 [0, 1, 8, 2] =
      some (str "1 8 2 1111638594 1111638594 1111638594 16962 BBBBBB BBBBBBBB", none) := by
  decide

/-- C17 (the code does not do what the claim says). The payloads `leakA` and
`leakB` hold the same RRSIG record, with RDLENGTH 4, at offset 12 and agree on
all bytes before the end of its RDATA (offset 27); they differ after it. The
record that `DecodeAnswer` returns differs: `ParseRRSIG` checks no length and
renders the 28 bytes that follow the RDATA. -/
theorem DecodeAnswer_rrsig_reads_past_rdata :
    leakA.take 27 = leakB.take 27 ∧
    RecordAt leakA 12 [] 13 46 1 0 4 [0, 1, 8, 2] ∧
    RecordAt leakB 12 [] 13 46 1 0 4 [0, 1, 8, 2] ∧
    DecodeAnswer 1 12 leakA [] =
      some ([{ Name := [], Rdatatype := str "RRSIG", Class := 1, Ttl := 0,
               Rdata := str "1 8 2 1094795585 1094795585 1094795585 16705 AAAAAA AAAAAAAA" }],
        27, none) ∧
    DecodeAnswer 1 12 leakB [] =
      some ([{ Name := [], Rdatatype := str "RRSIG", Class := 1, Ttl := 0,
               Rdata := str "1 8 2 1111638594 1111638594 1111638594 16962 BBBBBB BBBBBBBB" }],
        27, none) := by
  refine ⟨by decide, leakA_record, leakB_record, ?_, ?_⟩
  · unfold DecodeAnswer
    rw [Int.toNat_one, DecodeAnswer.loop_one_record leakA_record, if_neg (by decide),
      leakA_rdata]
    rfl
  · unfold DecodeAnswer
    rw [Int.toNat_one, DecodeAnswer.loop_one_record leakB_record, if_neg (by decide),
      leakB_rdata]
    rfl

/-! ## `DecodePayload` on a message already marked malformed (C19) -/

/-- C19. If the `MalformedPacket` flag of the message is already set,
`DecodePayload` returns no error and leaves the message as it was, field by
field, for every header and payload. -/
theorem DecodePayload_malformed_untouched {E : Type}
    (DecodeEDNS : Int → Int → List Byte → Option (E × Int × Option DnsErr))
    (dm : DnsMessage E) (header : DnsHeader) (config : Config) (spare : List Byte)
    (h : dm.DNS.MalformedPacket = true) :
    DecodePayload DecodeEDNS dm header config spare = some (dm, none) := by
  unfold DecodePayload
  rw [if_pos h]

/-! ## The TC downgrade in the answer section (C20) -/

theorem DecodePayload.copyHeader_frame {E : Type} (dm : DnsMessage E) (header : DnsHeader) :
    (DecodePayload.copyHeader dm header).DNS.Payload = dm.DNS.Payload ∧
    (DecodePayload.copyHeader dm header).DNS.MalformedPacket = dm.DNS.MalformedPacket ∧
    (DecodePayload.copyHeader dm header).DNS.DnsRRs = dm.DNS.DnsRRs ∧
    (DecodePayload.copyHeader dm header).EDNS = dm.EDNS ∧
    (DecodePayload.copyHeader dm header).DNS.Flags.TC =
      (if header.Tc = 1 then true else dm.DNS.Flags.TC) := by
  have hq : (header.Qr = 1 ∧ header.Qr ≠ 0) ∨ (header.Qr ≠ 1 ∧ header.Qr = 0) ∨
      (header.Qr ≠ 1 ∧ header.Qr ≠ 0) := by omega
  rcases hq with ⟨h2, h3⟩ | ⟨h2, h3⟩ | ⟨h2, h3⟩ <;>
    by_cases h1 : header.Opcode = 5 <;> by_cases h4 : header.Tc = 1 <;>
    by_cases h5 : header.Aa = 1 <;> by_cases h6 : header.Ra = 1 <;>
    by_cases h7 : header.Ad = 1 <;>
    simp only [DecodePayload.copyHeader, h1, h2, h3, h4, h5, h6, h7, if_true, if_false,
      and_true, and_false, and_self, true_and, false_and, ne_eq, not_false_eq_true,
      one_ne_zero, zero_ne_one]

theorem DecodeAnswer_count_pos {ancount off : Int} {payload spare : List Byte}
    {l : List DnsAnswer} {o : Int} {e : DnsErr}
    (h : DecodeAnswer ancount off payload spare = some (l, o, some e)) : 0 < ancount := by
  by_contra hn
  unfold DecodeAnswer at h
  rw [show ancount.toNat = 0 by omega, DecodeAnswer.loop_zero] at h
  cases h

/-- The answer section of `DecodePayload` when the TC flag of the message is
set, no authority or additional record is announced and `DecodeAnswer` fails
with a truncation error. -/
theorem DecodePayload.answers_downgrade {E : Type}
    (DecodeEDNS : Int → Int → List Byte → Option (E × Int × Option DnsErr))
    (dm : DnsMessage E) (header : DnsHeader) (spare : List Byte) (off : Int)
    (answers : List DnsAnswer) (o : Int) (e : DnsErr)
    (htc : dm.DNS.Flags.TC = true) (hns : header.Nscount = 0) (har : header.Arcount = 0)
    (ha : DecodeAnswer header.Ancount off dm.DNS.Payload spare = some (answers, o, some e))
    (he : isTruncation e) :
    DecodePayload.answers DecodeEDNS dm header spare off =
      some ({ dm with DNS.MalformedPacket := true, DNS.DnsRRs.Answers := answers }, none) := by
  have hpos := DecodeAnswer_count_pos ha
  unfold DecodePayload.answers
  rw [if_pos hpos, ha]
  simp only
  rw [if_pos ⟨htc, he⟩]
  unfold DecodePayload.authority
  rw [if_neg (by omega)]
  unfold DecodePayload.additional
  rw [if_neg (by omega)]

/-- The TC downgrade, from the offset `off` at which `DecodePayload` starts
the answer section: the offset `DecodeQuestion` returns when `Qdcount > 0`,
and 0, not 12, when the header announces no question. For a message not
already marked malformed and a header with `Tc = 1`, `Nscount = 0` and
`Arcount = 0`: if `DecodeAnswer` from `off` fails with
`ErrDecodeDnsAnswerTooShort`, `ErrDecodeDnsAnswerRdataTooShort` or
`ErrDecodeDnsLabelTooShort`, then `DecodePayload` returns no error, sets
`MalformedPacket`, and stores in the answers list the partial list
`DecodeAnswer` returned. -/
theorem DecodePayload_tc_downgrade {E : Type}
    (DecodeEDNS : Int → Int → List Byte → Option (E × Int × Option DnsErr))
    (dm : DnsMessage E) (header : DnsHeader) (config : Config) (spare : List Byte)
    (off : Int) (answers : List DnsAnswer) (o : Int) (e : DnsErr)
    (hm : dm.DNS.MalformedPacket = false)
    (htc : header.Tc = 1) (hns : header.Nscount = 0) (har : header.Arcount = 0)
    (hq : header.Qdcount > 0 → ∃ qname qtype,
      DecodeQuestion header.Qdcount dm.DNS.Payload = some (qname, qtype, off, none))
    (hq0 : header.Qdcount ≤ 0 → off = 0)
    (ha : DecodeAnswer header.Ancount off dm.DNS.Payload spare = some (answers, o, some e))
    (he : isTruncation e) :
    ∃ dm', DecodePayload DecodeEDNS dm header config spare = some (dm', none) ∧
      dm'.DNS.MalformedPacket = true ∧ dm'.DNS.DnsRRs.Answers = answers := by
  obtain ⟨hpay, _, _, _, hTC⟩ := DecodePayload.copyHeader_frame dm header
  have htc' : (DecodePayload.copyHeader dm header).DNS.Flags.TC = true := by
    rw [hTC, if_pos htc]
  unfold DecodePayload
  rw [if_neg (by rw [hm]; decide)]
  unfold DecodePayload.question
  by_cases hqd : header.Qdcount > 0
  · obtain ⟨qname, qtype, hdq⟩ := hq hqd
    rw [if_pos hqd, hpay, hdq]
    simp only
    have hdown := DecodePayload.answers_downgrade DecodeEDNS
      { DecodePayload.copyHeader dm header with
        DNS.Qname := qname, DNS.Qtype := RdatatypeToString qtype }
      header spare off answers o e htc' hns har
      (by
        show DecodeAnswer header.Ancount off (DecodePayload.copyHeader dm header).DNS.Payload
          spare = _
        rw [hpay]; exact ha) he
    rw [hdown]
    exact ⟨_, rfl, rfl, rfl⟩
  · rw [if_neg hqd, ← hq0 (by omega)]
    rw [DecodePayload.answers_downgrade DecodeEDNS _ header spare off answers o e htc' hns har
      (by rw [hpay]; exact ha) he]
    exact ⟨_, rfl, rfl, rfl⟩

/-! ## The properties of the sections on concrete messages -/

theorem S1short_run : ParseLabels.runN S1short 4 (ParseLabels.init 12 S1short) =
    some ([.read 12, .read 13, .read 14, .read 15,
        .read 16, .read 17, .read 18, .read 19, .read 20, .read 21, .read 22, .read 23,
        .read 24, .read 25, .read 26, .read 27, .read 28],
      some (str "www.example.com", 29, none)) := by
  decide

theorem DecodeQuestion_failures_witness :
    ParseLabels 12 S1short = some (str "www.example.com", 29, none) ∧
    len S1short - 29 < 4 ∧
    DecodeQuestion 1 S1short = some ([], 0, 0, some ErrDecodeQuestionQtypeTooShort) := by
  have hp : ParseLabels 12 S1short = some (str "www.example.com", 29, none) :=
    ParseLabels_of_runN 4 (by decide) S1short_run
  exact ⟨hp, by decide,
    (DecodeQuestion_failures 1 S1short).1 0 [] 0 12 _ 29 (by decide) (by decide) hp (by decide)⟩

theorem optPayload_record : RecordAt optPayload 12 [] 13 41 4096 0 0 [] :=
  ⟨ParseLabels_of_runN 1 (r := ([.read 12], some ([], 13, none))) (by decide) (by decide),
    by decide, by decide, by decide, by decide, by decide, by decide⟩

theorem DecodeAnswer_no_opt_witness :
    RecordAt optPayload 12 [] 13 41 4096 0 0 [] ∧
    DecodeAnswer 1 12 optPayload [] = some ([], 23, none) := by
  have h := (DecodeAnswer_no_opt 1 12 optPayload []).2 [] 13 4096 0 0 [] (by decide)
    optPayload_record
  refine ⟨optPayload_record, ?_⟩
  rw [h]
  decide

theorem S2_record :
    RecordAt S2 33 (str "www.example.com") 35 1 1 60 4 [0x5D, 0xB8, 0xD8, 0x22] :=
  ⟨ParseLabels_of_runN 5 (by decide) S2_run,
    by decide, by decide, by decide, by decide, by decide, by decide⟩

theorem S2_answer : DecodeAnswer 1 33 S2 [] = some ([S2record], 49, none) := by
  have hr : DecodeAnswer.rdataOf S2 [] 35 1 4 [0x5D, 0xB8, 0xD8, 0x22] =
      some (str "93.184.216.34", none) := by decide
  unfold DecodeAnswer
  rw [Int.toNat_one, DecodeAnswer.loop_one_record S2_record, if_neg (by decide), hr]
  rfl

theorem DecodeAnswer_offset_increases_witness :
    DecodeAnswer 1 33 S2 [] = some ([S2record], 49, none) ∧ (33 : Int) < 49 :=
  ⟨S2_answer, (DecodeAnswer_offset_increases 1 33 S2 [] [S2record] 49 S2_answer).2 (by decide)⟩

theorem truncatedResponse_run33 :
    ParseLabels.runN truncatedResponse 5 (ParseLabels.init 33 truncatedResponse) =
    some ([.read 33, .read 33, .read 34, .jump 33 12,
        .read 12, .read 13, .read 14, .read 15,
        .read 16, .read 17, .read 18, .read 19, .read 20, .read 21, .read 22, .read 23,
        .read 24, .read 25, .read 26, .read 27, .read 28],
      some (str "www.example.com", 35, none)) := by
  decide

theorem truncatedResponse_run49 :
    ParseLabels.runN truncatedResponse 5 (ParseLabels.init 49 truncatedResponse) =
    some ([.read 49, .read 49, .read 50, .jump 49 12,
        .read 12, .read 13, .read 14, .read 15,
        .read 16, .read 17, .read 18, .read 19, .read 20, .read 21, .read 22, .read 23,
        .read 24, .read 25, .read 26, .read 27, .read 28],
      some (str "www.example.com", 51, none)) := by
  decide

theorem truncatedResponse_record :
    RecordAt truncatedResponse 33 (str "www.example.com") 35 1 1 60 4
      [0x5D, 0xB8, 0xD8, 0x22] :=
  ⟨ParseLabels_of_runN 5 (by decide) truncatedResponse_run33,
    by decide, by decide, by decide, by decide, by decide, by decide⟩

theorem truncatedResponse_first :
    DecodeAnswer 1 33 truncatedResponse [] = some ([S2record], 49, none) := by
  have hr : DecodeAnswer.rdataOf truncatedResponse [] 35 1 4 [0x5D, 0xB8, 0xD8, 0x22] =
      some (str "93.184.216.34", none) := by decide
  unfold DecodeAnswer
  rw [Int.toNat_one, DecodeAnswer.loop_one_record truncatedResponse_record,
    if_neg (by decide), hr]
  rfl

theorem truncatedResponse_name49 :
    ParseLabels 49 truncatedResponse = some (str "www.example.com", 51, none) :=
  ParseLabels_of_runN 5 (by decide) truncatedResponse_run49

theorem truncatedResponse_answers :
    DecodeAnswer 2 33 truncatedResponse [] =
      some ([S2record], 49, some ErrDecodeDnsAnswerTooShort) := by
  have h1 := truncatedResponse_first
  unfold DecodeAnswer at h1 ⊢
  rw [Int.toNat_one] at h1
  rw [show (2 : Int).toNat = 1 + (0 + 1) from rfl, DecodeAnswer.loop_add, h1]
  simp only
  rw [DecodeAnswer.loop_succ,
    DecodeAnswer.loop_one_too_short truncatedResponse_name49 (by decide)]

theorem truncatedResponse_question :
    DecodeQuestion 1 truncatedResponse = some (str "www.example.com", 1, 33, none) := by
  have h := DecodeQuestion.one_uncompressed (truncatedResponse.take 12)
    (truncatedResponse.drop 33) [str "www", str "example", str "com"] 0 1 0 1 (by decide)
    (by
      intro l hl
      simp only [List.mem_cons, List.mem_singleton, List.not_mem_nil, or_false] at hl
      rcases hl with rfl | rfl | rfl <;> decide)
    (by decide)
  have e : truncatedResponse.take 12 ++ encodeLabels [str "www", str "example", str "com"] ++
      0 :: 0 :: 1 :: 0 :: 1 :: truncatedResponse.drop 33 = truncatedResponse := by decide
  rw [e] at h
  rw [h]
  decide

theorem DecodeAnswer_too_short_witness :
    DecodeAnswer 1 33 truncatedResponse [] = some ([S2record], 49, none) ∧
    ParseLabels 49 truncatedResponse = some (str "www.example.com", 51, none) ∧
    len truncatedResponse - 51 < 10 ∧
    DecodeAnswer 2 33 truncatedResponse [] =
      some ([S2record], 49, some ErrDecodeDnsAnswerTooShort) :=
  ⟨truncatedResponse_first, truncatedResponse_name49, by decide,
    DecodeAnswer_too_short 2 33 truncatedResponse [] 1 [S2record] 49 _ 51 (by decide)
      truncatedResponse_first truncatedResponse_name49 (by decide)⟩

theorem DecodeAnswer_failure_offset_witness :
    ∃ i : Nat, (i : Int) < 2 ∧
      DecodeAnswer i 33 truncatedResponse [] = some ([S2record], 49, none) ∧
      DecodeAnswer 1 49 truncatedResponse [] = some ([], 49, some ErrDecodeDnsAnswerTooShort) ∧
      (i = 0 → [S2record] = [] ∧ (49 : Int) = 33) :=
  DecodeAnswer_failure_offset 2 33 truncatedResponse [] [S2record] 49
    ErrDecodeDnsAnswerTooShort truncatedResponse_answers

theorem DecodeAnswer_A_record_witness :
    ∃ qname qtype off, DecodeQuestion 1 S2 = some (qname, qtype, off, none) ∧
      qname = str "www.example.com" ∧
      DecodeAnswer 1 off S2 [] = some ([S2record], 49, none) := by
  have h := DecodeAnswer_A_record (S1.take 12) [str "www", str "example", str "com"]
    0 1 0 1 0 1 0 0 0 0x3C 0x5D 0xB8 0xD8 0x22 []
    (by decide)
    (by
      intro l hl
      simp only [List.mem_cons, List.mem_singleton, List.not_mem_nil, or_false] at hl
      rcases hl with rfl | rfl | rfl <;> decide)
    (by decide)
  have e : messageWithA (S1.take 12) [str "www", str "example", str "com"]
      0 1 0 1 0 1 0 0 0 0x3C 0x5D 0xB8 0xD8 0x22 = S2 := by decide
  rw [e] at h
  obtain ⟨qname, qtype, off, h1, h2, h3⟩ := h
  have e2 : Join [str "www", str "example", str "com"] (str ".") = str "www.example.com" := by
    decide
  rw [e2] at h2
  subst h2
  refine ⟨_, qtype, off, h1, rfl, ?_⟩
  rw [h3]
  decide

theorem DecodePayload_malformed_untouched_witness :
    DecodePayload (fun _ _ _ => none)
        { truncatedMessage with DNS.MalformedPacket := true } truncatedHeader {} [] =
      some ({ truncatedMessage with DNS.MalformedPacket := true }, none) :=
  DecodePayload_malformed_untouched (fun _ _ _ => none)
    { truncatedMessage with DNS.MalformedPacket := true } truncatedHeader {} [] rfl

theorem DecodePayload_tc_downgrade_witness :
    DecodeDns truncatedResponse = some (truncatedHeader, none) ∧
    DecodeAnswer 2 33 truncatedResponse [] =
      some ([S2record], 49, some ErrDecodeDnsAnswerTooShort) ∧
    ∃ dm', DecodePayload (fun _ _ _ => none) truncatedMessage truncatedHeader {} [] =
        some (dm', none) ∧
      dm'.DNS.MalformedPacket = true ∧ dm'.DNS.DnsRRs.Answers = [S2record] :=
  ⟨by decide, truncatedResponse_answers,
    DecodePayload_tc_downgrade (fun _ _ _ => none) truncatedMessage truncatedHeader {} []
      33 [S2record] 49 ErrDecodeDnsAnswerTooShort rfl rfl rfl rfl
      (fun _ => ⟨_, _, truncatedResponse_question⟩)
      (fun h => absurd h (by decide)) truncatedResponse_answers (Or.inl rfl)⟩

/-! ## `DecodePayload`, section by section -/

/-- The flags of the message after the header has been copied into it: a flag
is set when the header bit is 1 and is left as it was otherwise. -/
theorem DecodePayload.copyHeader_flags {E : Type} (dm : DnsMessage E) (header : DnsHeader) :
    (DecodePayload.copyHeader dm header).DNS.Flags =
      { QR := dm.DNS.Flags.QR || decide (header.Qr = 1)
        TC := dm.DNS.Flags.TC || decide (header.Tc = 1)
        AA := dm.DNS.Flags.AA || decide (header.Aa = 1)
        RA := dm.DNS.Flags.RA || decide (header.Ra = 1)
        AD := dm.DNS.Flags.AD || decide (header.Ad = 1) } := by
  have hq : (header.Qr = 1 ∧ header.Qr ≠ 0) ∨ (header.Qr ≠ 1 ∧ header.Qr = 0) ∨
      (header.Qr ≠ 1 ∧ header.Qr ≠ 0) := by omega
  rcases hq with ⟨h2, h3⟩ | ⟨h2, h3⟩ | ⟨h2, h3⟩ <;>
    by_cases h1 : header.Opcode = 5 <;> by_cases h4 : header.Tc = 1 <;>
    by_cases h5 : header.Aa = 1 <;> by_cases h6 : header.Ra = 1 <;>
    by_cases h7 : header.Ad = 1 <;>
    simp only [DecodePayload.copyHeader, h1, h2, h3, h4, h5, h6, h7, if_true, if_false,
      and_true, and_false, and_self, true_and, false_and, ne_eq, not_false_eq_true,
      one_ne_zero, zero_ne_one, decide_True, decide_False, Bool.or_true, Bool.or_false]

/-- Up to the answer section: for a message not marked malformed whose
question section decodes to the offset `off` (0 when the header announces no
question), `DecodePayload` goes on with the answer section at `off`, on a
message with the same payload, record lists and EDNS view, and the flags set
from the header. -/
theorem DecodePayload.question_pass {E : Type}
    (DecodeEDNS : Int → Int → List Byte → Option (E × Int × Option DnsErr))
    (dm : DnsMessage E) (header : DnsHeader) (config : Config) (spare : List Byte) (off : Int)
    (hm : dm.DNS.MalformedPacket = false)
    (hq : header.Qdcount > 0 → ∃ qname qtype,
      DecodeQuestion header.Qdcount dm.DNS.Payload = some (qname, qtype, off, none))
    (hq0 : header.Qdcount ≤ 0 → off = 0) :
    ∃ dm1 : DnsMessage E,
      DecodePayload DecodeEDNS dm header config spare =
        DecodePayload.answers DecodeEDNS dm1 header spare off ∧
      dm1.DNS.Payload = dm.DNS.Payload ∧
      dm1.DNS.Flags = (DecodePayload.copyHeader dm header).DNS.Flags ∧
      dm1.DNS.MalformedPacket = false ∧ dm1.DNS.DnsRRs = dm.DNS.DnsRRs ∧ dm1.EDNS = dm.EDNS := by
  obtain ⟨hpay, hmal, hrrs, hedns, _⟩ := DecodePayload.copyHeader_frame dm header
  unfold DecodePayload
  rw [if_neg (by rw [hm]; decide)]
  unfold DecodePayload.question
  by_cases hqd : header.Qdcount > 0
  · obtain ⟨qname, qtype, hdq⟩ := hq hqd
    rw [if_pos hqd, hpay, hdq]
    exact ⟨_, rfl, hpay, rfl, by rw [← hm, ← hmal], hrrs, hedns⟩
  · rw [if_neg hqd, ← hq0 (by omega)]
    exact ⟨_, rfl, hpay, rfl, by rw [← hm, ← hmal], hrrs, hedns⟩

/-- The answer section when `DecodeAnswer` fails and the failure is not let
pass. -/
theorem DecodePayload.answers_error {E : Type}
    (DecodeEDNS : Int → Int → List Byte → Option (E × Int × Option DnsErr))
    (dm : DnsMessage E) (header : DnsHeader) (spare : List Byte) (off : Int)
    (answers : List DnsAnswer) (o : Int) (e : DnsErr)
    (ha : DecodeAnswer header.Ancount off dm.DNS.Payload spare = some (answers, o, some e))
    (hno : ¬ (dm.DNS.Flags.TC = true ∧ isTruncation e)) :
    DecodePayload.answers DecodeEDNS dm header spare off =
      some ({ dm with DNS.MalformedPacket := true },
        some { part := "answer records", err := e }) := by
  have hpos := DecodeAnswer_count_pos ha
  unfold DecodePayload.answers
  rw [if_pos hpos, ha]
  simp only
  rw [if_neg hno]

/-- The answer section when `DecodeAnswer` succeeds (also with a count of 0,
when it is not called): the authority section follows at the offset it
returns, on a message with the same payload, flags and malformed mark. -/
theorem DecodePayload.answers_pass {E : Type}
    (DecodeEDNS : Int → Int → List Byte → Option (E × Int × Option DnsErr))
    (dm : DnsMessage E) (header : DnsHeader) (spare : List Byte) (off off2 : Int)
    (answers : List DnsAnswer)
    (ha : DecodeAnswer header.Ancount off dm.DNS.Payload spare = some (answers, off2, none)) :
    ∃ dm2 : DnsMessage E,
      DecodePayload.answers DecodeEDNS dm header spare off =
        DecodePayload.authority DecodeEDNS dm2 header spare off2 ∧
      dm2.DNS.Payload = dm.DNS.Payload ∧ dm2.DNS.Flags = dm.DNS.Flags ∧
      dm2.DNS.MalformedPacket = dm.DNS.MalformedPacket ∧
      (0 < header.Ancount → dm2.DNS.DnsRRs.Answers = answers) := by
  unfold DecodePayload.answers
  by_cases hpos : header.Ancount > 0
  · rw [if_pos hpos, ha]
    exact ⟨_, rfl, rfl, rfl, rfl, fun _ => rfl⟩
  · rw [if_neg hpos]
    unfold DecodeAnswer at ha
    rw [show header.Ancount.toNat = 0 by omega, DecodeAnswer.loop_zero] at ha
    have ho := (Prod.mk.inj (Prod.mk.inj (Option.some.inj ha)).2).1
    rw [ho]
    exact ⟨_, rfl, rfl, rfl, rfl, fun h => absurd h (by omega)⟩

/-- The authority section when `DecodeAnswer` fails and the failure is not let
pass. -/
theorem DecodePayload.authority_error {E : Type}
    (DecodeEDNS : Int → Int → List Byte → Option (E × Int × Option DnsErr))
    (dm : DnsMessage E) (header : DnsHeader) (spare : List Byte) (off : Int)
    (answers : List DnsAnswer) (o : Int) (e : DnsErr)
    (ha : DecodeAnswer header.Nscount off dm.DNS.Payload spare = some (answers, o, some e))
    (hno : ¬ (dm.DNS.Flags.TC = true ∧ isTruncation e)) :
    DecodePayload.authority DecodeEDNS dm header spare off =
      some ({ dm with DNS.MalformedPacket := true },
        some { part := "authority records", err := e }) := by
  have hpos := DecodeAnswer_count_pos ha
  unfold DecodePayload.authority
  rw [if_pos hpos, ha]
  simp only
  rw [if_neg hno]

theorem DecodingError.Error_eq (ednsData ednsOption : GoString) (e : DnsErr) :
    DecodingError.Error ednsData ednsOption { part := "answer records", err := e } =
      str "malformed answer records in DNS packet: " ++ DnsErr.Error ednsData ednsOption e ∧
    DecodingError.Error ednsData ednsOption { part := "authority records", err := e } =
      str "malformed authority records in DNS packet: " ++
        DnsErr.Error ednsData ednsOption e ∧
    DecodingError.Error ednsData ednsOption { part := "query", err := e } =
      str "malformed query in DNS packet: " ++ DnsErr.Error ednsData ednsOption e := by
  unfold DecodingError.Error
  refine ⟨?_, ?_, ?_⟩ <;> congr 1

/-- The TC flag of the message, once the header is copied, is not set when
the header bit is not 1 and the flag was not set before. -/
theorem DecodePayload.not_downgraded {E : Type} (dm : DnsMessage E) (header : DnsHeader)
    (e : DnsErr)
    (hno : (header.Tc ≠ 1 ∧ dm.DNS.Flags.TC = false) ∨ ¬ isTruncation e) :
    ¬ ((DecodePayload.copyHeader dm header).DNS.Flags.TC = true ∧ isTruncation e) := by
  rintro ⟨h1, h2⟩
  rcases hno with ⟨h3, h4⟩ | h3
  · rw [(DecodePayload.copyHeader_frame dm header).2.2.2.2, if_neg h3, h4] at h1
    cases h1
  · exact h3 h2

/-! ## Errors that are not let pass (C21, C22) -/

/-- The errors that are not let pass, from the offset `off` at which
`DecodePayload` starts the answer section: the offset `DecodeQuestion` returns
when `Qdcount > 0`, and 0, not 12, when the header announces no question. For
a message not already marked malformed: if `DecodeAnswer` from `off` fails and
either the TC flag is not set
(the header bit is not 1 and the flag of the message was false) or the error
is none of the three truncation errors, `DecodePayload` sets `MalformedPacket`
and returns a `decodingError` with part "answer records" and the original
error as its cause, whose text is "malformed answer records in DNS packet: "
followed by the text of the cause. The same holds with part "authority
records" when the answer section decodes and `DecodeAnswer` fails on the
authority section. -/
theorem DecodePayload_section_error {E : Type}
    (DecodeEDNS : Int → Int → List Byte → Option (E × Int × Option DnsErr))
    (dm : DnsMessage E) (header : DnsHeader) (config : Config) (spare : List Byte) (off : Int)
    (ednsData ednsOption : GoString)
    (hm : dm.DNS.MalformedPacket = false)
    (hq : header.Qdcount > 0 → ∃ qname qtype,
      DecodeQuestion header.Qdcount dm.DNS.Payload = some (qname, qtype, off, none))
    (hq0 : header.Qdcount ≤ 0 → off = 0) :
    (∀ answers o e,
      DecodeAnswer header.Ancount off dm.DNS.Payload spare = some (answers, o, some e) →
      ((header.Tc ≠ 1 ∧ dm.DNS.Flags.TC = false) ∨ ¬ isTruncation e) →
      ∃ dm', DecodePayload DecodeEDNS dm header config spare =
          some (dm', some { part := "answer records", err := e }) ∧
        dm'.DNS.MalformedPacket = true ∧
        DecodingError.Error ednsData ednsOption { part := "answer records", err := e } =
          str "malformed answer records in DNS packet: " ++
            DnsErr.Error ednsData ednsOption e) ∧
    (∀ answers off2 ns o e,
      DecodeAnswer header.Ancount off dm.DNS.Payload spare = some (answers, off2, none) →
      DecodeAnswer header.Nscount off2 dm.DNS.Payload spare = some (ns, o, some e) →
      ((header.Tc ≠ 1 ∧ dm.DNS.Flags.TC = false) ∨ ¬ isTruncation e) →
      ∃ dm', DecodePayload DecodeEDNS dm header config spare =
          some (dm', some { part := "authority records", err := e }) ∧
        dm'.DNS.MalformedPacket = true ∧
        DecodingError.Error ednsData ednsOption { part := "authority records", err := e } =
          str "malformed authority records in DNS packet: " ++
            DnsErr.Error ednsData ednsOption e) := by
  obtain ⟨dm1, h1, hpay, hfl, hmal, _, _⟩ :=
    DecodePayload.question_pass DecodeEDNS dm header config spare off hm hq hq0
  constructor
  · intro answers o e ha hno
    have hno' := DecodePayload.not_downgraded dm header e hno
    rw [← hfl] at hno'
    rw [h1, DecodePayload.answers_error DecodeEDNS dm1 header spare off answers o e
      (by rw [hpay]; exact ha) hno']
    exact ⟨_, rfl, rfl, (DecodingError.Error_eq ednsData ednsOption e).1⟩
  · intro answers off2 ns o e ha hns hno
    have hno' := DecodePayload.not_downgraded dm header e hno
    rw [← hfl] at hno'
    obtain ⟨dm2, h2, hpay2, hfl2, _, _⟩ :=
      DecodePayload.answers_pass DecodeEDNS dm1 header spare off off2 answers
        (by rw [hpay]; exact ha)
    rw [← hfl2] at hno'
    rw [h1, h2, DecodePayload.authority_error DecodeEDNS dm2 header spare off2 ns o e
      (by rw [hpay2, hpay]; exact hns) hno']
    exact ⟨_, rfl, rfl, (DecodingError.Error_eq ednsData ednsOption e).2.1⟩

/-- C22. For a message not already marked malformed and a header with
`Qdcount >= 1`, whatever its TC bit and the TC flag of the message: if
`DecodeQuestion` fails, `DecodePayload` sets `MalformedPacket` and returns a
`decodingError` with part "query" and the error of `DecodeQuestion` as its
cause; the three record lists are left as they were. -/
theorem DecodePayload_query_error {E : Type}
    (DecodeEDNS : Int → Int → List Byte → Option (E × Int × Option DnsErr))
    (dm : DnsMessage E) (header : DnsHeader) (config : Config) (spare : List Byte)
    (qname : GoString) (qtype off : Int) (e : DnsErr)
    (hm : dm.DNS.MalformedPacket = false) (hqd : 1 ≤ header.Qdcount)
    (hq : DecodeQuestion header.Qdcount dm.DNS.Payload = some (qname, qtype, off, some e)) :
    ∃ dm', DecodePayload DecodeEDNS dm header config spare =
        some (dm', some { part := "query", err := e }) ∧
      dm'.DNS.MalformedPacket = true ∧ dm'.DNS.DnsRRs = dm.DNS.DnsRRs := by
  obtain ⟨hpay, _, hrrs, _, _⟩ := DecodePayload.copyHeader_frame dm header
  unfold DecodePayload
  rw [if_neg (by rw [hm]; decide)]
  unfold DecodePayload.question
  rw [if_pos (by omega), hpay, hq]
  exact ⟨_, rfl, rfl, hrrs⟩

/-! ## Decoding twice (C26) -/

/-- C26. If `DecodePayload` returns no error and leaves the message marked
malformed (for a message that was not marked before, that is the TC
downgrade), a second call with the same header on the message it produced
returns no error and leaves the message, so the three record lists and the
`MalformedPacket` flag, exactly as the first call left them. -/
theorem DecodePayload_twice {E : Type}
    (DecodeEDNS : Int → Int → List Byte → Option (E × Int × Option DnsErr))
    (dm dm1 : DnsMessage E) (header : DnsHeader) (config : Config) (spare : List Byte)
    (h1 : DecodePayload DecodeEDNS dm header config spare = some (dm1, none))
    (hmal : dm1.DNS.MalformedPacket = true) :
    ∃ dm2,
      (DecodePayload DecodeEDNS dm header config spare).bind
        (fun r => DecodePayload DecodeEDNS r.1 header config spare) = some (dm2, none) ∧
      dm2.DNS.DnsRRs.Answers = dm1.DNS.DnsRRs.Answers ∧
      dm2.DNS.DnsRRs.Nameservers = dm1.DNS.DnsRRs.Nameservers ∧
      dm2.DNS.DnsRRs.Records = dm1.DNS.DnsRRs.Records ∧
      dm2.DNS.MalformedPacket = dm1.DNS.MalformedPacket ∧ dm2 = dm1 := by
  refine ⟨dm1, ?_, rfl, rfl, rfl, rfl, rfl⟩
  rw [h1, Option.some_bind]
  unfold DecodePayload
  rw [if_pos hmal]

/-! ## The flags of the message (C25) -/

theorem DecodePayload.edns_flags {E : Type}
    (DecodeEDNS : Int → Int → List Byte → Option (E × Int × Option DnsErr))
    (dm dm' : DnsMessage E) (header : DnsHeader) (off : Int) (err : Option DecodingError)
    (h : DecodePayload.edns DecodeEDNS dm header off = some (dm', err)) :
    dm'.DNS.Flags = dm.DNS.Flags := by
  unfold DecodePayload.edns at h
  rcases hd : DecodeEDNS header.Arcount off dm.DNS.Payload with _ | ⟨ed, o, _ | e⟩
  · rw [hd] at h
    exact Option.noConfusion h
  · rw [hd] at h
    rw [← (Prod.mk.inj (Option.some.inj h)).1]
  · rw [hd] at h
    simp only at h
    by_cases hc : dm.DNS.Flags.TC = true ∧ (isTruncation e ∨ e = ErrDecodeEdnsDataTooShort ∨
        e = ErrDecodeEdnsOptionTooShort)
    · rw [if_pos hc] at h
      rw [← (Prod.mk.inj (Option.some.inj h)).1]
    · rw [if_neg hc] at h
      rw [← (Prod.mk.inj (Option.some.inj h)).1]

theorem DecodePayload.additional_flags {E : Type}
    (DecodeEDNS : Int → Int → List Byte → Option (E × Int × Option DnsErr))
    (dm dm' : DnsMessage E) (header : DnsHeader) (spare : List Byte) (off : Int)
    (err : Option DecodingError)
    (h : DecodePayload.additional DecodeEDNS dm header spare off = some (dm', err)) :
    dm'.DNS.Flags = dm.DNS.Flags := by
  unfold DecodePayload.additional at h
  by_cases hpos : header.Arcount > 0
  · rw [if_pos hpos] at h
    rcases hd : DecodeAnswer header.Arcount off dm.DNS.Payload spare with _ | ⟨l, o, _ | e⟩
    · rw [hd] at h
      exact Option.noConfusion h
    · rw [hd] at h
      simp only at h
      exact (DecodePayload.edns_flags DecodeEDNS _ dm' header off err h :)
    · rw [hd] at h
      simp only at h
      by_cases hc : dm.DNS.Flags.TC = true ∧ isTruncation e
      · rw [if_pos hc] at h
        exact (DecodePayload.edns_flags DecodeEDNS _ dm' header off err h :)
      · rw [if_neg hc] at h
        rw [← (Prod.mk.inj (Option.some.inj h)).1]
  · rw [if_neg hpos] at h
    rw [← (Prod.mk.inj (Option.some.inj h)).1]

theorem DecodePayload.authority_flags {E : Type}
    (DecodeEDNS : Int → Int → List Byte → Option (E × Int × Option DnsErr))
    (dm dm' : DnsMessage E) (header : DnsHeader) (spare : List Byte) (off : Int)
    (err : Option DecodingError)
    (h : DecodePayload.authority DecodeEDNS dm header spare off = some (dm', err)) :
    dm'.DNS.Flags = dm.DNS.Flags := by
  unfold DecodePayload.authority at h
  by_cases hpos : header.Nscount > 0
  · rw [if_pos hpos] at h
    rcases hd : DecodeAnswer header.Nscount off dm.DNS.Payload spare with _ | ⟨l, o, _ | e⟩
    · rw [hd] at h
      exact Option.noConfusion h
    · rw [hd] at h
      simp only at h
      exact (DecodePayload.additional_flags DecodeEDNS _ dm' header spare o err h :)
    · rw [hd] at h
      simp only at h
      by_cases hc : dm.DNS.Flags.TC = true ∧ isTruncation e
      · rw [if_pos hc] at h
        exact (DecodePayload.additional_flags DecodeEDNS _ dm' header spare o err h :)
      · rw [if_neg hc] at h
        rw [← (Prod.mk.inj (Option.some.inj h)).1]
  · rw [if_neg hpos] at h
    exact (DecodePayload.additional_flags DecodeEDNS _ dm' header spare off err h :)

theorem DecodePayload.answers_flags {E : Type}
    (DecodeEDNS : Int → Int → List Byte → Option (E × Int × Option DnsErr))
    (dm dm' : DnsMessage E) (header : DnsHeader) (spare : List Byte) (off : Int)
    (err : Option DecodingError)
    (h : DecodePayload.answers DecodeEDNS dm header spare off = some (dm', err)) :
    dm'.DNS.Flags = dm.DNS.Flags := by
  unfold DecodePayload.answers at h
  by_cases hpos : header.Ancount > 0
  · rw [if_pos hpos] at h
    rcases hd : DecodeAnswer header.Ancount off dm.DNS.Payload spare with _ | ⟨l, o, _ | e⟩
    · rw [hd] at h
      exact Option.noConfusion h
    · rw [hd] at h
      simp only at h
      exact (DecodePayload.authority_flags DecodeEDNS _ dm' header spare o err h :)
    · rw [hd] at h
      simp only at h
      by_cases hc : dm.DNS.Flags.TC = true ∧ isTruncation e
      · rw [if_pos hc] at h
        exact (DecodePayload.authority_flags DecodeEDNS _ dm' header spare o err h :)
      · rw [if_neg hc] at h
        rw [← (Prod.mk.inj (Option.some.inj h)).1]
  · rw [if_neg hpos] at h
    exact (DecodePayload.authority_flags DecodeEDNS _ dm' header spare off err h :)

/-- Whatever `DecodePayload` returns on a message not marked malformed, the
flags of the message are those it had once the header was copied. -/
theorem DecodePayload.flags_after {E : Type}
    (DecodeEDNS : Int → Int → List Byte → Option (E × Int × Option DnsErr))
    (dm dm' : DnsMessage E) (header : DnsHeader) (config : Config) (spare : List Byte)
    (err : Option DecodingError) (hm : dm.DNS.MalformedPacket = false)
    (h : DecodePayload DecodeEDNS dm header config spare = some (dm', err)) :
    dm'.DNS.Flags = (DecodePayload.copyHeader dm header).DNS.Flags := by
  unfold DecodePayload at h
  rw [if_neg (by rw [hm]; decide)] at h
  unfold DecodePayload.question at h
  by_cases hpos : header.Qdcount > 0
  · rw [if_pos hpos] at h
    rcases hd : DecodeQuestion header.Qdcount (DecodePayload.copyHeader dm header).DNS.Payload
      with _ | ⟨q, t, o, _ | e⟩
    · rw [hd] at h
      exact Option.noConfusion h
    · rw [hd] at h
      simp only at h
      exact (DecodePayload.answers_flags DecodeEDNS _ dm' header spare o err h :)
    · rw [hd] at h
      rw [← (Prod.mk.inj (Option.some.inj h)).1]
  · rw [if_neg hpos] at h
    exact (DecodePayload.answers_flags DecodeEDNS _ dm' header spare 0 err h :)

/-- C25 (as amended). After `DecodePayload` has run on a message that was not
already marked malformed, whatever it returns, each of the flags QR, TC, AA,
RA, AD of the message is true exactly when the header field is 1 or the flag
was already true before the call: the flags are set, never cleared. For a
message whose five flags are false before the call, each flag equals the
header bit. -/
theorem DecodePayload_flags {E : Type}
    (DecodeEDNS : Int → Int → List Byte → Option (E × Int × Option DnsErr))
    (dm dm' : DnsMessage E) (header : DnsHeader) (config : Config) (spare : List Byte)
    (err : Option DecodingError) (hm : dm.DNS.MalformedPacket = false)
    (h : DecodePayload DecodeEDNS dm header config spare = some (dm', err)) :
    dm'.DNS.Flags =
      { QR := dm.DNS.Flags.QR || decide (header.Qr = 1)
        TC := dm.DNS.Flags.TC || decide (header.Tc = 1)
        AA := dm.DNS.Flags.AA || decide (header.Aa = 1)
        RA := dm.DNS.Flags.RA || decide (header.Ra = 1)
        AD := dm.DNS.Flags.AD || decide (header.Ad = 1) } ∧
    (dm.DNS.Flags = { QR := false, TC := false, AA := false, RA := false, AD := false } →
      dm'.DNS.Flags =
        { QR := decide (header.Qr = 1), TC := decide (header.Tc = 1),
          AA := decide (header.Aa = 1), RA := decide (header.Ra = 1),
          AD := decide (header.Ad = 1) }) := by
  have h1 := DecodePayload.flags_after DecodeEDNS dm dm' header config spare err hm h
  rw [DecodePayload.copyHeader_flags] at h1
  refine ⟨h1, fun h0 => ?_⟩
  rw [h1, h0]
  simp only [Bool.false_or]

/-! ## Sections that are not announced -/

theorem DecodePayload.authority_skip {E : Type}
    (DecodeEDNS : Int → Int → List Byte → Option (E × Int × Option DnsErr))
    (dm : DnsMessage E) (header : DnsHeader) (spare : List Byte) (off : Int)
    (hns : header.Nscount = 0) (har : header.Arcount = 0) :
    DecodePayload.authority DecodeEDNS dm header spare off = some (dm, none) := by
  unfold DecodePayload.authority
  rw [if_neg (by omega)]
  unfold DecodePayload.additional
  rw [if_neg (by omega)]

/-- A message with no authority and no additional record whose question and
answer sections decode: `DecodePayload` returns no error, leaves the message
unmarked and stores the records of the answer section. -/
theorem DecodePayload.answers_only {E : Type}
    (DecodeEDNS : Int → Int → List Byte → Option (E × Int × Option DnsErr))
    (dm : DnsMessage E) (header : DnsHeader) (config : Config) (spare : List Byte)
    (off off2 : Int) (answers : List DnsAnswer)
    (hm : dm.DNS.MalformedPacket = false)
    (hq : header.Qdcount > 0 → ∃ qname qtype,
      DecodeQuestion header.Qdcount dm.DNS.Payload = some (qname, qtype, off, none))
    (hq0 : header.Qdcount ≤ 0 → off = 0)
    (ha : DecodeAnswer header.Ancount off dm.DNS.Payload spare = some (answers, off2, none))
    (hns : header.Nscount = 0) (har : header.Arcount = 0) :
    ∃ dm', DecodePayload DecodeEDNS dm header config spare = some (dm', none) ∧
      dm'.DNS.MalformedPacket = false ∧
      (0 < header.Ancount → dm'.DNS.DnsRRs.Answers = answers) := by
  obtain ⟨dm1, h1, hpay, _, hmal, _, _⟩ :=
    DecodePayload.question_pass DecodeEDNS dm header config spare off hm hq hq0
  obtain ⟨dm2, h2, _, _, hmal2, hans⟩ :=
    DecodePayload.answers_pass DecodeEDNS dm1 header spare off off2 answers
      (by rw [hpay]; exact ha)
  rw [h1, h2, DecodePayload.authority_skip DecodeEDNS dm2 header spare off2 hns har]
  exact ⟨dm2, rfl, by rw [hmal2, hmal], hans⟩

/-! ## `DecodePayload` on concrete messages -/

theorem S1_question : DecodeQuestion 1 S1 = some (str "www.example.com", 1, 33, none) := by
  have h := DecodeQuestion.one_uncompressed (S1.take 12) [] [str "www", str "example", str "com"]
    0 1 0 1 (by decide)
    (by
      intro l hl
      simp only [List.mem_cons, List.mem_singleton, List.not_mem_nil, or_false] at hl
      rcases hl with rfl | rfl | rfl <;> decide)
    (by decide)
  have e : S1.take 12 ++ encodeLabels [str "www", str "example", str "com"] ++
      0 :: 0 :: 1 :: 0 :: 1 :: [] = S1 := by decide
  rw [e] at h
  rw [h]
  decide

theorem S3_question :
    DecodeQuestion 1 S3 = some ([], 0, 0, some ErrDecodeDnsLabelInvalidPointer) := by
  have hpl : ParseLabels 12 S3 = some ([], 0, some ErrDecodeDnsLabelInvalidPointer) :=
    ParseLabels_of_runN 3
      (r := ([.read 12, .read 12, .read 13], some ([], 0, some ErrDecodeDnsLabelInvalidPointer)))
      (by decide) (by decide)
  show DecodeQuestion.loop S3 1 [] 0 12 = _
  simp only [DecodeQuestion.loop, hpl]

theorem DecodePayload_query_error_witness :
    DecodeDns S3 = some ({ Qdcount := 1 }, none) ∧
    DecodeQuestion 1 S3 = some ([], 0, 0, some ErrDecodeDnsLabelInvalidPointer) ∧
    ∃ dm', DecodePayload (fun _ _ _ => none) (freshMessage S3) { Qdcount := 1 } {} [] =
        some (dm', some { part := "query", err := ErrDecodeDnsLabelInvalidPointer }) ∧
      dm'.DNS.MalformedPacket = true ∧ dm'.DNS.DnsRRs = (freshMessage S3).DNS.DnsRRs :=
  ⟨by decide, S3_question,
    DecodePayload_query_error (fun _ _ _ => none) (freshMessage S3) { Qdcount := 1 } {} []
      [] 0 0 ErrDecodeDnsLabelInvalidPointer rfl (by decide) S3_question⟩

theorem truncatedMessage_decoded :
    DecodePayload (fun _ _ _ => none) truncatedMessage truncatedHeader {} [] =
      some (truncatedDecoded, none) := by
  unfold DecodePayload
  rw [if_neg (by decide)]
  unfold DecodePayload.question
  rw [if_pos (by decide)]
  have hp : (DecodePayload.copyHeader truncatedMessage truncatedHeader).DNS.Payload =
      truncatedResponse := rfl
  rw [hp]
  have hq : DecodeQuestion truncatedHeader.Qdcount truncatedResponse =
      some (str "www.example.com", 1, 33, none) := truncatedResponse_question
  rw [hq]
  simp only
  rw [DecodePayload.answers_downgrade (fun _ _ _ => none)
    { DecodePayload.copyHeader truncatedMessage truncatedHeader with
      DNS.Qname := str "www.example.com", DNS.Qtype := RdatatypeToString 1 }
    truncatedHeader [] 33 [S2record] 49 ErrDecodeDnsAnswerTooShort rfl rfl rfl
    truncatedResponse_answers (Or.inl rfl)]
  rfl

theorem DecodePayload_twice_witness :
    DecodePayload (fun _ _ _ => none) truncatedMessage truncatedHeader {} [] =
      some (truncatedDecoded, none) ∧
    truncatedDecoded.DNS.MalformedPacket = true ∧
    ∃ dm2,
      (DecodePayload (fun _ _ _ => none) truncatedMessage truncatedHeader {} []).bind
        (fun r => DecodePayload (fun _ _ _ => none) r.1 truncatedHeader {} []) =
          some (dm2, none) ∧
      dm2.DNS.DnsRRs.Answers = truncatedDecoded.DNS.DnsRRs.Answers ∧
      dm2.DNS.DnsRRs.Nameservers = truncatedDecoded.DNS.DnsRRs.Nameservers ∧
      dm2.DNS.DnsRRs.Records = truncatedDecoded.DNS.DnsRRs.Records ∧
      dm2.DNS.MalformedPacket = truncatedDecoded.DNS.MalformedPacket ∧ dm2 = truncatedDecoded :=
  ⟨truncatedMessage_decoded, rfl,
    DecodePayload_twice (fun _ _ _ => none) truncatedMessage truncatedDecoded truncatedHeader {}
      [] truncatedMessage_decoded rfl⟩

theorem DecodePayload_flags_witness :
    truncatedDecoded.DNS.Flags =
      { QR := decide (truncatedHeader.Qr = 1), TC := decide (truncatedHeader.Tc = 1),
        AA := decide (truncatedHeader.Aa = 1), RA := decide (truncatedHeader.Ra = 1),
        AD := decide (truncatedHeader.Ad = 1) } :=
  (DecodePayload_flags (fun _ _ _ => none) truncatedMessage truncatedDecoded truncatedHeader {}
    [] none rfl truncatedMessage_decoded).2 rfl

/-- C25 (the claim as stated fails). The flags do not equal the header bits
for every initial state of the flags: on `staleMessage`, whose payload is the
query S1 and whose QR flag is true before the call, `DecodePayload` with the
header of S1 (`Qr = 0`) returns with the QR flag still true. -/
theorem DecodePayload_flags_counterexample :
    ¬ ∀ (dm dm' : DnsMessage Unit) (header : DnsHeader) (err : Option DecodingError),
      dm.DNS.MalformedPacket = false →
      DecodePayload (fun _ _ _ => none) dm header {} [] = some (dm', err) →
      dm'.DNS.Flags =
        { QR := decide (header.Qr = 1), TC := decide (header.Tc = 1),
          AA := decide (header.Aa = 1), RA := decide (header.Ra = 1),
          AD := decide (header.Ad = 1) } := by
  intro H
  obtain ⟨dm', h, _⟩ := DecodePayload.answers_only (fun _ _ _ => none) staleMessage S1header {}
    [] 33 33 [] rfl (fun _ => ⟨_, _, S1_question⟩) (fun h => absurd h (by decide))
    (by decide) rfl rfl
  have h1 := H staleMessage dm' S1header none rfl h
  have h2 := DecodePayload.flags_after (fun _ _ _ => none) staleMessage dm' S1header {} [] none
    rfl h
  rw [DecodePayload.copyHeader_flags] at h2
  rw [h2] at h1
  exact absurd h1 (by decide)

/-! ## The answer section of a message with no question (C23, C24) -/

theorem S4_record : RecordAt S4 0 [] 1 386 0 256 0 [] :=
  ⟨ParseLabels_of_runN 1 (r := ([.read 0], some ([], 1, none))) (by decide) (by decide),
    by decide, by decide, by decide, by decide, by decide, by decide⟩

theorem S4_answers : DecodeAnswer 1 0 S4 [] = some ([headerRecord], 11, none) := by
  have hr : DecodeAnswer.rdataOf S4 [] 1 386 0 [] = some (str "-", none) := by decide
  unfold DecodeAnswer
  rw [Int.toNat_one, DecodeAnswer.loop_one_record S4_record, if_neg (by decide), hr]
  rfl

theorem S4_answers_at_12 :
    DecodeAnswer 1 12 S4 [] = some ([], 12, some ErrDecodeDnsAnswerTooShort) := by
  have hpl : ParseLabels 12 S4 = some ([], 13, none) :=
    ParseLabels_of_runN 1 (r := ([.read 12], some ([], 13, none))) (by decide) (by decide)
  unfold DecodeAnswer
  rw [Int.toNat_one, DecodeAnswer.loop_one_too_short hpl (by decide)]

/-- C23 (the code does not do what the claim says). S4 is a 12-byte header
with TC = 1, no question and one answer, then the root name and 4 bytes of a
fixed header. Decoding one record at offset 12 fails with
`ErrDecodeDnsAnswerTooShort`, but `DecodePayload` starts the answer section at
offset 0: it reads a record out of the header bytes, returns no error, leaves
`MalformedPacket` false and stores that record in the answers list. -/
theorem DecodePayload_S4_not_downgraded
    (DecodeEDNS : Int → Int → List Byte → Option (Unit × Int × Option DnsErr)) :
    DecodeDns S4 = some (S4header, none) ∧
    DecodeAnswer 1 12 S4 [] = some ([], 12, some ErrDecodeDnsAnswerTooShort) ∧
    DecodeAnswer 1 0 S4 [] = some ([headerRecord], 11, none) ∧
    ∃ dm', DecodePayload DecodeEDNS (freshMessage S4) S4header {} [] = some (dm', none) ∧
      dm'.DNS.MalformedPacket = false ∧ dm'.DNS.DnsRRs.Answers = [headerRecord] := by
  obtain ⟨dm', h, h1, h2⟩ := DecodePayload.answers_only DecodeEDNS (freshMessage S4) S4header {}
    [] 0 11 [headerRecord] rfl (fun h => absurd h (by decide)) (fun _ => rfl) S4_answers rfl rfl
  exact ⟨by decide, S4_answers_at_12, S4_answers, dm', h, h1, h2 (by decide)⟩

theorem answerOnly_record : RecordAt answerOnly 0 [] 1 384 0 256 0 [] :=
  ⟨ParseLabels_of_runN 1 (r := ([.read 0], some ([], 1, none))) (by decide) (by decide),
    by decide, by decide, by decide, by decide, by decide, by decide⟩

theorem answerOnly_answers : DecodeAnswer 1 0 answerOnly [] = some ([headerRecord], 11, none) := by
  have hr : DecodeAnswer.rdataOf answerOnly [] 1 384 0 [] = some (str "-", none) := by decide
  unfold DecodeAnswer
  rw [Int.toNat_one, DecodeAnswer.loop_one_record answerOnly_record, if_neg (by decide), hr]
  rfl

theorem answerOnly_record_at_12 :
    RecordAt answerOnly 12 [] 13 1 1 60 4 [0x5D, 0xB8, 0xD8, 0x22] :=
  ⟨ParseLabels_of_runN 1 (r := ([.read 12], some ([], 13, none))) (by decide) (by decide),
    by decide, by decide, by decide, by decide, by decide, by decide⟩

theorem answerOnly_answers_at_12 :
    DecodeAnswer 1 12 answerOnly [] =
      some ([{ Name := [], Rdatatype := str "A", Class := 1, Ttl := 60,
               Rdata := str "93.184.216.34" }], 27, none) := by
  have hr : DecodeAnswer.rdataOf answerOnly [] 13 1 4 [0x5D, 0xB8, 0xD8, 0x22] =
      some (str "93.184.216.34", none) := by decide
  unfold DecodeAnswer
  rw [Int.toNat_one, DecodeAnswer.loop_one_record answerOnly_record_at_12, if_neg (by decide),
    hr]
  rfl

/-- C24 (the code does not do what the claim says). `answerOnly` is a 12-byte
header with no question and one answer, then an A record. The offset
`DecodeQuestion(0, payload)` yields is 12, and decoding one record at offset 12
gives the A record 93.184.216.34 and the offset 27; but with `Qdcount = 0`
`DecodePayload` does not call `DecodeQuestion` and starts the answer section
at offset 0, the zero value of `payload_offset`: the answers list holds a
record read out of the header bytes. -/
theorem DecodePayload_no_question_starts_at_0
    (DecodeEDNS : Int → Int → List Byte → Option (Unit × Int × Option DnsErr)) :
    DecodeDns answerOnly = some (answerOnlyHeader, none) ∧
    DecodeQuestion answerOnlyHeader.Qdcount answerOnly = some ([], 0, 12, none) ∧
    DecodeAnswer 1 12 answerOnly [] =
      some ([{ Name := [], Rdatatype := str "A", Class := 1, Ttl := 60,
               Rdata := str "93.184.216.34" }], 27, none) ∧
    DecodeAnswer 1 0 answerOnly [] = some ([headerRecord], 11, none) ∧
    ∃ dm', DecodePayload DecodeEDNS (freshMessage answerOnly) answerOnlyHeader {} [] =
        some (dm', none) ∧
      dm'.DNS.MalformedPacket = false ∧ dm'.DNS.DnsRRs.Answers = [headerRecord] := by
  obtain ⟨dm', h, h1, h2⟩ := DecodePayload.answers_only DecodeEDNS (freshMessage answerOnly)
    answerOnlyHeader {} [] 0 11 [headerRecord] rfl (fun h => absurd h (by decide)) (fun _ => rfl)
    answerOnly_answers rfl rfl
  exact ⟨by decide, by decide, answerOnly_answers_at_12, answerOnly_answers, dm', h, h1,
    h2 (by decide)⟩

/-! ## SOA records (C27) -/

theorem slice_slice {p q : List Byte} {lo hi a b : Int} (h : slice p lo hi = some q)
    (ha : 0 ≤ a) (hab : a ≤ b) (hb : b ≤ hi - lo) :
    slice q a b = slice p (lo + a) (lo + b) := by
  obtain ⟨h0, h1, h2, hq⟩ := slice_length h
  have hq' := slice_eq_some h0 h1 h2
  rw [h] at hq'
  have hq2 := Option.some.inj hq'
  rw [slice_eq_some ha hab (by unfold len; omega),
    slice_eq_some (by omega : 0 ≤ lo + a) (by omega) (by omega)]
  congr 1
  rw [hq2, List.drop_take, List.take_take, List.drop_drop]
  have e1 : (lo + a).toNat = lo.toNat + a.toNat := by omega
  have e2 : (lo + b).toNat - (lo.toNat + a.toNat) = b.toNat - a.toNat := by omega
  rw [e1, e2, Nat.min_eq_left (by omega)]

theorem wordAt_of_slice {p : List Byte} {lo : Int} (h0 : 0 ≤ lo) (h4 : lo + 4 ≤ len p) :
    (slice p lo (lo + 4)).bind Uint32 = wordAt p lo := by
  obtain ⟨n, rfl⟩ : ∃ n : Nat, lo = n := ⟨lo.toNat, by omega⟩
  have hlen : n + 4 ≤ p.length := by unfold len at h4; omega
  have hp : p = p.take n ++ p.drop n := (List.take_append_drop n p).symm
  have hpre : (p.take n).length = n := by rw [List.length_take]; omega
  have hd : 4 ≤ (p.drop n).length := by rw [List.length_drop]; omega
  match hx : p.drop n, hd with
  | b0 :: b1 :: b2 :: b3 :: post, _ =>
    rw [hx] at hp
    have e1 : slice p n (n + 4) = some [b0, b1, b2, b3] := by
      have := slice_middle (p.take n) [b0, b1, b2, b3] post
      rw [hpre] at this
      rw [hp]
      exact this
    have i0 : index p n = some b0 := by
      have := index_middle (p.take n) b0 (b1 :: b2 :: b3 :: post)
      rw [hpre, ← hp] at this
      exact this
    have i1 : index p (n + 1) = some b1 := by
      have := index_middle (p.take n ++ [b0]) b1 (b2 :: b3 :: post)
      rw [List.length_append, hpre] at this
      rw [hp]
      simpa using this
    have i2 : index p (n + 2) = some b2 := by
      have := index_middle (p.take n ++ [b0, b1]) b2 (b3 :: post)
      rw [List.length_append, hpre] at this
      rw [hp]
      simpa using this
    have i3 : index p (n + 3) = some b3 := by
      have := index_middle (p.take n ++ [b0, b1, b2]) b3 post
      rw [List.length_append, hpre] at this
      rw [hp]
      simpa using this
    rw [e1, Option.some_bind, Uint32_quad]
    unfold wordAt
    rw [i0, i1, i2, i3]

theorem wordAt_lt {p : List Byte} {o : Int} {w : Nat} (h : wordAt p o = some w) :
    w < 4294967296 := by
  unfold wordAt at h
  split at h
  · rename_i b0 b1 b2 b3 _ _ _ _
    have := Option.some.inj h
    have h0 := b0.isLt
    have h1 := b1.isLt
    have h2 := b2.isLt
    have h3 := b3.isLt
    omega
  · cases h

theorem toInt32_eq_signed32 {w : Nat} (h : w < 4294967296) : toInt32 w = signed32 w := by
  unfold toInt32 signed32
  rw [Nat.mod_eq_of_lt h]

/-- The five words of the fixed part of a SOA record: what `ParseSOA` reads in
the 20 bytes after RNAME are the big-endian words of the payload there. -/
theorem ParseSOA.words {payload : List Byte} {o2 : Int} (h0 : 0 ≤ o2)
    (h20 : o2 + 20 ≤ len payload) :
    ∃ rdata serial refresh retry expire minimum,
      slice payload o2 (o2 + 20) = some rdata ∧
      (slice rdata 0 4).bind Uint32 = some serial ∧
      (slice rdata 4 8).bind Uint32 = some refresh ∧
      (slice rdata 8 12).bind Uint32 = some retry ∧
      (slice rdata 12 16).bind Uint32 = some expire ∧
      (slice rdata 16 20).bind Uint32 = some minimum ∧
      wordAt payload o2 = some serial ∧ wordAt payload (o2 + 4) = some refresh ∧
      wordAt payload (o2 + 8) = some retry ∧ wordAt payload (o2 + 12) = some expire ∧
      wordAt payload (o2 + 16) = some minimum := by
  have hrd := slice_eq_some h0 (by omega : o2 ≤ o2 + 20) h20
  have key : ∀ a : Int, 0 ≤ a → a + 4 ≤ 20 →
      ∃ w, (slice ((payload.drop o2.toNat).take ((o2 + 20).toNat - o2.toNat)) a (a + 4)).bind
        Uint32 = some w ∧ wordAt payload (o2 + a) = some w := by
    intro a ha ha4
    rw [slice_slice hrd ha (by omega) (by omega)]
    obtain ⟨w, hw⟩ := @slice_Uint32_isSome payload (o2 + a) (by omega) (by omega)
    have e : o2 + (a + 4) = o2 + a + 4 := by omega
    rw [e]
    refine ⟨w, hw, ?_⟩
    rw [← wordAt_of_slice (by omega) (by omega)]
    exact hw
  obtain ⟨w0, a0, b0⟩ := key 0 (by omega) (by omega)
  obtain ⟨w1, a1, b1⟩ := key 4 (by omega) (by omega)
  obtain ⟨w2, a2, b2⟩ := key 8 (by omega) (by omega)
  obtain ⟨w3, a3, b3⟩ := key 12 (by omega) (by omega)
  obtain ⟨w4, a4, b4⟩ := key 16 (by omega) (by omega)
  rw [Int.add_zero] at b0
  exact ⟨_, w0, w1, w2, w3, w4, hrd, a0, a1, a2, a3, a4, b0, b1, b2, b3, b4⟩

theorem ParseSOA_eval {rdata_offset : Int} {payload : List Byte} {mname rname : GoString}
    {o1 o2 : Int} {serial refresh retry expire minimum : Nat}
    (hp1 : ParseLabels rdata_offset payload = some (mname, o1, none))
    (hp2 : ParseLabels o1 payload = some (rname, o2, none))
    (h20 : o2 + 20 ≤ len payload)
    (hs : wordAt payload o2 = some serial) (hf : wordAt payload (o2 + 4) = some refresh)
    (hr : wordAt payload (o2 + 8) = some retry) (he : wordAt payload (o2 + 12) = some expire)
    (hm : wordAt payload (o2 + 16) = some minimum) :
    ParseSOA rdata_offset payload =
      some (SOAText mname rname serial refresh retry expire minimum, none) := by
  have hb := ParseLabels_end_bounds hp2
  obtain ⟨rdata, w0, w1, w2, w3, w4, hrd, a0, a1, a2, a3, a4, b0, b1, b2, b3, b4⟩ :=
    @ParseSOA.words payload o2 (by omega) h20
  rw [hs] at b0
  rw [hf] at b1
  rw [hr] at b2
  rw [he] at b3
  rw [hm] at b4
  cases b0
  cases b1
  cases b2
  cases b3
  cases b4
  unfold ParseSOA
  rw [hp1]
  simp only
  rw [hp2]
  simp only
  rw [if_neg (by omega), hrd]
  simp only [a0, a1, a2, a3, a4]
  rw [toInt32_eq_signed32 (wordAt_lt hf), toInt32_eq_signed32 (wordAt_lt hr),
    toInt32_eq_signed32 (wordAt_lt he)]
  simp [SOAText, Join, List.intercalate, List.intersperse]

/-- C27. Whenever `ParseSOA` succeeds, its result is "MNAME RNAME SERIAL
REFRESH RETRY EXPIRE MINIMUM" separated by single spaces: MNAME is the name
parsed at the RDATA offset, RNAME the name parsed at the resume offset of
MNAME, and the five numbers are the five big-endian 32-bit words of the
payload at the resume offset of RNAME, SERIAL and MINIMUM written as unsigned
decimals (below 4294967296) and REFRESH, RETRY, EXPIRE as the decimals of
their two's-complement values. When the two names parse, `ParseSOA` fails with
`ErrDecodeDnsAnswerRdataTooShort` if fewer than 20 bytes remain after RNAME
and succeeds otherwise. -/
theorem ParseSOA_text (rdata_offset : Int) (payload : List Byte) :
    (∀ text, ParseSOA rdata_offset payload = some (text, none) →
      ∃ mname o1 rname o2 serial refresh retry expire minimum,
        ParseLabels rdata_offset payload = some (mname, o1, none) ∧
        ParseLabels o1 payload = some (rname, o2, none) ∧
        o2 + 20 ≤ len payload ∧
        wordAt payload o2 = some serial ∧ wordAt payload (o2 + 4) = some refresh ∧
        wordAt payload (o2 + 8) = some retry ∧ wordAt payload (o2 + 12) = some expire ∧
        wordAt payload (o2 + 16) = some minimum ∧
        serial < 4294967296 ∧ minimum < 4294967296 ∧
        text = Join [mname, rname, decimal serial, decimalInt (signed32 refresh),
          decimalInt (signed32 retry), decimalInt (signed32 expire), decimal minimum]
          (str " ")) ∧
    (∀ mname o1 rname o2,
      ParseLabels rdata_offset payload = some (mname, o1, none) →
      ParseLabels o1 payload = some (rname, o2, none) →
      (len payload - o2 < 20 →
        ParseSOA rdata_offset payload = some ([], some ErrDecodeDnsAnswerRdataTooShort)) ∧
      (20 ≤ len payload - o2 → ∃ text, ParseSOA rdata_offset payload = some (text, none))) := by
  constructor
  · intro text h
    obtain ⟨⟨mname, o1, e1⟩, hp1⟩ := ParseLabels_isSome rdata_offset payload
    cases e1 with
    | some e =>
      unfold ParseSOA at h
      rw [hp1] at h
      exact absurd (Prod.mk.inj (Option.some.inj h)).2 (by simp)
    | none =>
      obtain ⟨⟨rname, o2, e2⟩, hp2⟩ := ParseLabels_isSome o1 payload
      cases e2 with
      | some e =>
        unfold ParseSOA at h
        rw [hp1] at h
        simp only at h
        rw [hp2] at h
        exact absurd (Prod.mk.inj (Option.some.inj h)).2 (by simp)
      | none =>
        have hb := ParseLabels_end_bounds hp2
        by_cases h20 : o2 + 20 ≤ len payload
        · obtain ⟨rdata, w0, w1, w2, w3, w4, hrd, a0, a1, a2, a3, a4, b0, b1, b2, b3, b4⟩ :=
            @ParseSOA.words payload o2 (by omega) h20
          have hev := ParseSOA_eval hp1 hp2 h20 b0 b1 b2 b3 b4
          rw [hev] at h
          have ht := (Prod.mk.inj (Option.some.inj h)).1
          exact ⟨mname, o1, rname, o2, w0, w1, w2, w3, w4, hp1, hp2, h20, b0, b1, b2, b3, b4,
            wordAt_lt b0, wordAt_lt b4, ht.symm⟩
        · unfold ParseSOA at h
          rw [hp1] at h
          simp only at h
          rw [hp2] at h
          simp only at h
          rw [if_pos (by omega)] at h
          exact absurd (Prod.mk.inj (Option.some.inj h)).2 (by simp)
  · intro mname o1 rname o2 hp1 hp2
    have hb := ParseLabels_end_bounds hp2
    constructor
    · intro hlt
      unfold ParseSOA
      rw [hp1]
      simp only
      rw [hp2]
      simp only
      rw [if_pos (by omega)]
    · intro hge
      obtain ⟨rdata, w0, w1, w2, w3, w4, hrd, a0, a1, a2, a3, a4, b0, b1, b2, b3, b4⟩ :=
        @ParseSOA.words payload o2 (by omega) (by omega)
      exact ⟨_, ParseSOA_eval hp1 hp2 (by omega) b0 b1 b2 b3 b4⟩

/-! ## Escaping of SVCB parameter values (C29) -/

set_option maxRecDepth 100000 in

theorem escapeByte_eq :
    ∀ b : Byte, ¬ (32 ≤ b.val ∧ b.val ≤ 126) →
      escapeByte b =
        some [0x5C, digit (b.val / 100), digit (b.val / 10 % 10), digit (b.val % 10)] := by
  decide

theorem svcbParamToStr_eq (s : List Byte) : svcbParamToStr s = some (renderBytes s) := by
  induction s with
  | nil => rfl
  | cons e t ih =>
    unfold svcbParamToStr renderBytes renderByte
    rw [ih]
    by_cases h : 32 ≤ e.val ∧ e.val ≤ 126
    · rw [if_pos h, if_pos h]
      by_cases hq : e.val = 34 ∨ e.val = 59 ∨ e.val = 32 ∨ e.val = 92
      · rw [if_pos hq, if_pos hq]
      · rw [if_neg hq, if_neg hq]
    · rw [if_neg h, if_neg h, escapeByte_eq e h]

/-- C29. For every byte string `s`, `svcbParamToStr(s)` returns the
concatenation, in order, of the rendering of each byte `b` of `s`: `b` itself
if `0x20 <= b <= 0x7E` and `b` is none of double quote, semicolon, space,
backslash; a backslash followed by `b` if it is one of the four; and otherwise
(for `b` in 0..31 and 127..255) a backslash followed by exactly three decimal
digits, the hundreds, tens and units of `b`. -/
theorem svcbParamToStr_render (s : List Byte) :
    svcbParamToStr s = some (renderBytes s) ∧
    renderBytes s = (s.map renderByte).foldr (fun piece rest => piece ++ rest) [] ∧
    (∀ b : Byte, 0x20 ≤ b.val → b.val ≤ 0x7E →
      b.val ≠ 0x22 → b.val ≠ 0x3B → b.val ≠ 0x20 → b.val ≠ 0x5C → renderByte b = [b]) ∧
    (∀ b : Byte, b.val = 0x22 ∨ b.val = 0x3B ∨ b.val = 0x20 ∨ b.val = 0x5C →
      renderByte b = [0x5C, b]) ∧
    (∀ b : Byte, b.val < 0x20 ∨ 0x7E < b.val →
      renderByte b = [0x5C, digit (b.val / 100), digit (b.val / 10 % 10), digit (b.val % 10)] ∧
      (digit (b.val / 100)).val = 48 + b.val / 100 ∧
      (digit (b.val / 10 % 10)).val = 48 + b.val / 10 % 10 ∧
      (digit (b.val % 10)).val = 48 + b.val % 10) := by
  refine ⟨svcbParamToStr_eq s, ?_, ?_, ?_, ?_⟩
  · induction s with
    | nil => rfl
    | cons e t ih =>
      unfold renderBytes
      rw [ih]
      rfl
  · intro b h1 h2 h3 h4 h5 h6
    unfold renderByte
    rw [if_pos ⟨h1, h2⟩, if_neg (by omega)]
  · intro b h
    unfold renderByte
    rw [if_pos (by omega), if_pos h]
  · intro b h
    have hb := b.isLt
    refine ⟨?_, ?_, ?_, ?_⟩
    · unfold renderByte
      rw [if_neg (by omega)]
    · simp only [digit, Fin.ofNat, Nat.succ_eq_add_one]
      omega
    · simp only [digit, Fin.ofNat, Nat.succ_eq_add_one]
      omega
    · simp only [digit, Fin.ofNat, Nat.succ_eq_add_one]
      omega

/-! ## The `alpn` parameter (C28, C30) -/

theorem ParseSVCParam.alpn_unfold {paramData : List Byte} {offset : Int} {b : Byte}
    (alpns : List GoString) (hb : index paramData offset = some b) :
    ParseSVCParam.alpn paramData offset alpns =
      if len paramData < offset + 1 + (b.val : Int) then
        some ([], some ErrDecodeDnsAnswerRdataTooShort)
      else
        match (slice paramData (offset + 1) (offset + 1 + (b.val : Int))).bind svcbParamToStr with
        | none => none
        | some a =>
          if offset + 1 + (b.val : Int) = len paramData then
            some (Join (alpns ++ [a]) (str ","), none)
          else ParseSVCParam.alpn paramData (offset + 1 + (b.val : Int)) (alpns ++ [a]) := by
  rw [ParseSVCParam.alpn]
  split
  · rename_i h
    rw [hb] at h
    cases h
  · rename_i b' h
    rw [hb] at h
    cases h
    rfl

/-- A length prefix with fewer bytes after it than it announces. -/
theorem ParseSVCParam.alpn_overrun (pre rest : List Byte) (l : Byte) (alpns : List GoString)
    (h : rest.length < l.val) :
    ParseSVCParam.alpn (pre ++ l :: rest) pre.length alpns =
      some ([], some ErrDecodeDnsAnswerRdataTooShort) := by
  rw [ParseSVCParam.alpn_unfold alpns (index_middle pre l rest), if_pos]
  simp only [len, List.length_append, List.length_cons]
  push_cast
  omega

/-- A protocol id that is all there: it is rendered and the loop stops at the
end of the value or goes on after the id. -/
theorem ParseSVCParam.alpn_step (pre id rest : List Byte) (l : Byte) (alpns : List GoString)
    (hl : l.val = id.length) :
    ParseSVCParam.alpn (pre ++ l :: (id ++ rest)) pre.length alpns =
      if rest = [] then some (Join (alpns ++ [renderBytes id]) (str ","), none)
      else ParseSVCParam.alpn (pre ++ l :: (id ++ rest)) ((pre ++ l :: id).length : Nat)
        (alpns ++ [renderBytes id]) := by
  have hs : slice (pre ++ l :: (id ++ rest)) ((pre.length : Int) + 1)
      ((pre.length : Int) + 1 + (l.val : Int)) = some id := by
    have := slice_middle (pre ++ [l]) id rest
    simp only [List.length_append, List.length_singleton, List.append_assoc,
      List.singleton_append] at this
    rw [hl]
    push_cast at this
    exact this
  rw [ParseSVCParam.alpn_unfold alpns (index_middle pre l (id ++ rest)), if_neg, hs,
    Option.some_bind, svcbParamToStr_eq]
  · simp only
    by_cases hr : rest = []
    · rw [if_pos hr, if_pos]
      subst hr
      simp only [len, List.length_append, List.length_cons, List.append_nil]
      push_cast
      omega
    · rw [if_neg hr, if_neg]
      · congr 1
        simp only [List.length_append, List.length_cons]
        push_cast
        omega
      · have : 0 < rest.length := List.length_pos.mpr hr
        simp only [len, List.length_append, List.length_cons]
        push_cast
        omega
  · simp only [len, List.length_append, List.length_cons]
    push_cast
    omega

theorem lengthByte_val_byte {n : Nat} (h : n ≤ 255) : (Fin.ofNat n : Byte).val = n := by
  simp only [Fin.ofNat, Nat.succ_eq_add_one]
  omega

theorem renderBytes_plain (id : List Byte) (h : ∀ b ∈ id, PlainByte b) :
    renderBytes id = id := by
  induction id with
  | nil => rfl
  | cons b t ih =>
    obtain ⟨h1, h2, h3, h4, h5, h6⟩ := h b (List.mem_cons_self b t)
    unfold renderBytes renderByte
    rw [if_pos ⟨h1, h2⟩, if_neg (by omega), ih (fun x hx => h x (List.mem_cons_of_mem b hx))]
    rfl

theorem encodeLabels_eq_nil {ids : List GoString} (h : encodeLabels ids = []) : ids = [] := by
  cases ids with
  | nil => rfl
  | cons a t => simp [encodeLabels] at h

/-- The `alpn` loop on a value made of length-prefixed protocol ids: it
returns the renderings of the ids, joined with commas. -/
theorem ParseSVCParam.alpn_ids (ids : List GoString) (hne : ids ≠ [])
    (hlen : ∀ id ∈ ids, id.length ≤ 255) :
    ∀ (pre : List Byte) (alpns : List GoString),
      ParseSVCParam.alpn (pre ++ encodeLabels ids) pre.length alpns =
        some (Join (alpns ++ ids.map renderBytes) (str ","), none) := by
  induction ids with
  | nil => exact absurd rfl hne
  | cons id t ih =>
    intro pre alpns
    have hid := lengthByte_val_byte (hlen id (List.mem_cons_self id t))
    show ParseSVCParam.alpn (pre ++ Fin.ofNat id.length :: (id ++ encodeLabels t)) pre.length
      alpns = _
    rw [ParseSVCParam.alpn_step pre id (encodeLabels t) _ alpns hid]
    by_cases ht : t = []
    · subst ht
      have e0 : encodeLabels ([] : List GoString) = [] := rfl
      rw [if_pos e0]
      rfl
    · rw [if_neg (fun h => ht (encodeLabels_eq_nil h))]
      have e : pre ++ Fin.ofNat id.length :: (id ++ encodeLabels t) =
          (pre ++ Fin.ofNat id.length :: id) ++ encodeLabels t := by simp
      rw [e, ih ht (fun x hx => hlen x (List.mem_cons_of_mem id hx))]
      simp

theorem mem_Join {b : Byte} {sep : GoString} :
    ∀ {ls : List GoString}, b ∈ Join ls sep → b ∈ sep ∨ ∃ l ∈ ls, b ∈ l := by
  intro ls
  induction ls with
  | nil =>
    intro h
    simp [Join_nil] at h
  | cons a t ih =>
    intro h
    cases t with
    | nil =>
      have e : Join [a] sep = a := by simp [Join, List.intercalate, List.intersperse]
      rw [e] at h
      exact Or.inr ⟨a, List.mem_cons_self a [], h⟩
    | cons c t2 =>
      rw [Join_cons_cons] at h
      rcases List.mem_append.mp h with h1 | h1
      · rcases List.mem_append.mp h1 with h2 | h2
        · exact Or.inr ⟨a, List.mem_cons_self a _, h2⟩
        · exact Or.inl h2
      · rcases ih h1 with h2 | ⟨l, hl, h2⟩
        · exact Or.inl h2
        · exact Or.inr ⟨l, List.mem_cons_of_mem a hl, h2⟩

/-! ## The loop of `ParseSVCB` -/

theorem ParseSVCB.loop_done {rdata : List Byte} {offset : Int} (ret : GoString)
    (svcParam : List GoString) (h : len rdata ≤ offset) :
    ParseSVCB.loop rdata ret offset svcParam =
      some (ret ++ str " " ++ Join svcParam (str " "), none) := by
  rw [ParseSVCB.loop, dif_neg (by omega)]

/-- One parameter that is all there and whose value parses: the loop goes on
after it with the parameter appended as `key=value`, the value between double
quotes when it holds a backslash. -/
theorem ParseSVCB.loop_param (pre value rest : List Byte) (k0 k1 n0 n1 : Byte)
    (ret param : GoString) (svcParam : List GoString)
    (hn : n0.val * 256 + n1.val = value.length)
    (hp : ParseSVCParam (k0.val * 256 + k1.val) value = some (param, none)) :
    ParseSVCB.loop (pre ++ k0 :: k1 :: n0 :: n1 :: (value ++ rest)) ret pre.length svcParam =
      ParseSVCB.loop (pre ++ k0 :: k1 :: n0 :: n1 :: (value ++ rest)) ret
        ((pre ++ k0 :: k1 :: n0 :: n1 :: value).length : Nat)
        (svcParam ++ [SVCParamKeyToString (k0.val * 256 + k1.val) ++ str "=" ++
          (if (92 : Byte) ∈ param then str "\"" ++ param ++ str "\"" else param)]) := by
  have hk : (slice (pre ++ k0 :: k1 :: n0 :: n1 :: (value ++ rest)) pre.length
      ((pre.length : Int) + 2)).bind Uint16 = some (k0.val * 256 + k1.val) := by
    rw [slice_at pre [k0, k1] (n0 :: n1 :: (value ++ rest)) (by simp) rfl (by simp)]
    exact Uint16_pair k0 k1 []
  have hl : (slice (pre ++ k0 :: k1 :: n0 :: n1 :: (value ++ rest)) ((pre.length : Int) + 2)
      ((pre.length : Int) + 2 + 2)).bind Uint16 = some (n0.val * 256 + n1.val) := by
    rw [slice_at (pre ++ [k0, k1]) [n0, n1] (value ++ rest) (by simp) (by simp)
      (by simp only [List.length_append, List.length_cons, List.length_nil]; push_cast; omega)]
    exact Uint16_pair n0 n1 []
  have hv : slice (pre ++ k0 :: k1 :: n0 :: n1 :: (value ++ rest)) ((pre.length : Int) + 2 + 2)
      ((pre.length : Int) + 2 + 2 + ((n0.val * 256 + n1.val : Nat) : Int)) = some value := by
    rw [slice_at (pre ++ [k0, k1, n0, n1]) value rest (by simp)
      (by simp only [List.length_append, List.length_cons, List.length_nil]; push_cast; omega)
      (by
        rw [hn]
        simp only [List.length_append, List.length_cons, List.length_nil]
        push_cast
        omega)]
  rw [ParseSVCB.loop, dif_pos, if_neg, hk, hl]
  · simp only
    rw [if_neg, hv, Option.some_bind, hp]
    · simp only
      congr 1
      simp only [List.length_append, List.length_cons]
      push_cast
      omega
    · rw [hn]
      simp only [len, List.length_append, List.length_cons]
      push_cast
      omega
  · simp only [len, List.length_append, List.length_cons]
    push_cast
    omega
  · simp only [len, List.length_append, List.length_cons]
    push_cast
    omega

/-! ## SVCB with an `alpn` parameter (C28) -/

theorem ParseLabels_root (p0 p1 : Byte) (post : List Byte) :
    ParseLabels 2 (p0 :: p1 :: 0 :: post) = some ([], 3, none) := by
  have h := ParseLabels_uncompressed [p0, p1] post [] (by intro l hl; cases hl) (by decide)
  simpa [encodeLabels, encodedLength, Join_nil] using h

theorem ParseSVCParam_alpn_ids (ids : List GoString) (hne : ids ≠ [])
    (hlen : ∀ id ∈ ids, id.length ≤ 255) (hplain : ∀ id ∈ ids, ∀ b ∈ id, PlainByte b) :
    ParseSVCParam 1 (encodeLabels ids) = some (Join ids (str ","), none) := by
  have hv : encodeLabels ids ≠ [] := fun h => hne (encodeLabels_eq_nil h)
  have h := ParseSVCParam.alpn_ids ids hne hlen [] []
  have hm : ids.map renderBytes = ids := by
    have : ∀ id ∈ ids, renderBytes id = id := fun id hid => renderBytes_plain id (hplain id hid)
    calc ids.map renderBytes = ids.map id := List.map_congr_left this
      _ = ids := List.map_id ids
  rw [hm] at h
  simp only [List.nil_append, List.length_nil, Nat.cast_zero] at h
  show (if len (encodeLabels ids) = 0 then some ([], some ErrDecodeDnsAnswerRdataTooShort)
    else ParseSVCParam.alpn (encodeLabels ids) 0 []) = _
  rw [if_neg, h]
  have := List.length_pos.mpr hv
  unfold len
  omega

/-- C28. For the RDATA made of a 2-byte priority `P`, the root target `00`
and one `alpn` parameter (key 1) whose value is a non-empty sequence of
length-prefixed protocol ids that hold only printable bytes other than double
quote, semicolon, space and backslash, `ParseSVCB` returns "P . alpn="
followed by the ids joined with commas; for the RDATA made of the priority and
the root target only, it returns "P ." with nothing after it. -/
theorem ParseSVCB_alpn (p0 p1 : Byte) (ids : List GoString) (hne : ids ≠ [])
    (hlen : ∀ id ∈ ids, id.length ≤ 255) (hplain : ∀ id ∈ ids, ∀ b ∈ id, PlainByte b)
    (htot : (encodeLabels ids).length ≤ 65535) :
    ParseSVCB (svcbWithAlpn p0 p1 (encodeLabels ids)) =
      some (decimal (p0.val * 256 + p1.val) ++ str " . alpn=" ++ Join ids (str ","), none) ∧
    ParseSVCB [p0, p1, 0] = some (decimal (p0.val * 256 + p1.val) ++ str " .", none) := by
  constructor
  · have hpri : (slice (svcbWithAlpn p0 p1 (encodeLabels ids)) 0 2).bind Uint16 =
        some (p0.val * 256 + p1.val) := by
      rw [@slice_at (svcbWithAlpn p0 p1 (encodeLabels ids)) [] [p0, p1]
        (0 :: 0 :: 1 :: Fin.ofNat ((encodeLabels ids).length / 256) ::
          Fin.ofNat ((encodeLabels ids).length % 256) :: encodeLabels ids) 0 2 rfl rfl rfl]
      exact Uint16_pair p0 p1 []
    have hpl : ParseLabels 2 (svcbWithAlpn p0 p1 (encodeLabels ids)) = some ([], 3, none) :=
      ParseLabels_root p0 p1 _
    have hn : (Fin.ofNat ((encodeLabels ids).length / 256) : Byte).val * 256 +
        (Fin.ofNat ((encodeLabels ids).length % 256) : Byte).val = (encodeLabels ids).length := by
      rw [lengthByte_val_byte (by omega), lengthByte_val_byte (by omega)]
      omega
    have hparam := ParseSVCParam_alpn_ids ids hne hlen hplain
    have hno : (92 : Byte) ∉ Join ids (str ",") := by
      intro h
      rcases mem_Join h with h1 | ⟨l, hl, h1⟩
      · revert h1
        decide
      · have := (hplain l hl 92 h1).2.2.2.2.2
        exact this rfl
    have hloop := ParseSVCB.loop_param [p0, p1, 0] (encodeLabels ids) [] 0 1 _ _
      (decimal (p0.val * 256 + p1.val) ++ str " " ++ str ".") (Join ids (str ",")) [] hn hparam
    have hdone : ParseSVCB.loop ([p0, p1, 0] ++ 0 :: 1 ::
          Fin.ofNat ((encodeLabels ids).length / 256) ::
          Fin.ofNat ((encodeLabels ids).length % 256) :: (encodeLabels ids ++ []))
        (decimal (p0.val * 256 + p1.val) ++ str " " ++ str ".")
        (([p0, p1, 0] ++ 0 :: 1 :: Fin.ofNat ((encodeLabels ids).length / 256) ::
          Fin.ofNat ((encodeLabels ids).length % 256) :: encodeLabels ids).length : Nat)
        ([] ++ [SVCParamKeyToString ((0 : Byte).val * 256 + (1 : Byte).val) ++ str "=" ++
          Join ids (str ",")]) = _ :=
      ParseSVCB.loop_done _ _ (by
        simp only [len, List.length_append, List.length_cons, List.length_nil, List.append_nil]
        push_cast
        omega)
    rw [if_neg hno, hdone] at hloop
    simp only [List.append_nil, List.length_cons, List.length_nil, List.cons_append,
      List.nil_append] at hloop
    unfold ParseSVCB
    rw [if_neg (by simp [svcbWithAlpn, len]; omega), hpri]
    simp only
    rw [hpl]
    simp only [if_true]
    rw [if_neg (by simp [svcbWithAlpn, len]; omega)]
    unfold svcbWithAlpn
    rw [show ((3 : Int)) = ((0 + 1 + 1 + 1 : Nat) : Int) from rfl, hloop]
    simp [Join, List.intercalate, List.intersperse, str, SVCParamKeyToString]
  · have hpri : (slice [p0, p1, 0] 0 2).bind Uint16 = some (p0.val * 256 + p1.val) := by
      rw [@slice_at [p0, p1, 0] [] [p0, p1] [0] 0 2 rfl rfl rfl]
      exact Uint16_pair p0 p1 []
    unfold ParseSVCB
    rw [if_neg (by simp [len]), hpri]
    simp only
    rw [ParseLabels_root p0 p1 []]
    simp only [if_true]
    rw [if_pos (by simp [len])]
    simp [str]

set_option maxRecDepth 8192 in

theorem ParseSVCB_alpn_witness :
    ParseSVCB S6 = some (str "1 . alpn=h2,h3", none) := by
  have h := (ParseSVCB_alpn 0 1 [str "h2", str "h3"] (by decide) (by decide) (by decide)
    (by decide)).1
  have e : svcbWithAlpn 0 1 (encodeLabels [str "h2", str "h3"]) = S6 := by decide
  rw [e] at h
  rw [h]
  decide

/-! ## The length rules of the SVCB parameters (C30) -/

theorem lengthByte_eq {l : Byte} {id : List Byte} (hl : l.val = id.length) :
    (Fin.ofNat id.length : Byte) = l := by
  have := l.isLt
  apply Fin.ext
  rw [lengthByte_val_byte (by omega), hl]

theorem AlpnOverrun_ne_nil {v : List Byte} (h : AlpnOverrun v) : v ≠ [] := by
  obtain ⟨ids, l, rest, _, hv, _⟩ := h
  rw [hv]
  simp

theorem AlpnOverrun_cons (l : Byte) (id rest : List Byte) (hl : l.val = id.length) :
    AlpnOverrun (l :: (id ++ rest)) ↔ AlpnOverrun rest := by
  constructor
  · rintro ⟨ids, l', r', hlen, hv, hlt⟩
    cases ids with
    | nil =>
      simp only [encodeLabels, List.nil_append, List.cons.injEq] at hv
      obtain ⟨h1, h2⟩ := hv
      subst h1
      rw [← h2, List.length_append] at hlt
      omega
    | cons id0 ids' =>
      simp only [encodeLabels, List.cons_append, List.cons.injEq, List.append_assoc] at hv
      obtain ⟨h1, h2⟩ := hv
      have h0 := hlen id0 (List.mem_cons_self id0 ids')
      have hlen0 : id.length = id0.length := by
        rw [← hl, h1, lengthByte_val_byte h0]
      obtain ⟨h3, h4⟩ := List.append_inj h2 hlen0
      exact ⟨ids', l', r', fun x hx => hlen x (List.mem_cons_of_mem id0 hx), h4, hlt⟩
  · rintro ⟨ids, l', r', hlen, hv, hlt⟩
    have hid : id.length ≤ 255 := by
      have := l.isLt
      omega
    refine ⟨id :: ids, l', r', ?_, ?_, hlt⟩
    · intro x hx
      rcases List.mem_cons.mp hx with rfl | hx
      · exact hid
      · exact hlen x hx
    · simp only [encodeLabels, List.cons_append, List.append_assoc, lengthByte_eq hl, hv]

/-- The `alpn` loop on a non-empty value: it fails with
`ErrDecodeDnsAnswerRdataTooShort` when a length prefix overruns the value and
succeeds otherwise. -/
theorem ParseSVCParam.alpn_total :
    ∀ (n : Nat) (v : List Byte), v.length ≤ n → v ≠ [] →
      ∀ (pre : List Byte) (alpns : List GoString),
        (AlpnOverrun v → ParseSVCParam.alpn (pre ++ v) pre.length alpns =
          some ([], some ErrDecodeDnsAnswerRdataTooShort)) ∧
        (¬ AlpnOverrun v → ∃ text,
          ParseSVCParam.alpn (pre ++ v) pre.length alpns = some (text, none)) := by
  intro n
  induction n with
  | zero =>
    intro v hv hne
    exact absurd (List.length_eq_zero.mp (by omega)) hne
  | succ n ih =>
    intro v hv hne pre alpns
    cases v with
    | nil => exact absurd rfl hne
    | cons l w =>
      by_cases hlt : w.length < l.val
      · exact ⟨fun _ => ParseSVCParam.alpn_overrun pre w l alpns hlt,
          fun h => absurd ⟨[], l, w, by simp, rfl, hlt⟩ h⟩
      · have hw : w = w.take l.val ++ w.drop l.val := (List.take_append_drop l.val w).symm
        have hl : l.val = (w.take l.val).length := by
          rw [List.length_take]
          omega
        have hiff := AlpnOverrun_cons l (w.take l.val) (w.drop l.val) hl
        rw [← hw] at hiff
        have hstep := ParseSVCParam.alpn_step pre (w.take l.val) (w.drop l.val) l alpns hl
        rw [← hw] at hstep
        by_cases hr : w.drop l.val = []
        · rw [if_pos hr] at hstep
          constructor
          · intro ho
            exact absurd hr (AlpnOverrun_ne_nil (hiff.mp ho))
          · intro _
            exact ⟨_, hstep⟩
        · rw [if_neg hr] at hstep
          have hlen : (w.drop l.val).length ≤ n := by
            rw [List.length_drop]
            simp only [List.length_cons] at hv
            omega
          have ih' := ih (w.drop l.val) hlen hr (pre ++ l :: w.take l.val)
            (alpns ++ [renderBytes (w.take l.val)])
          have e : (pre ++ l :: w.take l.val) ++ w.drop l.val = pre ++ l :: w := by
            rw [List.append_assoc, List.cons_append, ← hw]
          rw [e] at ih'
          rw [hstep]
          exact ⟨fun ho => ih'.1 (hiff.mp ho), fun hno => ih'.2 (fun h => hno (hiff.mpr h))⟩

theorem ParseSVCParam.mandatory_total (paramData : List Byte) :
    ∀ (n : Nat) (i : Int) (mandatory : List GoString), 0 ≤ i →
      i + 2 * (n : Int) ≤ len paramData →
      ∃ text, ParseSVCParam.mandatory paramData n i mandatory = some (text, none) := by
  intro n
  induction n with
  | zero =>
    intro i mandatory _ _
    exact ⟨_, rfl⟩
  | succ n ih =>
    intro i mandatory h0 hlen
    obtain ⟨v, hv⟩ := @slice_Uint16_isSome paramData i h0 (by push_cast at hlen; omega)
    unfold ParseSVCParam.mandatory
    rw [hv]
    exact ih (i + 2) _ (by omega) (by push_cast at hlen; omega)

theorem ParseSVCParam.hints_total (parse : List Byte → Option RdataResult) (stride : Int)
    (hs : 0 ≤ stride)
    (hparse : ∀ chunk : List Byte, (chunk.length : Int) = stride →
      ∃ a, parse chunk = some (a, none))
    (paramData : List Byte) :
    ∀ (n : Nat) (offset : Int) (addresses : List GoString), 0 ≤ offset →
      offset + stride * (n : Int) ≤ len paramData →
      ∃ text, ParseSVCParam.hints parse stride paramData n offset addresses =
        some (text, none) := by
  intro n
  induction n with
  | zero =>
    intro offset addresses _ _
    exact ⟨_, rfl⟩
  | succ n ih =>
    intro offset addresses h0 hlen
    have hn : 0 ≤ stride * (n : Int) := Int.mul_nonneg hs (by omega)
    have hlen' : offset + stride + stride * (n : Int) ≤ len paramData := by
      have : stride * ((n + 1 : Nat) : Int) = stride + stride * (n : Int) := by
        push_cast
        ring
      omega
    have hsl := @slice_eq_some paramData offset (offset + stride) h0 (by omega) (by omega)
    have hcl := (slice_length hsl).2.2.2
    obtain ⟨a, ha⟩ := hparse _ (by rw [hcl]; omega)
    unfold ParseSVCParam.hints
    rw [hsl, Option.some_bind, ha]
    exact ih (offset + stride) _ (by omega) hlen'

theorem ParseA_total (chunk : List Byte) (h : (chunk.length : Int) = 4) :
    ∃ a, ParseA chunk = some (a, none) := by
  unfold ParseA
  rw [if_neg (by unfold len; omega), sliceTo_eq_some (by omega) (by unfold len; omega)]
  exact ⟨_, rfl⟩

theorem ParseAAAA_total (chunk : List Byte) (h : (chunk.length : Int) = 16) :
    ∃ a, ParseAAAA chunk = some (a, none) := by
  unfold ParseAAAA
  rw [if_neg (by unfold len; omega), sliceTo_eq_some (by omega) (by unfold len; omega)]
  exact ⟨_, rfl⟩

/-- What `ParseSVCParam` returns, by key: the error
`ErrDecodeDnsAnswerRdataTooShort` when the value violates the length rule of
the key, a text and no error otherwise. -/
theorem ParseSVCParam_outcome (svcParamKey : Nat) (paramData : List Byte) :
    (LengthRuleViolated svcParamKey paramData →
      ParseSVCParam svcParamKey paramData =
        some ([], some ErrDecodeDnsAnswerRdataTooShort)) ∧
    (¬ LengthRuleViolated svcParamKey paramData →
      ∃ text, ParseSVCParam svcParamKey paramData = some (text, none)) := by
  have hlen : len paramData = (paramData.length : Int) := rfl
  obtain _ | _ | _ | _ | _ | _ | _ | k := svcParamKey
  · -- mandatory
    simp only [LengthRuleViolated, ParseSVCParam]
    constructor
    · intro h
      rw [if_pos (by omega)]
    · intro h
      rw [if_neg (by omega)]
      exact ParseSVCParam.mandatory_total paramData _ 0 [] (by omega) (by omega)
  · -- alpn
    simp only [LengthRuleViolated, ParseSVCParam]
    by_cases he : paramData = []
    · subst he
      exact ⟨fun _ => rfl, fun h => absurd (Or.inl rfl) h⟩
    · have hpos := List.length_pos.mpr he
      have ht := ParseSVCParam.alpn_total paramData.length paramData (le_refl _) he [] []
      simp only [List.nil_append, List.length_nil, Nat.cast_zero] at ht
      rw [if_neg (by omega)]
      constructor
      · rintro (h | h)
        · exact absurd h he
        · exact ht.1 h
      · intro h
        exact ht.2 (fun ho => h (Or.inr ho))
  · -- no-default-alpn
    simp only [LengthRuleViolated, ParseSVCParam]
    constructor
    · intro h
      rw [if_pos (by omega)]
    · intro h
      rw [if_neg (by omega)]
      exact ⟨_, rfl⟩
  · -- port
    simp only [LengthRuleViolated, ParseSVCParam]
    constructor
    · intro h
      rw [if_pos (by omega)]
    · intro h
      rw [if_neg (by omega)]
      obtain ⟨v, hv⟩ := @Uint16_isSome paramData (by omega)
      rw [hv]
      exact ⟨_, rfl⟩
  · -- ipv4hint
    simp only [LengthRuleViolated, ParseSVCParam]
    constructor
    · intro h
      rw [if_pos (by omega)]
    · intro h
      rw [if_neg (by omega)]
      exact ParseSVCParam.hints_total ParseA 4 (by omega) ParseA_total paramData _ 0 []
        (by omega) (by omega)
  · -- ech
    simp only [LengthRuleViolated, ParseSVCParam, svcbParamToStr_eq]
    exact ⟨fun h => h.elim, fun _ => ⟨_, rfl⟩⟩
  · -- ipv6hint
    simp only [LengthRuleViolated, ParseSVCParam]
    constructor
    · intro h
      rw [if_pos (by omega)]
    · intro h
      rw [if_neg (by omega)]
      exact ParseSVCParam.hints_total ParseAAAA 16 (by omega) ParseAAAA_total paramData _ 0 []
        (by omega) (by omega)
  · -- unknown keys
    simp only [LengthRuleViolated, ParseSVCParam, svcbParamToStr_eq]
    exact ⟨fun h => h.elim, fun _ => ⟨_, rfl⟩⟩

/-- C30. `ParseSVCParam` returns an error exactly when the value violates the
length rule of its key, and the error is then
`ErrDecodeDnsAnswerRdataTooShort`: key 0 with an odd length, key 1 with an
empty value or a length prefix that overruns the value, key 2 with a non-zero
length, key 3 with a length other than 2, key 4 with a length that is not a
multiple of 4, key 6 with a length that is not a multiple of 16. Otherwise,
and so for key 5 and every unknown key on every value, it returns a text and
no error. -/
theorem ParseSVCParam_error_iff (svcParamKey : Nat) (paramData : List Byte) :
    ((∃ text e, ParseSVCParam svcParamKey paramData = some (text, some e)) ↔
      LengthRuleViolated svcParamKey paramData) ∧
    (∀ text e, ParseSVCParam svcParamKey paramData = some (text, some e) →
      e = ErrDecodeDnsAnswerRdataTooShort) ∧
    (¬ LengthRuleViolated svcParamKey paramData →
      ∃ text, ParseSVCParam svcParamKey paramData = some (text, none)) ∧
    (svcParamKey = 5 ∨ 7 ≤ svcParamKey →
      ∃ text, ParseSVCParam svcParamKey paramData = some (text, none)) := by
  obtain ⟨h1, h2⟩ := ParseSVCParam_outcome svcParamKey paramData
  have key : ∀ text e, ParseSVCParam svcParamKey paramData = some (text, some e) →
      LengthRuleViolated svcParamKey paramData ∧ e = ErrDecodeDnsAnswerRdataTooShort := by
    intro text e h
    by_cases hv : LengthRuleViolated svcParamKey paramData
    · rw [h1 hv] at h
      have := (Prod.mk.inj (Option.some.inj h)).2
      exact ⟨hv, (Option.some.inj this).symm⟩
    · obtain ⟨t, ht⟩ := h2 hv
      rw [ht] at h
      exact absurd (Prod.mk.inj (Option.some.inj h)).2 (by simp)
  refine ⟨⟨?_, fun hv => ⟨_, _, h1 hv⟩⟩, fun text e h => (key text e h).2, h2, ?_⟩
  · rintro ⟨text, e, h⟩
    exact (key text e h).1
  · intro hk
    apply h2
    rcases hk with rfl | hk
    · exact fun h => h
    · obtain ⟨k, rfl⟩ : ∃ k, svcParamKey = k + 7 := ⟨svcParamKey - 7, by omega⟩
      exact fun h => h

theorem soaPayload_text :
    ParseSOA 0 soaPayload = some (str "ns a 4294967295 -1 1 -2147483648 3600", none) := by
  have hp1 : ParseLabels 0 soaPayload = some (str "ns", 4, none) :=
    ParseLabels_of_runN 3
      (r := ([.read 0, .read 1, .read 2, .read 3], some (str "ns", 4, none)))
      (by decide) (by decide)
  have hp2 : ParseLabels 4 soaPayload = some (str "a", 7, none) :=
    ParseLabels_of_runN 3
      (r := ([.read 4, .read 5, .read 6], some (str "a", 7, none)))
      (by decide) (by decide)
  have h := @ParseSOA_eval 0 soaPayload (str "ns") (str "a") 4 7 4294967295 4294967295 1
    2147483648 3600 hp1 hp2 (by decide) (by decide) (by decide) (by decide) (by decide)
    (by decide)
  rw [h]
  decide

theorem ParseSOA_text_witness :
    ParseSOA 0 soaPayload = some (str "ns a 4294967295 -1 1 -2147483648 3600", none) ∧
    signed32 4294967295 = -1 ∧
    ∃ mname o1 rname o2 serial refresh retry expire minimum,
      ParseLabels 0 soaPayload = some (mname, o1, none) ∧
      ParseLabels o1 soaPayload = some (rname, o2, none) ∧
      o2 + 20 ≤ len soaPayload ∧
      wordAt soaPayload o2 = some serial ∧ wordAt soaPayload (o2 + 4) = some refresh ∧
      wordAt soaPayload (o2 + 8) = some retry ∧ wordAt soaPayload (o2 + 12) = some expire ∧
      wordAt soaPayload (o2 + 16) = some minimum ∧
      serial < 4294967296 ∧ minimum < 4294967296 ∧
      str "ns a 4294967295 -1 1 -2147483648 3600" =
        Join [mname, rname, decimal serial, decimalInt (signed32 refresh),
          decimalInt (signed32 retry), decimalInt (signed32 expire), decimal minimum]
          (str " ") :=
  ⟨soaPayload_text, by decide, (ParseSOA_text 0 soaPayload).1 _ soaPayload_text⟩

/-! ## A message cut in its authority section -/

theorem truncatedAuthority_question :
    DecodeQuestion 1 truncatedAuthority = some (str "www.example.com", 1, 33, none) := by
  have h := DecodeQuestion.one_uncompressed (truncatedAuthority.take 12)
    (truncatedAuthority.drop 33) [str "www", str "example", str "com"] 0 1 0 1 (by decide)
    (by
      intro l hl
      simp only [List.mem_cons, List.mem_singleton, List.not_mem_nil, or_false] at hl
      rcases hl with rfl | rfl | rfl <;> decide)
    (by decide)
  have e : truncatedAuthority.take 12 ++ encodeLabels [str "www", str "example", str "com"] ++
      0 :: 0 :: 1 :: 0 :: 1 :: truncatedAuthority.drop 33 = truncatedAuthority := by decide
  rw [e] at h
  rw [h]
  decide

theorem truncatedAuthority_record :
    RecordAt truncatedAuthority 33 (str "www.example.com") 35 1 1 60 4
      [0x5D, 0xB8, 0xD8, 0x22] :=
  ⟨ParseLabels_of_runN 5
      (r := ([.read 33, .read 33, .read 34, .jump 33 12,
          .read 12, .read 13, .read 14, .read 15,
          .read 16, .read 17, .read 18, .read 19, .read 20, .read 21, .read 22, .read 23,
          .read 24, .read 25, .read 26, .read 27, .read 28],
        some (str "www.example.com", 35, none)))
      (by decide) (by decide),
    by decide, by decide, by decide, by decide, by decide, by decide⟩

theorem truncatedAuthority_answers :
    DecodeAnswer 1 33 truncatedAuthority [] = some ([S2record], 49, none) := by
  have hr : DecodeAnswer.rdataOf truncatedAuthority [] 35 1 4 [0x5D, 0xB8, 0xD8, 0x22] =
      some (str "93.184.216.34", none) := by decide
  unfold DecodeAnswer
  rw [Int.toNat_one, DecodeAnswer.loop_one_record truncatedAuthority_record,
    if_neg (by decide), hr]
  rfl

theorem truncatedAuthority_nameservers :
    DecodeAnswer 1 49 truncatedAuthority [] =
      some ([], 49, some ErrDecodeDnsAnswerTooShort) := by
  have hpl : ParseLabels 49 truncatedAuthority = some (str "www.example.com", 51, none) :=
    ParseLabels_of_runN 5
      (r := ([.read 49, .read 49, .read 50, .jump 49 12,
          .read 12, .read 13, .read 14, .read 15,
          .read 16, .read 17, .read 18, .read 19, .read 20, .read 21, .read 22, .read 23,
          .read 24, .read 25, .read 26, .read 27, .read 28],
        some (str "www.example.com", 51, none)))
      (by decide) (by decide)
  unfold DecodeAnswer
  rw [Int.toNat_one, DecodeAnswer.loop_one_too_short hpl (by decide)]

theorem DecodePayload_section_error_witness :
    (∃ dm', DecodePayload (fun _ _ _ => none) truncatedMessage plainHeader {} [] =
        some (dm', some { part := "answer records", err := ErrDecodeDnsAnswerTooShort }) ∧
      dm'.DNS.MalformedPacket = true ∧
      DecodingError.Error [] [] { part := "answer records", err := ErrDecodeDnsAnswerTooShort } =
        str ("malformed answer records in DNS packet: " ++
          "malformed pkt, not enough data to decode answer")) ∧
    (∃ dm', DecodePayload (fun _ _ _ => none) (freshMessage truncatedAuthority)
          truncatedAuthorityHeader {} [] =
        some (dm', some { part := "authority records", err := ErrDecodeDnsAnswerTooShort }) ∧
      dm'.DNS.MalformedPacket = true ∧
      DecodingError.Error [] []
          { part := "authority records", err := ErrDecodeDnsAnswerTooShort } =
        str ("malformed authority records in DNS packet: " ++
          "malformed pkt, not enough data to decode answer")) := by
  obtain ⟨dm1, h1, h2, _⟩ :=
    (DecodePayload_section_error (fun _ _ _ => none) truncatedMessage plainHeader {} [] 33 [] []
      rfl (fun _ => ⟨_, _, truncatedResponse_question⟩) (fun h => absurd h (by decide))).1
      [S2record] 49 ErrDecodeDnsAnswerTooShort truncatedResponse_answers
      (Or.inl ⟨by decide, rfl⟩)
  obtain ⟨dm2, h3, h4, _⟩ :=
    (DecodePayload_section_error (fun _ _ _ => none) (freshMessage truncatedAuthority)
      truncatedAuthorityHeader {} [] 33 [] []
      rfl (fun _ => ⟨_, _, truncatedAuthority_question⟩) (fun h => absurd h (by decide))).2
      [S2record] 49 [] 49 ErrDecodeDnsAnswerTooShort truncatedAuthority_answers
      truncatedAuthority_nameservers (Or.inl ⟨by decide, rfl⟩)
  exact ⟨⟨dm1, h1, h2, by decide⟩, ⟨dm2, h3, h4, by decide⟩⟩

/-! ## Compression is transparent (C33) -/

theorem setEnd_of_ne {e v : Int} (h : e ≠ -1) : setEnd e v = e := by
  unfold setEnd
  rw [if_neg h]

/-- Once the end offset is set, the loop of `ParseLabels` returns it as it is,
and the name it returns does not depend on it. -/
theorem ParseLabels.run_end_indep (p : List Byte) :
    ∀ s : LabelState, 0 ≤ s.offset → s.endOffset ≠ -1 →
      ∀ (e2 : Int), e2 ≠ -1 → ∀ (n : GoString) (e : Int),
        (ParseLabels.run p s).2 = some (n, e, none) →
        e = s.endOffset ∧
        (ParseLabels.run p { s with endOffset := e2 }).2 = some (n, e2, none) := by
  apply ParseLabels.run_induction
  · intro s acc e _ _ h _ e2 _ n e' hr
    rw [h] at hr
    cases hr
  · intro s _ _ hmax hb h hne e2 he2 n e hr
    rw [h] at hr
    have h1 := (Prod.mk.inj (Option.some.inj hr)).1
    have h2 := (Prod.mk.inj (Prod.mk.inj (Option.some.inj hr)).2).1
    rw [setEnd_of_ne hne] at h2
    refine ⟨h2.symm, ?_⟩
    have hz := @ParseLabels.step_zero p { s with endOffset := e2 } hb hmax
    rw [ParseLabels.run_ret_snd hz]
    show some (Join s.labels (str "."), setEnd e2 (s.offset + 1), none) = _
    rw [setEnd_of_ne he2, h1]
  · intro s b v h0 hlen hmax hb htop hv hlt h ih hne e2 he2 n e hr
    rw [h] at hr
    have hj : (s.jump v).endOffset = s.endOffset := by
      show setEnd s.endOffset (s.offset + 2) = _
      exact setEnd_of_ne hne
    obtain ⟨ie, irun⟩ := ih (by rw [hj]; exact hne) e2 he2 n e hr
    refine ⟨by rw [ie, hj], ?_⟩
    have hp := @ParseLabels.step_pointer p { s with endOffset := e2 } b v hb htop hlen hmax hv hlt
    rw [ParseLabels.run_next_snd hp]
    have e1 : LabelState.jump { s with endOffset := e2 } v =
        { s.jump v with endOffset := e2 } := by
      simp only [LabelState.jump, setEnd_of_ne he2]
    rw [e1]
    exact irun
  · intro s b label h0 hb h1 h64 hlen hmax htot hl h ih hne e2 he2 n e hr
    rw [h] at hr
    obtain ⟨ie, irun⟩ := ih hne e2 he2 n e hr
    refine ⟨ie, ?_⟩
    have hp := @ParseLabels.step_label p { s with endOffset := e2 } b label hb h1 h64 hlen hmax hl
    rw [if_neg (by show ¬ (s.totalLength + (b.val : Int) + 1 > 254); omega)] at hp
    rw [ParseLabels.run_next_snd hp]
    exact irun

/-- Before the end offset is set, the loop of `ParseLabels` stays below the
end offset it returns: it runs the same way, to the same name, when the bound
`maxOffset` is any offset from that end offset on and the end offset is already
set. -/
theorem ParseLabels.run_below_end (p : List Byte) :
    ∀ s : LabelState, 0 ≤ s.offset → s.endOffset = -1 →
      ∀ (n : GoString) (e : Int), (ParseLabels.run p s).2 = some (n, e, none) →
        ∀ (m e2 : Int), e ≤ m → e2 ≠ -1 →
          (ParseLabels.run p { s with maxOffset := m, endOffset := e2 }).2 =
            some (n, e2, none) := by
  apply ParseLabels.run_induction
  · intro s acc e _ _ h _ n e' hr
    rw [h] at hr
    cases hr
  · intro s _ _ hmax hb h heq n e hr m e2 hm he2
    rw [h] at hr
    have h1 := (Prod.mk.inj (Option.some.inj hr)).1
    have h2 := (Prod.mk.inj (Prod.mk.inj (Option.some.inj hr)).2).1
    simp only [setEnd, heq, if_true] at h2
    have hz := @ParseLabels.step_zero p { s with maxOffset := m, endOffset := e2 } hb
      (by show s.offset < m; omega)
    rw [ParseLabels.run_ret_snd hz]
    show some (Join s.labels (str "."), setEnd e2 (s.offset + 1), none) = _
    rw [setEnd_of_ne he2, h1]
  · intro s b v h0 hlen hmax hb htop hv hlt h _ heq n e hr m e2 hm he2
    rw [h] at hr
    have hj : (s.jump v).endOffset = s.offset + 2 := by
      show setEnd s.endOffset (s.offset + 2) = _
      simp only [setEnd, heq, if_true]
    obtain ⟨ie, irun⟩ := ParseLabels.run_end_indep p (s.jump v) (Int.ofNat_nonneg _)
      (by rw [hj]; omega) e2 he2 n e hr
    rw [hj] at ie
    have hp := @ParseLabels.step_pointer p { s with maxOffset := m, endOffset := e2 } b v hb htop
      hlen (by show s.offset + 2 ≤ m; omega) hv hlt
    rw [ParseLabels.run_next_snd hp]
    have e1 : LabelState.jump { s with maxOffset := m, endOffset := e2 } v =
        { s.jump v with endOffset := e2 } := by
      simp only [LabelState.jump, setEnd_of_ne he2]
    rw [e1]
    exact irun
  · intro s b label h0 hb h1 h64 hlen hmax htot hl h ih heq n e hr m e2 hm he2
    rw [h] at hr
    have hbnd := ParseLabels.run_end_bounds p (s.push b.val label)
      (by show 0 ≤ s.offset + (b.val : Int) + 1; omega) heq n e hr
    have hoff : (s.push b.val label).offset = s.offset + (b.val : Int) + 1 := rfl
    rw [hoff] at hbnd
    have hp := @ParseLabels.step_label p { s with maxOffset := m, endOffset := e2 } b label hb h1
      h64 hlen (by show s.offset + (b.val : Int) + 1 ≤ m; omega) hl
    rw [if_neg (by show ¬ (s.totalLength + (b.val : Int) + 1 > 254); omega)] at hp
    rw [ParseLabels.run_next_snd hp]
    exact ih heq n e hr m e2 hm he2

/-- C33. Compression is transparent: if `ParseLabels(t, payload)` succeeds
with the name `n` and the resume offset `e`, and at a position `p >= e` with
`p + 2 <= len(payload)` the payload holds a two-byte pointer (top bits 11)
whose 14-bit value is `t`, then `ParseLabels(p, payload)` succeeds with the
same name `n` and the resume offset `p + 2`. -/
theorem ParseLabels_pointer_transparent (t p : Int) (payload : List Byte) (n : GoString)
    (e : Int) (b0 b1 : Byte)
    (h : ParseLabels t payload = some (n, e, none)) (hp : e ≤ p) (hlen : p + 2 ≤ len payload)
    (hb0 : index payload p = some b0) (hb1 : index payload (p + 1) = some b1)
    (htop : 192 ≤ b0.val) (hval : (((b0.val * 256 + b1.val) % 16384 : Nat) : Int) = t) :
    ParseLabels p payload = some (n, p + 2, none) := by
  have hb := ParseLabels_end_bounds h
  unfold ParseLabels at h ⊢
  rw [if_neg (by omega)] at h ⊢
  have hv : (slice payload p (p + 2)).bind Uint16 = some (b0.val * 256 + b1.val) := by
    rw [slice_two hb0 hb1]
    exact Uint16_pair b0 b1 []
  have hand : (((b0.val * 256 + b1.val) &&& 16383 : Nat) : Int) = t := by
    rw [and_16383]
    exact hval
  have hstep := @ParseLabels.step_pointer payload (ParseLabels.init p payload) b0
    (b0.val * 256 + b1.val) hb0 htop hlen hlen hv
    (by rw [hand]; show t < p; omega)
  rw [ParseLabels.run_next_snd hstep]
  have e1 : (ParseLabels.init p payload).jump (b0.val * 256 + b1.val) =
      { ParseLabels.init t payload with maxOffset := p, endOffset := p + 2 } := by
    simp only [LabelState.jump, ParseLabels.init, hand, setEnd, if_true]
  rw [e1]
  exact ParseLabels.run_below_end payload (ParseLabels.init t payload) hb.1 rfl n e h p (p + 2)
    hp (by omega)

theorem ParseLabels_pointer_transparent_witness :
    ParseLabels 12 S2 = some (str "www.example.com", 29, none) ∧
    ParseLabels 33 S2 = some (str "www.example.com", 35, none) := by
  have h12 : ParseLabels 12 S2 = some (str "www.example.com", 29, none) :=
    ParseLabels_of_runN 4
      (r := ([.read 12, .read 13, .read 14, .read 15,
          .read 16, .read 17, .read 18, .read 19, .read 20, .read 21, .read 22, .read 23,
          .read 24, .read 25, .read 26, .read 27, .read 28],
        some (str "www.example.com", 29, none)))
      (by decide) (by decide)
  exact ⟨h12, ParseLabels_pointer_transparent 12 33 S2 _ 29 0xC0 0x0C h12 (by decide) (by decide)
    (by decide) (by decide) (by decide) (by decide)⟩

/-! ## Round trip for names stored uncompressed (C34) -/

/-- C34. For every list of labels of 1 to 63 bytes each whose lengths plus one
sum to at most 254, and every payload `pre ++ enc ++ post` where `enc` is the
labels, each after its length byte, followed by a zero byte,
`ParseLabels(len(pre), payload)` returns the labels joined with "." (the
empty string for the empty list) and the offset `len(pre) + len(enc)`. -/
theorem ParseLabels_round_trip (pre post : List Byte) (labels : List GoString)
    (hv : ValidLabels labels) (hlen : encodedLength labels ≤ 254) :
    ParseLabels (len pre) (pre ++ (encodeLabels labels ++ [0]) ++ post) =
      some (Join labels (str "."), len pre + len (encodeLabels labels ++ [0]), none) ∧
    (labels = [] → Join labels (str ".") = []) := by
  constructor
  · have h := ParseLabels_uncompressed pre post labels hv hlen
    have e1 : pre ++ (encodeLabels labels ++ [0]) ++ post =
        pre ++ encodeLabels labels ++ 0 :: post := by simp
    have e2 : len pre + len (encodeLabels labels ++ [0]) =
        (pre.length : Int) + encodedLength labels + 1 := by
      simp only [len, List.length_append, List.length_singleton]
      push_cast
      rw [encodeLabels_length]
      omega
    rw [e1, e2]
    exact h
  · rintro rfl
    rfl

set_option maxRecDepth 8192 in

theorem ParseLabels_round_trip_witness :
    ParseLabels 12 S1 = some (str "www.example.com", 29, none) := by
  have h := (ParseLabels_round_trip (S1.take 12) [0, 1, 0, 1]
    [str "www", str "example", str "com"]
    (by
      intro l hl
      simp only [List.mem_cons, List.mem_singleton, List.not_mem_nil, or_false] at hl
      rcases hl with rfl | rfl | rfl <;> decide)
    (by decide)).1
  have e : S1.take 12 ++ (encodeLabels [str "www", str "example", str "com"] ++ [0]) ++
      [0, 1, 0, 1] = S1 := by decide
  have e0 : len (S1.take 12) = 12 := by decide
  rw [e, e0] at h
  rw [h]
  decide

/-! ## Records and bytes consumed (C35) -/

theorem DecodeAnswer.loop_bounds (payload spare : List Byte) :
    ∀ (n : Nat) (off : Int) (answers l : List DnsAnswer) (o : Int) (err : Option DnsErr),
      off ≤ len payload →
      DecodeAnswer.loop payload spare n off answers = some (l, o, err) →
      answers.length ≤ l.length ∧ l.length ≤ answers.length + n ∧
      11 * ((l.length : Int) - answers.length) ≤ o - off ∧ o ≤ len payload := by
  intro n
  induction n with
  | zero =>
    intro off answers l o err hoff h
    rw [DecodeAnswer.loop_zero] at h
    have h1 := (Prod.mk.inj (Option.some.inj h)).1
    have h2 := (Prod.mk.inj (Prod.mk.inj (Option.some.inj h)).2).1
    subst h1
    subst h2
    exact ⟨le_refl _, by omega, by omega, hoff⟩
  | succ n ih =>
    intro off answers l o err hoff h
    rw [DecodeAnswer.loop_succ] at h
    rcases DecodeAnswer.loop_one_outcome payload spare off answers with h1 | ⟨e1, h1⟩ |
      ⟨l1, o1, h1, hlo, hhi, hl1⟩
    · rw [h1] at h
      cases h
    · rw [h1] at h
      have h2 := (Prod.mk.inj (Option.some.inj h)).1
      have h3 := (Prod.mk.inj (Prod.mk.inj (Option.some.inj h)).2).1
      subst h2
      subst h3
      exact ⟨le_refl _, by omega, by omega, hoff⟩
    · rw [h1] at h
      obtain ⟨i1, i2, i3, i4⟩ := ih o1 l1 l o err hhi h
      have hlen : l1.length = answers.length ∨ l1.length = answers.length + 1 := by
        rcases hl1 with rfl | ⟨a, rfl, _⟩
        · exact Or.inl rfl
        · exact Or.inr (by simp)
      refine ⟨by omega, by omega, ?_, i4⟩
      omega

/-- C35. The number of records `DecodeAnswer` returns is bounded by the bytes
it consumed: for every count, every start offset `s <= len(payload)` (so for
`0 <= s <= len(payload)`) and every payload, the list `L` and the offset `o` it
returns, with or without an error, satisfy `11 * len(L) <= o - s` and
`o <= len(payload)`; and `len(L) <= ancount` for a count that is not negative
(the list is empty for a negative one). -/
theorem DecodeAnswer_bounds (ancount s : Int) (payload spare : List Byte)
    (L : List DnsAnswer) (o : Int) (err : Option DnsErr)
    (hs : s ≤ len payload)
    (h : DecodeAnswer ancount s payload spare = some (L, o, err)) :
    11 * (L.length : Int) ≤ o - s ∧ o ≤ len payload ∧
    (0 ≤ ancount → (L.length : Int) ≤ ancount) ∧ (ancount < 0 → L = []) := by
  unfold DecodeAnswer at h
  obtain ⟨_, h2, h3, h4⟩ := DecodeAnswer.loop_bounds payload spare _ s [] L o err hs h
  simp only [List.length_nil, Nat.cast_zero, Int.sub_zero, Nat.zero_add] at h2 h3
  refine ⟨h3, h4, fun hn => by omega, fun hn => ?_⟩
  have : L.length = 0 := by omega
  exact List.length_eq_zero.mp this

theorem DecodeAnswer_bounds_witness :
    DecodeAnswer 2 33 truncatedResponse [] =
      some ([S2record], 49, some ErrDecodeDnsAnswerTooShort) ∧
    11 * (([S2record] : List DnsAnswer).length : Int) ≤ 49 - 33 ∧
    (49 : Int) ≤ len truncatedResponse ∧
    ((0 : Int) ≤ 2 → (([S2record] : List DnsAnswer).length : Int) ≤ 2) ∧
    ((2 : Int) < 0 → [S2record] = []) :=
  ⟨truncatedResponse_answers,
    DecodeAnswer_bounds 2 33 truncatedResponse [] [S2record] 49 _ (by decide)
      truncatedResponse_answers⟩

/-! ## After a downgrade in the answer section (C36) -/

/-- Where `DecodeAnswer` failed, decoding one record fails again with the same
error, the empty list and the same offset. -/
theorem DecodeAnswer.loop_fails_again (payload spare : List Byte) (n : Nat) (off : Int)
    (answers l : List DnsAnswer) (o : Int) (e : DnsErr)
    (h : DecodeAnswer.loop payload spare n off answers = some (l, o, some e)) :
    ∀ (k : Nat) (acc : List DnsAnswer),
      DecodeAnswer.loop payload spare (k + 1) o acc = some (acc, o, some e) := by
  obtain ⟨i, _, _, h3⟩ := DecodeAnswer.loop_failure payload spare n off answers l o e h
  have h1 : DecodeAnswer.loop payload spare 1 o [] = some ([], o, some e) := by
    rw [DecodeAnswer.loop_one_acc] at h3
    rcases DecodeAnswer.loop_one_outcome payload spare o [] with h1 | ⟨e1, h1⟩ |
      ⟨l1, o1, h1, _⟩
    · rw [h1] at h3
      cases h3
    · rw [h1] at h3 ⊢
      simp only [Option.map_some', List.append_nil, Option.some.injEq, Prod.mk.injEq,
        true_and] at h3
      rw [h3]
    · rw [h1] at h3
      simp only [Option.map_some', Option.some.injEq, Prod.mk.injEq] at h3
      obtain ⟨_, _, h4⟩ := h3
      cases h4
  intro k acc
  rw [DecodeAnswer.loop_succ, DecodeAnswer.loop_one_acc, h1]
  simp only [Option.map_some', List.append_nil]

theorem DecodeAnswer_fails_again {n s : Int} {payload spare : List Byte} {l : List DnsAnswer}
    {o : Int} {e : DnsErr} (h : DecodeAnswer n s payload spare = some (l, o, some e))
    (m : Int) (hm : 1 ≤ m) :
    DecodeAnswer m o payload spare = some ([], o, some e) := by
  unfold DecodeAnswer at h ⊢
  obtain ⟨k, hk⟩ : ∃ k, m.toNat = k + 1 := ⟨m.toNat - 1, by omega⟩
  rw [hk]
  exact DecodeAnswer.loop_fails_again payload spare _ _ _ _ _ _ h k []

/-- The answer section when `DecodeAnswer` fails with a truncation error and
the TC flag is set: the message is marked, the partial list is stored and the
authority section follows at the offset `DecodeAnswer` returned. -/
theorem DecodePayload.answers_downgrade_then {E : Type}
    (DecodeEDNS : Int → Int → List Byte → Option (E × Int × Option DnsErr))
    (dm : DnsMessage E) (header : DnsHeader) (spare : List Byte) (off : Int)
    (answers : List DnsAnswer) (o : Int) (e : DnsErr)
    (htc : dm.DNS.Flags.TC = true)
    (ha : DecodeAnswer header.Ancount off dm.DNS.Payload spare = some (answers, o, some e))
    (he : isTruncation e) :
    DecodePayload.answers DecodeEDNS dm header spare off =
      DecodePayload.authority DecodeEDNS
        { dm with DNS.MalformedPacket := true, DNS.DnsRRs.Answers := answers } header spare o := by
  have hpos := DecodeAnswer_count_pos ha
  unfold DecodePayload.answers
  rw [if_pos hpos, ha]
  simp only
  rw [if_pos ⟨htc, he⟩]

/-- The authority section when `DecodeAnswer` fails with a truncation error,
the TC flag is set and no additional record is announced. -/
theorem DecodePayload.authority_downgrade {E : Type}
    (DecodeEDNS : Int → Int → List Byte → Option (E × Int × Option DnsErr))
    (dm : DnsMessage E) (header : DnsHeader) (spare : List Byte) (off : Int)
    (ns : List DnsAnswer) (o : Int) (e : DnsErr)
    (htc : dm.DNS.Flags.TC = true) (har : header.Arcount = 0)
    (ha : DecodeAnswer header.Nscount off dm.DNS.Payload spare = some (ns, o, some e))
    (he : isTruncation e) :
    DecodePayload.authority DecodeEDNS dm header spare off =
      some ({ dm with DNS.MalformedPacket := true, DNS.DnsRRs.Nameservers := ns }, none) := by
  have hpos := DecodeAnswer_count_pos ha
  unfold DecodePayload.authority
  rw [if_pos hpos, ha]
  simp only
  rw [if_pos ⟨htc, he⟩]
  unfold DecodePayload.additional
  rw [if_neg (by omega)]

/-- After a TC downgrade, from the offset `off` at which `DecodePayload`
starts the answer section: the offset `DecodeQuestion` returns when
`Qdcount > 0`, and 0, not 12, when the header announces no question. For a
message not already marked malformed and a header with `Tc = 1`,
`Nscount >= 1` and `Arcount = 0`: if `DecodeAnswer` from `off` fails with one
of the three truncation errors, at the offset `o`, then `DecodeAnswer` on the authority section, from
`o`, fails with the same error, the empty list and the offset `o` (as it does
from `o` for every count of at least 1), and `DecodePayload` returns no error,
with `MalformedPacket` set, the partial list of answers stored and the
authority list empty. -/
theorem DecodePayload_downgrade_then_authority {E : Type}
    (DecodeEDNS : Int → Int → List Byte → Option (E × Int × Option DnsErr))
    (dm : DnsMessage E) (header : DnsHeader) (config : Config) (spare : List Byte)
    (off : Int) (answers : List DnsAnswer) (o : Int) (e : DnsErr)
    (hm : dm.DNS.MalformedPacket = false)
    (htc : header.Tc = 1) (hns : 1 ≤ header.Nscount) (har : header.Arcount = 0)
    (hq : header.Qdcount > 0 → ∃ qname qtype,
      DecodeQuestion header.Qdcount dm.DNS.Payload = some (qname, qtype, off, none))
    (hq0 : header.Qdcount ≤ 0 → off = 0)
    (ha : DecodeAnswer header.Ancount off dm.DNS.Payload spare = some (answers, o, some e))
    (he : isTruncation e) :
    DecodeAnswer header.Nscount o dm.DNS.Payload spare = some ([], o, some e) ∧
    (∀ m : Int, 1 ≤ m → DecodeAnswer m o dm.DNS.Payload spare = some ([], o, some e)) ∧
    ∃ dm', DecodePayload DecodeEDNS dm header config spare = some (dm', none) ∧
      dm'.DNS.MalformedPacket = true ∧ dm'.DNS.DnsRRs.Answers = answers ∧
      dm'.DNS.DnsRRs.Nameservers = [] := by
  have hagain := DecodeAnswer_fails_again ha
  refine ⟨hagain _ hns, hagain, ?_⟩
  obtain ⟨dm1, h1, hpay, hfl, _, _, _⟩ :=
    DecodePayload.question_pass DecodeEDNS dm header config spare off hm hq hq0
  have htc1 : dm1.DNS.Flags.TC = true := by
    rw [hfl, (DecodePayload.copyHeader_frame dm header).2.2.2.2, if_pos htc]
  rw [h1, DecodePayload.answers_downgrade_then DecodeEDNS dm1 header spare off answers o e htc1
    (by rw [hpay]; exact ha) he]
  have h2 := DecodePayload.authority_downgrade DecodeEDNS
    { dm1 with DNS.MalformedPacket := true, DNS.DnsRRs.Answers := answers } header spare o [] o e
    htc1 har
    (by
      show DecodeAnswer header.Nscount o dm1.DNS.Payload spare = _
      rw [hpay]
      exact hagain _ hns) he
  rw [h2]
  exact ⟨_, rfl, rfl, rfl, rfl⟩

/-! ## The offset and the last question of `DecodeQuestion` (C40) -/

/-- A successful iteration of the loop of `DecodeQuestion`: the name parsed at
the offset, the QTYPE read after it, and the offset moved past the four bytes
after the name, within the payload. -/
theorem DecodeQuestion.loop_first_success {payload : List Byte} {q q1 : GoString}
    {t off t1 o : Int}
    (h : DecodeQuestion.loop payload 1 q t off = some (q1, t1, o, none)) :
    ∃ (o1 : Int) (v : Nat), ParseLabels off payload = some (q1, o1, none) ∧
      (slice payload o1 (o1 + 2)).bind Uint16 = some v ∧ t1 = (v : Int) ∧ o = o1 + 4 ∧
      off + 5 ≤ o ∧ o ≤ len payload := by
  rcases DecodeQuestion.loop_first_cases payload q t off with ⟨e, _, h1⟩ | ⟨nm, o1, _, _, h1⟩ |
    ⟨nm, o1, v, hpl, hge, hv, h1⟩
  · rw [h1] at h
    exact absurd (Prod.mk.inj (Prod.mk.inj (Prod.mk.inj (Option.some.inj h)).2).2).2 (by simp)
  · rw [h1] at h
    exact absurd (Prod.mk.inj (Prod.mk.inj (Prod.mk.inj (Option.some.inj h)).2).2).2 (by simp)
  · rw [h1] at h
    have e1 := (Prod.mk.inj (Option.some.inj h)).1
    have e2 := (Prod.mk.inj (Prod.mk.inj (Option.some.inj h)).2).1
    have e3 := (Prod.mk.inj (Prod.mk.inj (Prod.mk.inj (Option.some.inj h)).2).2).1
    subst e1
    have hb := ParseLabels_end_bounds hpl
    exact ⟨o1, v, hpl, hv, e2.symm, e3.symm, by omega, by omega⟩

/-- The loop of `DecodeQuestion` with `n + 1` iterations, when it succeeds,
runs `n` iterations with success and then one more. -/
theorem DecodeQuestion.loop_last (payload : List Byte) :
    ∀ (n : Nat) (q : GoString) (t off : Int) (qn : GoString) (tn o : Int),
      DecodeQuestion.loop payload (n + 1) q t off = some (qn, tn, o, none) →
      ∃ q1 t1 offn, DecodeQuestion.loop payload n q t off = some (q1, t1, offn, none) ∧
        DecodeQuestion.loop payload 1 q1 t1 offn = some (qn, tn, o, none) := by
  intro n
  induction n with
  | zero =>
    intro q t off qn tn o h
    exact ⟨q, t, off, rfl, h⟩
  | succ n ih =>
    intro q t off qn tn o h
    rw [DecodeQuestion.loop_step] at h
    rcases h1 : DecodeQuestion.loop payload 1 q t off with _ | ⟨q', t', o', _ | e⟩
    · rw [h1] at h
      cases h
    · rw [h1] at h
      obtain ⟨q1, t1, offn, h2, h3⟩ := ih q' t' o' qn tn o h
      refine ⟨q1, t1, offn, ?_, h3⟩
      rw [DecodeQuestion.loop_step, h1]
      exact h2
    · rw [h1] at h
      exact absurd (Prod.mk.inj (Prod.mk.inj (Prod.mk.inj (Option.some.inj h)).2).2).2 (by simp)

theorem DecodeQuestion.loop_offset (payload : List Byte) :
    ∀ (n : Nat) (q : GoString) (t off : Int) (qn : GoString) (tn o : Int),
      DecodeQuestion.loop payload n q t off = some (qn, tn, o, none) →
      off + 5 * (n : Int) ≤ o ∧ (1 ≤ n → o ≤ len payload) := by
  intro n
  induction n with
  | zero =>
    intro q t off qn tn o h
    have e3 := (Prod.mk.inj (Prod.mk.inj (Prod.mk.inj (Option.some.inj h)).2).2).1
    exact ⟨by simp only [Nat.cast_zero]; omega, fun h1 => absurd h1 (by omega)⟩
  | succ n ih =>
    intro q t off qn tn o h
    obtain ⟨q1, t1, offn, h2, h3⟩ := DecodeQuestion.loop_last payload n q t off qn tn o h
    obtain ⟨o1, v, _, _, _, _, h4, h5⟩ := DecodeQuestion.loop_first_success h3
    have := (ih q t off q1 t1 offn h2).1
    exact ⟨by push_cast; omega, fun _ => h5⟩

/-- C40. For every `qdcount >= 1` and payload on which `DecodeQuestion`
succeeds, the offset `o` it returns satisfies
`12 + 5 * qdcount <= o <= len(payload)`, and the name and the qtype it returns
are those of the last question: the name `ParseLabels` yields at the offset
reached after the first `qdcount - 1` questions and the 16-bit value read at
its resume offset, and `o` is 4 bytes after that resume offset. -/
theorem DecodeQuestion_bounds (qdcount : Int) (payload : List Byte) (qname : GoString)
    (qtype o : Int) (hq : 1 ≤ qdcount)
    (h : DecodeQuestion qdcount payload = some (qname, qtype, o, none)) :
    12 + 5 * qdcount ≤ o ∧ o ≤ len payload ∧
    ∃ (q1 : GoString) (t1 off o1 : Int) (v : Nat),
      DecodeQuestion (qdcount - 1) payload = some (q1, t1, off, none) ∧
      ParseLabels off payload = some (qname, o1, none) ∧
      (slice payload o1 (o1 + 2)).bind Uint16 = some v ∧ qtype = (v : Int) ∧ o = o1 + 4 := by
  unfold DecodeQuestion at h ⊢
  obtain ⟨k, hk⟩ : ∃ k, qdcount.toNat = k + 1 := ⟨qdcount.toNat - 1, by omega⟩
  have hk2 : (qdcount - 1).toNat = k := by omega
  rw [hk] at h
  rw [hk2]
  have hoff := DecodeQuestion.loop_offset payload (k + 1) [] 0 DnsLen qname qtype o h
  obtain ⟨q1, t1, offn, h2, h3⟩ := DecodeQuestion.loop_last payload k [] 0 DnsLen qname qtype o h
  obtain ⟨o1, v, hpl, hv, ht, ho, _, _⟩ := DecodeQuestion.loop_first_success h3
  have hd : DnsLen = 12 := rfl
  refine ⟨?_, hoff.2 (by omega), q1, t1, offn, o1, v, h2, hpl, hv, ht, ho⟩
  have := hoff.1
  push_cast at this
  omega

theorem DecodeQuestion_bounds_witness :
    DecodeQuestion 1 S1 = some (str "www.example.com", 1, 33, none) ∧
    (12 + 5 * 1 : Int) ≤ 33 ∧ (33 : Int) ≤ len S1 ∧
    ∃ (q1 : GoString) (t1 off o1 : Int) (v : Nat),
      DecodeQuestion (1 - 1) S1 = some (q1, t1, off, none) ∧
      ParseLabels off S1 = some (str "www.example.com", o1, none) ∧
      (slice S1 o1 (o1 + 2)).bind Uint16 = some v ∧ (1 : Int) = (v : Int) ∧ (33 : Int) = o1 + 4 :=
  ⟨S1_question, DecodeQuestion_bounds 1 S1 (str "www.example.com") 1 33 (by decide) S1_question⟩

/-! ## A truncated message that announces an authority record -/

theorem truncatedBoth_question :
    DecodeQuestion 1 truncatedBoth = some (str "www.example.com", 1, 33, none) := by
  have h := DecodeQuestion.one_uncompressed (truncatedBoth.take 12)
    (truncatedBoth.drop 33) [str "www", str "example", str "com"] 0 1 0 1 (by decide)
    (by
      intro l hl
      simp only [List.mem_cons, List.mem_singleton, List.not_mem_nil, or_false] at hl
      rcases hl with rfl | rfl | rfl <;> decide)
    (by decide)
  have e : truncatedBoth.take 12 ++ encodeLabels [str "www", str "example", str "com"] ++
      0 :: 0 :: 1 :: 0 :: 1 :: truncatedBoth.drop 33 = truncatedBoth := by decide
  rw [e] at h
  rw [h]
  decide

theorem truncatedBoth_record :
    RecordAt truncatedBoth 33 (str "www.example.com") 35 1 1 60 4 [0x5D, 0xB8, 0xD8, 0x22] :=
  ⟨ParseLabels_of_runN 5
      (r := ([.read 33, .read 33, .read 34, .jump 33 12,
          .read 12, .read 13, .read 14, .read 15,
          .read 16, .read 17, .read 18, .read 19, .read 20, .read 21, .read 22, .read 23,
          .read 24, .read 25, .read 26, .read 27, .read 28],
        some (str "www.example.com", 35, none)))
      (by decide) (by decide),
    by decide, by decide, by decide, by decide, by decide, by decide⟩

theorem truncatedBoth_answers :
    DecodeAnswer 2 33 truncatedBoth [] =
      some ([S2record], 49, some ErrDecodeDnsAnswerTooShort) := by
  have hr : DecodeAnswer.rdataOf truncatedBoth [] 35 1 4 [0x5D, 0xB8, 0xD8, 0x22] =
      some (str "93.184.216.34", none) := by decide
  have h1 : DecodeAnswer.loop truncatedBoth [] 1 33 [] = some ([S2record], 49, none) := by
    rw [DecodeAnswer.loop_one_record truncatedBoth_record, if_neg (by decide), hr]
    rfl
  have hpl : ParseLabels 49 truncatedBoth = some (str "www.example.com", 51, none) :=
    ParseLabels_of_runN 5
      (r := ([.read 49, .read 49, .read 50, .jump 49 12,
          .read 12, .read 13, .read 14, .read 15,
          .read 16, .read 17, .read 18, .read 19, .read 20, .read 21, .read 22, .read 23,
          .read 24, .read 25, .read 26, .read 27, .read 28],
        some (str "www.example.com", 51, none)))
      (by decide) (by decide)
  unfold DecodeAnswer
  rw [show (2 : Int).toNat = 1 + (0 + 1) from rfl, DecodeAnswer.loop_add, h1]
  simp only
  rw [DecodeAnswer.loop_succ, DecodeAnswer.loop_one_too_short hpl (by decide)]

theorem DecodePayload_downgrade_then_authority_witness :
    DecodeDns truncatedBoth = some (truncatedBothHeader, none) ∧
    DecodeAnswer 2 33 truncatedBoth [] =
      some ([S2record], 49, some ErrDecodeDnsAnswerTooShort) ∧
    DecodeAnswer 1 49 truncatedBoth [] = some ([], 49, some ErrDecodeDnsAnswerTooShort) ∧
    (∀ m : Int, 1 ≤ m →
      DecodeAnswer m 49 truncatedBoth [] = some ([], 49, some ErrDecodeDnsAnswerTooShort)) ∧
    ∃ dm', DecodePayload (fun _ _ _ => none) (freshMessage truncatedBoth) truncatedBothHeader
          {} [] = some (dm', none) ∧
      dm'.DNS.MalformedPacket = true ∧ dm'.DNS.DnsRRs.Answers = [S2record] ∧
      dm'.DNS.DnsRRs.Nameservers = [] :=
  ⟨by decide, truncatedBoth_answers,
    DecodePayload_downgrade_then_authority (fun _ _ _ => none) (freshMessage truncatedBoth)
      truncatedBothHeader {} [] 33 [S2record] 49 ErrDecodeDnsAnswerTooShort rfl rfl
      (by decide) rfl (fun _ => ⟨_, _, truncatedBoth_question⟩)
      (fun h => absurd h (by decide)) truncatedBoth_answers (Or.inl rfl)⟩

/-! ## The header decoder loses nothing (C37) -/

theorem headerOf_injective (p0 p1 p2 p3 p4 p5 p6 p7 p8 p9 p10 p11 : Byte)
    (q0 q1 q2 q3 q4 q5 q6 q7 q8 q9 q10 q11 : Byte)
    (h : headerOf p0 p1 p2 p3 p4 p5 p6 p7 p8 p9 p10 p11 =
      headerOf q0 q1 q2 q3 q4 q5 q6 q7 q8 q9 q10 q11) :
    p0 = q0 ∧ p1 = q1 ∧ p2 = q2 ∧ p3 = q3 ∧ p4 = q4 ∧ p5 = q5 ∧ p6 = q6 ∧ p7 = q7 ∧
    p8 = q8 ∧ p9 = q9 ∧ p10 = q10 ∧ p11 = q11 := by
  simp only [headerOf, DnsHeader.mk.injEq] at h
  obtain ⟨f0, f1, f2, f3, f4, f5, f6, f7, f8, f9, f10, f11, f12, f13, f14⟩ := h
  have a0 := p0.isLt
  have a1 := p1.isLt
  have a2 := p2.isLt
  have a3 := p3.isLt
  have a4 := p4.isLt
  have a5 := p5.isLt
  have a6 := p6.isLt
  have a7 := p7.isLt
  have a8 := p8.isLt
  have a9 := p9.isLt
  have a10 := p10.isLt
  have a11 := p11.isLt
  have b0 := q0.isLt
  have b1 := q1.isLt
  have b2 := q2.isLt
  have b3 := q3.isLt
  have b4 := q4.isLt
  have b5 := q5.isLt
  have b6 := q6.isLt
  have b7 := q7.isLt
  have b8 := q8.isLt
  have b9 := q9.isLt
  have b10 := q10.isLt
  have b11 := q11.isLt
  refine ⟨?_, ?_, ?_, ?_, ?_, ?_, ?_, ?_, ?_, ?_, ?_, ?_⟩ <;> apply Fin.ext <;> omega

/-- C37. `DecodeDns` loses no information on a 12-byte header: two payloads
of exactly 12 bytes for which it returns the same result are equal; and for a
payload of 12 bytes or more it returns what it returns for the first 12
bytes. -/
theorem DecodeDns_injective :
    (∀ p q : List Byte, p.length = 12 → q.length = 12 → DecodeDns p = DecodeDns q → p = q) ∧
    (∀ p : List Byte, 12 ≤ p.length → DecodeDns p = DecodeDns (p.take 12)) := by
  constructor
  · intro p q hp hq h
    obtain ⟨p0, p1, p2, p3, p4, p5, p6, p7, p8, p9, p10, p11, rp, rfl⟩ :=
      exists_cons12 (le_of_eq hp.symm)
    obtain ⟨q0, q1, q2, q3, q4, q5, q6, q7, q8, q9, q10, q11, rq, rfl⟩ :=
      exists_cons12 (le_of_eq hq.symm)
    have hrp : rp = [] := List.length_eq_zero.mp (by simp only [List.length_cons] at hp; omega)
    have hrq : rq = [] := List.length_eq_zero.mp (by simp only [List.length_cons] at hq; omega)
    subst hrp
    subst hrq
    rw [DecodeDns_cons, DecodeDns_cons] at h
    have hh := (Prod.mk.inj (Option.some.inj h)).1
    obtain ⟨e0, e1, e2, e3, e4, e5, e6, e7, e8, e9, e10, e11⟩ :=
      headerOf_injective _ _ _ _ _ _ _ _ _ _ _ _ _ _ _ _ _ _ _ _ _ _ _ _ hh
    rw [e0, e1, e2, e3, e4, e5, e6, e7, e8, e9, e10, e11]
  · intro p hp
    obtain ⟨p0, p1, p2, p3, p4, p5, p6, p7, p8, p9, p10, p11, rp, rfl⟩ := exists_cons12 hp
    have e : (p0 :: p1 :: p2 :: p3 :: p4 :: p5 :: p6 :: p7 :: p8 :: p9 :: p10 :: p11 ::
        rp).take 12 = [p0, p1, p2, p3, p4, p5, p6, p7, p8, p9, p10, p11] := rfl
    rw [e, DecodeDns_cons, DecodeDns_cons]

/-! ## The escaping of SVCB values can be undone (C38) -/

theorem digit_val {d : Nat} (h : d < 10) : (digit d).val = 48 + d := by
  simp only [digit, Fin.ofNat, Nat.succ_eq_add_one]
  omega

theorem renderByte_cancel (b1 b2 : Byte) (r1 r2 : GoString)
    (h : renderByte b1 ++ r1 = renderByte b2 ++ r2) : b1 = b2 ∧ r1 = r2 := by
  have a1 := b1.isLt
  have a2 := b2.isLt
  have d1 := @digit_val (b1.val / 100) (by omega)
  have d2 := @digit_val (b1.val / 10 % 10) (by omega)
  have d3 := @digit_val (b1.val % 10) (by omega)
  have d4 := @digit_val (b2.val / 100) (by omega)
  have d5 := @digit_val (b2.val / 10 % 10) (by omega)
  have d6 := @digit_val (b2.val % 10) (by omega)
  have h92 : ((0x5C : Byte)).val = 92 := rfl
  unfold renderByte at h
  split_ifs at h with c1 c2 c3 c4 c5 c6 c7 c8 <;>
    simp only [List.cons_append, List.nil_append, List.cons.injEq] at h
  all_goals first
    | (obtain ⟨e1, e2, e3⟩ := h
       exact ⟨e2, e3⟩)
    | (obtain ⟨e1, e2⟩ := h
       exact ⟨e1, e2⟩)
    | (exfalso
       obtain ⟨e1, e2, e3, e4, e5⟩ := h
       have v2 := congrArg Fin.val e2
       omega)
    | (exfalso
       obtain ⟨e1, e2, e3⟩ := h
       have v2 := congrArg Fin.val e2
       omega)
    | (exfalso
       obtain ⟨e1, e2⟩ := h
       have v1 := congrArg Fin.val e1
       omega)
    | (obtain ⟨e1, e2, e3, e4, e5⟩ := h
       have v2 := congrArg Fin.val e2
       have v3 := congrArg Fin.val e3
       have v4 := congrArg Fin.val e4
       exact ⟨Fin.ext (by omega), e5⟩)

theorem renderBytes_injective : ∀ s1 s2 : List Byte, renderBytes s1 = renderBytes s2 → s1 = s2 := by
  intro s1
  induction s1 with
  | nil =>
    intro s2 h
    cases s2 with
    | nil => rfl
    | cons b t =>
      exfalso
      unfold renderBytes renderByte at h
      split_ifs at h <;> simp at h
  | cons b1 t1 ih =>
    intro s2 h
    cases s2 with
    | nil =>
      exfalso
      unfold renderBytes renderByte at h
      split_ifs at h <;> simp at h
    | cons b2 t2 =>
      have h' : renderByte b1 ++ renderBytes t1 = renderByte b2 ++ renderBytes t2 := h
      obtain ⟨e1, e2⟩ := renderByte_cancel b1 b2 _ _ h'
      rw [e1, ih t2 e2]

/-- C38. The escaping of `svcbParamToStr` is injective: two byte strings with
the same rendering are equal. -/
theorem svcbParamToStr_injective (s1 s2 : List Byte)
    (h : svcbParamToStr s1 = svcbParamToStr s2) : s1 = s2 := by
  rw [svcbParamToStr_eq, svcbParamToStr_eq] at h
  exact renderBytes_injective s1 s2 (Option.some.inj h)

set_option maxRecDepth 8192 in

theorem svcbParamToStr_injective_witness :
    svcbParamToStr [0x68, 0x00, 0x5C, 0xFF] = some (str "h\\000\\\\\\255") ∧
    ([0x68, 0x00, 0x5C, 0xFF] : List Byte) = [0x68, 0x00, 0x5C, 0xFF] :=
  ⟨by decide, svcbParamToStr_injective [0x68, 0x00, 0x5C, 0xFF] [0x68, 0x00, 0x5C, 0xFF] rfl⟩

/-! ## `ParseSVCB` never panics (C39) -/

theorem ParseSVCParam_total (svcParamKey : Nat) (paramData : List Byte) :
    ∃ text err, ParseSVCParam svcParamKey paramData = some (text, err) ∧
      ∀ e, err = some e → e = ErrDecodeDnsAnswerRdataTooShort := by
  by_cases h : LengthRuleViolated svcParamKey paramData
  · exact ⟨[], _, (ParseSVCParam_outcome svcParamKey paramData).1 h, fun e he => by
      cases he; rfl⟩
  · obtain ⟨text, ht⟩ := (ParseSVCParam_outcome svcParamKey paramData).2 h
    exact ⟨text, none, ht, fun e he => by cases he⟩

theorem ParseSVCB.loop_total (rdata : List Byte) (ret : GoString) :
    ∀ (n : Nat) (offset : Int) (svcParam : List GoString), 0 ≤ offset →
      (len rdata - offset).toNat ≤ n →
      ∃ text err, ParseSVCB.loop rdata ret offset svcParam = some (text, err) ∧
        ∀ e, err = some e → text = [] ∧ e = ErrDecodeDnsAnswerRdataTooShort := by
  intro n
  induction n with
  | zero =>
    intro offset svcParam h0 hn
    rw [ParseSVCB.loop_done ret svcParam (by omega)]
    exact ⟨_, none, rfl, fun e he => by cases he⟩
  | succ n ih =>
    intro offset svcParam h0 hn
    by_cases h : offset < len rdata
    · rw [ParseSVCB.loop, dif_pos h]
      by_cases h4 : len rdata < offset + 4
      · rw [if_pos h4]
        exact ⟨_, _, rfl, fun e he => by cases he; exact ⟨rfl, rfl⟩⟩
      · rw [if_neg h4]
        obtain ⟨k, hk⟩ := @slice_Uint16_isSome rdata offset h0 (by omega)
        obtain ⟨l, hl⟩ := @slice_Uint16_isSome rdata (offset + 2) (by omega) (by omega)
        simp only [hk, hl]
        by_cases hp : len rdata < offset + 2 + 2 + (l : Int)
        · rw [if_pos hp]
          exact ⟨_, _, rfl, fun e he => by cases he; exact ⟨rfl, rfl⟩⟩
        · rw [if_neg hp]
          rw [@slice_eq_some rdata (offset + 2 + 2) (offset + 2 + 2 + (l : Int)) (by omega)
            (by omega) (by omega), Option.some_bind]
          obtain ⟨text, err, hpar, herr⟩ := ParseSVCParam_total k
            ((rdata.drop (offset + 2 + 2).toNat).take
              ((offset + 2 + 2 + (l : Int)).toNat - (offset + 2 + 2).toNat))
          rw [hpar]
          cases err with
          | some e =>
            exact ⟨_, _, rfl, fun e' he' => by cases he'; exact ⟨rfl, herr e rfl⟩⟩
          | none =>
            exact ih _ _ (by omega) (by omega)
    · rw [ParseSVCB.loop_done ret svcParam (by omega)]
      exact ⟨_, none, rfl, fun e he => by cases he⟩

/-- C39. `ParseSVCB` and `ParseSVCParam` never index out of range: on every
RDATA `ParseSVCB` returns (a text or an error, never a panic), and an error it
returns is `ErrDecodeDnsAnswerRdataTooShort` or the error of `ParseLabels` on
the target name; on every key and value `ParseSVCParam` returns, and an error
it returns is `ErrDecodeDnsAnswerRdataTooShort`. -/
theorem ParseSVCB_safe :
    (∀ rdata : List Byte, ∃ text err, ParseSVCB rdata = some (text, err) ∧
      ∀ e, err = some e →
        text = [] ∧
        (e = ErrDecodeDnsAnswerRdataTooShort ∨ ParseLabels 2 rdata = some ([], 0, some e))) ∧
    (∀ (svcParamKey : Nat) (paramData : List Byte),
      ∃ text err, ParseSVCParam svcParamKey paramData = some (text, err) ∧
        ∀ e, err = some e → e = ErrDecodeDnsAnswerRdataTooShort) := by
  refine ⟨?_, ParseSVCParam_total⟩
  intro rdata
  unfold ParseSVCB
  by_cases h3 : len rdata < 3
  · rw [if_pos h3]
    exact ⟨_, _, rfl, fun e he => by cases he; exact ⟨rfl, Or.inl rfl⟩⟩
  · rw [if_neg h3]
    obtain ⟨p, hp⟩ := @slice_Uint16_isSome rdata 0 (le_refl _) (by omega)
    rw [show (2 : Int) = 0 + 2 from rfl, hp]
    simp only [zero_add]
    obtain ⟨⟨name, o, err⟩, hl⟩ := ParseLabels_isSome 2 rdata
    rw [hl]
    cases err with
    | some e =>
      obtain ⟨rfl, rfl⟩ := ParseLabels_error hl
      exact ⟨_, _, rfl, fun e' he' => by cases he'; exact ⟨rfl, Or.inr rfl⟩⟩
    | none =>
      have hb := ParseLabels_end_bounds hl
      simp only
      by_cases ho : len rdata = o
      · rw [if_pos ho]
        exact ⟨_, none, rfl, fun e he => by cases he⟩
      · rw [if_neg ho]
        obtain ⟨text, err, hloop, herr⟩ := ParseSVCB.loop_total rdata
          (decimal p ++ str " " ++ (if name = [] then str "." else name))
          (len rdata - o).toNat o [] (by omega) (le_refl _)
        rw [hloop]
        cases err with
        | none => exact ⟨_, none, rfl, fun e he => by cases he⟩
        | some e =>
          obtain ⟨ht, he⟩ := herr e rfl
          subst he
          subst ht
          exact ⟨_, _, rfl, fun e' he' => by cases he'; exact ⟨rfl, Or.inl rfl⟩⟩

/-! ## Records of a type without an RDATA parser (C32) -/

theorem lookup_mem {k : Int} {v : String} :
    ∀ {l : List (Int × String)}, l.lookup k = some v → (k, v) ∈ l := by
  intro l
  induction l with
  | nil =>
    intro h
    cases h
  | cons hd tl ih =>
    obtain ⟨k', v'⟩ := hd
    intro h
    by_cases hk : k = k'
    · subst hk
      simp only [List.lookup, beq_self_eq_true, Option.some.injEq] at h
      subst h
      exact List.mem_cons_self _ _
    · have hb : (k == k') = false := by simpa using hk
      simp only [List.lookup, hb] at h
      exact List.mem_cons_of_mem _ (ih h)

theorem RdatatypeToString_mem {t : Int} {name : String} (h : (t, name) ∈ Rdatatypes) :
    RdatatypeToString t = str name := by
  have hall : ∀ p ∈ Rdatatypes, Rdatatypes.lookup p.1 = some p.2 := by decide
  have := hall _ h
  unfold RdatatypeToString
  rw [this]

theorem RdatatypeToString_unknown {t : Int} (h : ∀ name, (t, name) ∉ Rdatatypes) :
    RdatatypeToString t = str "UNKNOWN" := by
  unfold RdatatypeToString
  cases hl : Rdatatypes.lookup t with
  | none => rfl
  | some v => exact absurd (lookup_mem hl) (h v)

theorem RdatatypeToString_cases {t : Int}
    (ht : t ∉ [1, 28, 5, 2, 12, 15, 33, 16, 6, 64, 65, 46, 41]) :
    RdatatypeToString t ∉ ParseRdata.cases := by
  have hall : ∀ p ∈ Rdatatypes,
      p.1 ∈ [1, 28, 5, 2, 12, 15, 33, 16, 6, 64, 65, 46, 41] ∨ str p.2 ∉ ParseRdata.cases := by
    decide
  unfold RdatatypeToString
  cases hl : Rdatatypes.lookup t with
  | none =>
    show str UNKNOWN ∉ ParseRdata.cases
    decide
  | some v =>
    rcases hall _ (lookup_mem hl) with h | h
    · exact absurd h ht
    · exact h

theorem ParseRdata_default {rdatatype : GoString} (h : rdatatype ∉ ParseRdata.cases)
    (rdata spare payload : List Byte) (rdata_offset : Int) :
    ParseRdata rdatatype rdata spare payload rdata_offset = some (str "-", none) := by
  simp only [ParseRdata.cases, List.mem_cons, List.mem_singleton, List.not_mem_nil, or_false,
    not_or] at h
  obtain ⟨h1, h2, h3, h4, h5, h6, h7, h8, h9, h10, h11, h12⟩ := h
  unfold ParseRdata
  rw [if_neg h1, if_neg h2, if_neg h3, if_neg h4, if_neg h5, if_neg h6, if_neg h7, if_neg h8,
    if_neg h9, if_neg (not_or.mpr ⟨h10, h11⟩), if_neg h12]

/-- C32. A record whose TYPE is none of A, AAAA, CNAME, NS, PTR, MX, SRV, TXT,
SOA, SVCB, HTTPS, RRSIG, OPT and whose NAME, fixed header and RDLENGTH bytes of
RDATA are present is decoded, whatever the RDATA bytes are, into a record whose
Rdata is "-"; its Rdatatype is `RdatatypeToString` of the TYPE, which is the
mnemonic of the table when the TYPE is in the table and "UNKNOWN" when it is
not. -/
theorem DecodeAnswer_unsupported {payload : List Byte} {off : Int} {nm : GoString}
    {o1 : Int} {t c ttl rdlength : Nat} {rdata : List Byte}
    (h : RecordAt payload off nm o1 t c ttl rdlength rdata) (spare : List Byte)
    (ht : (t : Int) ∉ [1, 28, 5, 2, 12, 15, 33, 16, 6, 64, 65, 46, 41]) :
    DecodeAnswer 1 off payload spare =
      some ([{ Name := nm, Rdatatype := RdatatypeToString (t : Int), Class := (c : Int),
               Ttl := (ttl : Int), Rdata := str "-" }], o1 + 10 + rdlength, none) ∧
    (∀ answers : List DnsAnswer, DecodeAnswer.loop payload spare 1 off answers =
      some (answers ++ [{ Name := nm, Rdatatype := RdatatypeToString (t : Int),
                          Class := (c : Int), Ttl := (ttl : Int), Rdata := str "-" }],
        o1 + 10 + rdlength, none)) ∧
    (∀ name, ((t : Int), name) ∈ Rdatatypes → RdatatypeToString (t : Int) = str name) ∧
    ((∀ name, ((t : Int), name) ∉ Rdatatypes) → RdatatypeToString (t : Int) = str "UNKNOWN") := by
  have h41 : t ≠ 41 := by
    intro e
    subst e
    exact ht (by decide)
  have hloop : ∀ answers : List DnsAnswer, DecodeAnswer.loop payload spare 1 off answers =
      some (answers ++ [{ Name := nm, Rdatatype := RdatatypeToString (t : Int),
                          Class := (c : Int), Ttl := (ttl : Int), Rdata := str "-" }],
        o1 + 10 + rdlength, none) := by
    intro answers
    rw [DecodeAnswer.loop_one_record h, if_neg h41]
    unfold DecodeAnswer.rdataOf
    rw [ParseRdata_default (RdatatypeToString_cases ht)]
  refine ⟨?_, hloop, fun name hm => RdatatypeToString_mem hm, RdatatypeToString_unknown⟩
  unfold DecodeAnswer
  rw [show (1 : Int).toNat = 1 from rfl, hloop]
  rfl

theorem spfResponse_record :
    RecordAt spfResponse 33 (str "www.example.com") 35 99 1 60 3 [0xDE, 0xAD, 0xBE] :=
  ⟨ParseLabels_of_runN 5
      (r := ([.read 33, .read 33, .read 34, .jump 33 12,
          .read 12, .read 13, .read 14, .read 15,
          .read 16, .read 17, .read 18, .read 19, .read 20, .read 21, .read 22, .read 23,
          .read 24, .read 25, .read 26, .read 27, .read 28],
        some (str "www.example.com", 35, none)))
      (by decide) (by decide),
    by decide, by decide, by decide, by decide, by decide, by decide⟩

theorem DecodeAnswer_unsupported_witness :
    DecodeAnswer 1 33 spfResponse [] =
      some ([{ Name := str "www.example.com", Rdatatype := str "SPF", Class := 1, Ttl := 60,
               Rdata := str "-" }], 48, none) :=
  (DecodeAnswer_unsupported spfResponse_record [] (by decide)).1

/-! ## The text of an AAAA record (C31) -/

theorem exists_list16 {l : List Byte} (h : l.length = 16) :
    ∃ b0 b1 b2 b3 b4 b5 b6 b7 b8 b9 b10 b11 b12 b13 b14 b15,
      l = [b0, b1, b2, b3, b4, b5, b6, b7, b8, b9, b10, b11, b12, b13, b14, b15] := by
  obtain ⟨b0, b1, b2, b3, b4, b5, b6, b7, b8, b9, b10, b11, rest, rfl⟩ :=
    exists_cons12 (le_of_lt (by rw [h]; decide : 12 < l.length))
  rcases rest with _ | ⟨b12, _ | ⟨b13, _ | ⟨b14, _ | ⟨b15, _ | ⟨b16, rest⟩⟩⟩⟩⟩
  all_goals first
    | exact ⟨_, _, _, _, _, _, _, _, _, _, _, _, _, _, _, _, rfl⟩
    | (simp only [List.length_cons, List.length_nil] at h; omega)

theorem ParseAAAA_sixteen (rdata : List Byte) (h : len rdata = 16) :
    ParseAAAA rdata = some (IP.String rdata, none) := by
  unfold ParseAAAA
  rw [if_neg (by omega), sliceTo_eq_some (by omega) (by omega)]
  have e : rdata.take (16 : Int).toNat = rdata := List.take_of_length_le (by
    unfold len at h
    have : (16 : Int).toNat = 16 := rfl
    omega)
  rw [e]

theorem IP.To4_none (b0 b1 b2 b3 b4 b5 b6 b7 b8 b9 b10 b11 b12 b13 b14 b15 : Byte)
    (h : ¬ ∃ a b c d : Byte,
      [b0, b1, b2, b3, b4, b5, b6, b7, b8, b9, b10, b11, b12, b13, b14, b15] =
        [0, 0, 0, 0, 0, 0, 0, 0, 0, 0, 255, 255, a, b, c, d]) :
    IP.To4 [b0, b1, b2, b3, b4, b5, b6, b7, b8, b9, b10, b11, b12, b13, b14, b15] = none := by
  unfold IP.To4
  rw [if_neg (by simp), if_neg]
  rintro ⟨-, hz, h10, h11⟩
  apply h
  simp only [List.take, List.all_cons, List.all_nil, Bool.and_true, Bool.and_eq_true,
    decide_eq_true_eq] at hz
  obtain ⟨z0, z1, z2, z3, z4, z5, z6, z7, z8, z9⟩ := hz
  simp at h10 h11
  refine ⟨b12, b13, b14, b15, ?_⟩
  rw [Fin.ext (a := b0) (b := 0) z0, Fin.ext (a := b1) (b := 0) z1,
    Fin.ext (a := b2) (b := 0) z2, Fin.ext (a := b3) (b := 0) z3,
    Fin.ext (a := b4) (b := 0) z4, Fin.ext (a := b5) (b := 0) z5,
    Fin.ext (a := b6) (b := 0) z6, Fin.ext (a := b7) (b := 0) z7,
    Fin.ext (a := b8) (b := 0) z8, Fin.ext (a := b9) (b := 0) z9, h10, h11]

theorem IP.text6_colon (l : List Byte) (h : l.length = 16) : (58 : Byte) ∈ IP.text6 l := by
  obtain ⟨b0, b1, b2, b3, b4, b5, b6, b7, b8, b9, b10, b11, b12, b13, b14, b15, rfl⟩ :=
    exists_list16 h
  have hc : (58 : Byte) ∈ str ":" := by decide
  have hcc : (58 : Byte) ∈ str "::" := by decide
  unfold IP.text6
  simp only
  split_ifs
  · simp only [IP.groups, List.map_cons]
    rw [Join_cons_cons]
    exact List.mem_append_left _ (List.mem_append_right _ hc)
  · exact List.mem_append_left _ (List.mem_append_right _ hcc)

set_option maxRecDepth 100000 in

theorem decimal_no_colon : ∀ b : Byte, (58 : Byte) ∉ decimal b.val := by
  decide

theorem dotted_no_colon (a b c d : Byte) :
    (58 : Byte) ∉ Join [decimal a.val, decimal b.val, decimal c.val, decimal d.val] (str ".") := by
  intro h
  rcases mem_Join h with h1 | ⟨l, hl, h1⟩
  · exact absurd h1 (by decide)
  · simp only [List.mem_cons, List.mem_singleton, List.not_mem_nil, or_false] at hl
    rcases hl with rfl | rfl | rfl | rfl
    · exact decimal_no_colon a h1
    · exact decimal_no_colon b h1
    · exact decimal_no_colon c h1
    · exact decimal_no_colon d h1

/-- C31 (as amended). On fewer than 16 bytes `ParseAAAA` fails with
`ErrDecodeDnsAnswerRdataTooShort`. On 16 bytes it succeeds: unless the bytes
are an IPv4-mapped address (ten zero bytes, `FF FF`, then four bytes), the text
is the IPv6 text of the 16 bytes, which holds a colon and is no dotted-decimal
string; for an IPv4-mapped address the text is the dotted decimal of the last
four bytes, the text `ParseA` gives for them. -/
theorem ParseAAAA_text :
    (∀ rdata : List Byte, len rdata < 16 →
      ParseAAAA rdata = some ([], some ErrDecodeDnsAnswerRdataTooShort)) ∧
    (∀ rdata : List Byte, len rdata = 16 →
      (¬ ∃ a b c d : Byte, rdata = [0, 0, 0, 0, 0, 0, 0, 0, 0, 0, 255, 255, a, b, c, d]) →
      ParseAAAA rdata = some (IP.text6 rdata, none) ∧ (58 : Byte) ∈ IP.text6 rdata ∧
      ∀ a b c d : Byte, IP.text6 rdata ≠
        Join [decimal a.val, decimal b.val, decimal c.val, decimal d.val] (str ".")) ∧
    (∀ a b c d : Byte,
      ParseAAAA [0, 0, 0, 0, 0, 0, 0, 0, 0, 0, 255, 255, a, b, c, d] =
        some (Join [decimal a.val, decimal b.val, decimal c.val, decimal d.val] (str "."),
          none) ∧
      ParseAAAA [0, 0, 0, 0, 0, 0, 0, 0, 0, 0, 255, 255, a, b, c, d] = ParseA [a, b, c, d]) := by
  refine ⟨?_, ?_, ?_⟩
  · intro rdata h
    unfold ParseAAAA
    rw [if_pos h]
  · intro rdata h hn
    have hl : rdata.length = 16 := by
      unfold len at h
      omega
    have hcolon := IP.text6_colon rdata hl
    obtain ⟨b0, b1, b2, b3, b4, b5, b6, b7, b8, b9, b10, b11, b12, b13, b14, b15, rfl⟩ :=
      exists_list16 hl
    refine ⟨?_, hcolon, ?_⟩
    · rw [ParseAAAA_sixteen _ h]
      unfold IP.String
      rw [IP.To4_none _ _ _ _ _ _ _ _ _ _ _ _ _ _ _ _ hn]
    · intro a b c d e
      rw [e] at hcolon
      exact dotted_no_colon a b c d hcolon
  · intro a b c d
    have e := ParseAAAA_sixteen [0, 0, 0, 0, 0, 0, 0, 0, 0, 0, 255, 255, a, b, c, d] rfl
    constructor
    · rw [e]
      rfl
    · rw [e]
      rfl

/-- C31 (the claim as stated fails). The IPv4-mapped address `::ffff:1.2.3.4`
is 16 bytes of AAAA RDATA that `ParseAAAA` renders as the dotted-decimal string
`1.2.3.4`, the text `ParseA` gives for the four bytes `01 02 03 04`; it holds
no colon. -/
theorem ParseAAAA_text_counterexample :
    len [0, 0, 0, 0, 0, 0, 0, 0, 0, 0, 255, 255, 1, 2, 3, 4] = 16 ∧
    ParseAAAA [0, 0, 0, 0, 0, 0, 0, 0, 0, 0, 255, 255, 1, 2, 3, 4] =
      some (str "1.2.3.4", none) ∧
    ParseA [1, 2, 3, 4] = some (str "1.2.3.4", none) ∧
    (58 : Byte) ∉ str "1.2.3.4" := by
  decide

/-! ## Messages with no question: the claims about the answer section (C20, C21, C36) -/

theorem pointerOnly_record : RecordAt pointerOnly 0 [] 1 384 0 256 0 [] :=
  ⟨ParseLabels_of_runN 1 (r := ([.read 0], some ([], 1, none))) (by decide) (by decide),
    by decide, by decide, by decide, by decide, by decide, by decide⟩

theorem pointerOnly_answers : DecodeAnswer 1 0 pointerOnly [] = some ([headerRecord], 11, none) := by
  have hr : DecodeAnswer.rdataOf pointerOnly [] 1 384 0 [] = some (str "-", none) := by decide
  unfold DecodeAnswer
  rw [Int.toNat_one, DecodeAnswer.loop_one_record pointerOnly_record, if_neg (by decide), hr]
  rfl

theorem pointerOnly_answers_at_12 :
    DecodeAnswer 1 12 pointerOnly [] =
      some ([], 12, some ErrDecodeDnsLabelInvalidPointer) := by
  have hpl : ParseLabels 12 pointerOnly = some ([], 0, some ErrDecodeDnsLabelInvalidPointer) :=
    ParseLabels_of_runN 1
      (r := ([.read 12, .read 12, .read 13], some ([], 0, some ErrDecodeDnsLabelInvalidPointer)))
      (by decide) (by decide)
  unfold DecodeAnswer
  rw [Int.toNat_one]
  simp only [DecodeAnswer.loop, hpl]

theorem truncatedNoQuestion_answers :
    DecodeAnswer 1 0 truncatedNoQuestion [] =
      some ([], 0, some ErrDecodeDnsLabelInvalidPointer) := by
  have hpl : ParseLabels 0 truncatedNoQuestion =
      some ([], 0, some ErrDecodeDnsLabelInvalidPointer) :=
    ParseLabels_of_runN 1
      (r := ([.read 0, .read 0, .read 1], some ([], 0, some ErrDecodeDnsLabelInvalidPointer)))
      (by decide) (by decide)
  unfold DecodeAnswer
  rw [Int.toNat_one]
  simp only [DecodeAnswer.loop, hpl]

theorem truncatedNoQuestion_answers_at_12 :
    DecodeAnswer 1 12 truncatedNoQuestion [] =
      some ([], 12, some ErrDecodeDnsAnswerTooShort) := by
  have hpl : ParseLabels 12 truncatedNoQuestion = some ([], 13, none) :=
    ParseLabels_of_runN 1 (r := ([.read 12], some ([], 13, none))) (by decide) (by decide)
  unfold DecodeAnswer
  rw [Int.toNat_one, DecodeAnswer.loop_one_too_short hpl (by decide)]

/-- C20 (the code does not do what the claim says). S4 is not marked
malformed, its header has `Tc = 1`, `Nscount = 0`, `Arcount = 0` and no
question, so that the question section decodes (to offset 12), and decoding the
answer section, at offset 12, fails with `ErrDecodeDnsAnswerTooShort` and the
empty partial list. `DecodePayload` does return no error, but it does not set
`MalformedPacket` and the answers list is not the partial list: it decodes the
answer section from offset 0 and stores the record it reads out of the header
bytes. -/
theorem DecodePayload_tc_downgrade_without_question
    (DecodeEDNS : Int → Int → List Byte → Option (Unit × Int × Option DnsErr)) :
    DecodeDns S4 = some (S4header, none) ∧
    (freshMessage S4).DNS.MalformedPacket = false ∧
    S4header.Tc = 1 ∧ S4header.Nscount = 0 ∧ S4header.Arcount = 0 ∧
    DecodeQuestion S4header.Qdcount S4 = some ([], 0, 12, none) ∧
    DecodeAnswer S4header.Ancount 12 S4 [] = some ([], 12, some ErrDecodeDnsAnswerTooShort) ∧
    isTruncation ErrDecodeDnsAnswerTooShort ∧
    (∃ dm', DecodePayload DecodeEDNS (freshMessage S4) S4header {} [] = some (dm', none) ∧
      dm'.DNS.MalformedPacket = false ∧ dm'.DNS.DnsRRs.Answers = [headerRecord]) ∧
    ¬ ∃ dm', DecodePayload DecodeEDNS (freshMessage S4) S4header {} [] = some (dm', none) ∧
      dm'.DNS.MalformedPacket = true ∧ dm'.DNS.DnsRRs.Answers = [] := by
  obtain ⟨dm', h, h1, h2⟩ := DecodePayload.answers_only DecodeEDNS (freshMessage S4) S4header {}
    [] 0 11 [headerRecord] rfl (fun h => absurd h (by decide)) (fun _ => rfl) S4_answers rfl rfl
  refine ⟨by decide, rfl, rfl, rfl, rfl, by decide, S4_answers_at_12, Or.inl rfl,
    ⟨dm', h, h1, h2 (by decide)⟩, ?_⟩
  rintro ⟨dm2, h3, h4, -⟩
  rw [h] at h3
  have e := (Prod.mk.inj (Option.some.inj h3)).1
  rw [← e, h1] at h4
  cases h4

/-- C21 (the code does not do what the claim says). `pointerOnly` is not
marked malformed, its header has `Tc = 0` and no question, so that the question
section decodes (to offset 12), and decoding the answer section, at offset 12,
fails with `ErrDecodeDnsLabelInvalidPointer`, which is none of the three
truncation errors. `DecodePayload` neither sets `MalformedPacket` nor returns
an error: it decodes the answer section from offset 0, reads a record out of
the header bytes and succeeds. -/
theorem DecodePayload_section_error_without_question
    (DecodeEDNS : Int → Int → List Byte → Option (Unit × Int × Option DnsErr)) :
    DecodeDns pointerOnly = some (answerOnlyHeader, none) ∧
    (freshMessage pointerOnly).DNS.MalformedPacket = false ∧
    answerOnlyHeader.Tc = 0 ∧ (freshMessage pointerOnly).DNS.Flags.TC = false ∧
    DecodeQuestion answerOnlyHeader.Qdcount pointerOnly = some ([], 0, 12, none) ∧
    DecodeAnswer answerOnlyHeader.Ancount 12 pointerOnly [] =
      some ([], 12, some ErrDecodeDnsLabelInvalidPointer) ∧
    ¬ isTruncation ErrDecodeDnsLabelInvalidPointer ∧
    (∃ dm', DecodePayload DecodeEDNS (freshMessage pointerOnly) answerOnlyHeader {} [] =
        some (dm', none) ∧
      dm'.DNS.MalformedPacket = false ∧ dm'.DNS.DnsRRs.Answers = [headerRecord]) ∧
    ¬ ∃ dm', DecodePayload DecodeEDNS (freshMessage pointerOnly) answerOnlyHeader {} [] =
        some (dm', some { part := "answer records", err := ErrDecodeDnsLabelInvalidPointer }) := by
  obtain ⟨dm', h, h1, h2⟩ := DecodePayload.answers_only DecodeEDNS (freshMessage pointerOnly)
    answerOnlyHeader {} [] 0 11 [headerRecord] rfl (fun h => absurd h (by decide)) (fun _ => rfl)
    pointerOnly_answers rfl rfl
  refine ⟨by decide, rfl, rfl, rfl, by decide, pointerOnly_answers_at_12, by decide,
    ⟨dm', h, h1, h2 (by decide)⟩, ?_⟩
  rintro ⟨dm2, h3⟩
  rw [h] at h3
  have e := (Prod.mk.inj (Option.some.inj h3)).2
  cases e

/-- C36 (the code does not do what the claim says). `truncatedNoQuestion` is
not marked malformed, its header has `Tc = 1`, `Nscount = 1`, `Arcount = 0` and
no question, and decoding the answer section, at offset 12, fails with
`ErrDecodeDnsAnswerTooShort`. `DecodePayload` does not return without an
error: it decodes the answer section from offset 0, where the first byte of
the id, `C0`, is read as a pointer that does not point backward, and returns the
error of part "answer records" with the cause
`ErrDecodeDnsLabelInvalidPointer`. -/
theorem DecodePayload_downgrade_without_question
    (DecodeEDNS : Int → Int → List Byte → Option (Unit × Int × Option DnsErr)) :
    DecodeDns truncatedNoQuestion = some (truncatedNoQuestionHeader, none) ∧
    (freshMessage truncatedNoQuestion).DNS.MalformedPacket = false ∧
    truncatedNoQuestionHeader.Tc = 1 ∧ 1 ≤ truncatedNoQuestionHeader.Nscount ∧
    truncatedNoQuestionHeader.Arcount = 0 ∧
    DecodeQuestion truncatedNoQuestionHeader.Qdcount truncatedNoQuestion =
      some ([], 0, 12, none) ∧
    DecodeAnswer truncatedNoQuestionHeader.Ancount 12 truncatedNoQuestion [] =
      some ([], 12, some ErrDecodeDnsAnswerTooShort) ∧
    isTruncation ErrDecodeDnsAnswerTooShort ∧
    DecodeAnswer truncatedNoQuestionHeader.Ancount 0 truncatedNoQuestion [] =
      some ([], 0, some ErrDecodeDnsLabelInvalidPointer) ∧
    (∃ dm', DecodePayload DecodeEDNS (freshMessage truncatedNoQuestion)
          truncatedNoQuestionHeader {} [] =
        some (dm', some { part := "answer records", err := ErrDecodeDnsLabelInvalidPointer }) ∧
      dm'.DNS.MalformedPacket = true) ∧
    ¬ ∃ dm', DecodePayload DecodeEDNS (freshMessage truncatedNoQuestion)
        truncatedNoQuestionHeader {} [] = some (dm', none) := by
  obtain ⟨dm1, h1, hpay, _, _, _, _⟩ :=
    DecodePayload.question_pass DecodeEDNS (freshMessage truncatedNoQuestion)
      truncatedNoQuestionHeader {} [] 0 rfl (fun h => absurd h (by decide)) (fun _ => rfl)
  have h2 := DecodePayload.answers_error DecodeEDNS dm1 truncatedNoQuestionHeader [] 0 [] 0
    ErrDecodeDnsLabelInvalidPointer (by rw [hpay]; exact truncatedNoQuestion_answers)
    (fun h => absurd h.2 (by decide))
  rw [← h1] at h2
  refine ⟨by decide, rfl, rfl, by decide, rfl, by decide, truncatedNoQuestion_answers_at_12,
    Or.inl rfl, truncatedNoQuestion_answers, ⟨_, h2, rfl⟩, ?_⟩
  rintro ⟨dm2, h3⟩
  rw [h2] at h3
  have e := (Prod.mk.inj (Option.some.inj h3)).2
  cases e

end Dnsutils
